import Mathlib

/-!
# Display manager of the hardware composer (`wsi/drm/drmdisplaymanager.cpp`)

A shallow embedding of `hwcomposer::DrmDisplayManager`: device discovery,
master arbitration, the hot-plug datagram scan and the reconciliation pass
`UpdateDisplayState`, followed by the properties established about them.

Conventions of the embedding.

* Kernel queries (`drmModeGetResources`, `drmModeGetConnector`,
  `drmModeGetEncoder`, `drmSetMaster`, ...) are functions supplied by a
  simulated kernel; a failed query is `none` (a null pointer) or a non-zero
  return code.
* A C++ exception (`std::vector::at` out of range) and a loop that does not
  terminate are values of `Fault`; every operation that can raise one returns
  `Except Fault _`.
* Calls that leave the manager (lock operations, client callbacks, kernel
  master calls) are appended to the `log` of the manager, oldest first.
* The lock events follow the default build (`USE_MUTEX` undefined), where the
  shared-state lock is `spin_lock_`.
-/

namespace hwcomposer

/-! ## Kernel data (`xf86drmMode.h`) -/

/-- Value of `DRM_MODE_CONNECTED` in `xf86drmMode.h`. -/
def DRM_MODE_CONNECTED : Nat := 1

/-- Value of `DRM_MODE_TYPE_PREFERRED` in `drm_mode.h` (`1 << 3`). -/
def DRM_MODE_TYPE_PREFERRED : Nat := 8

/-- Value of `ENODEV` in `errno.h`. -/
def ENODEV : Int := 19

/-- Value of `EACCES` in `errno.h`. -/
def EACCES : Int := 13

/-- The fields of `drmModeModeInfo` the manager reads: the type flags; the
timing of the mode is kept as one number. -/
structure drmModeModeInfo where
  type : Nat
  timing : Nat := 0
  deriving DecidableEq, Repr

/-- The fields of `drmModeConnector` the manager reads; `count_modes` and
`count_encoders` are the lengths of the two lists. -/
structure drmModeConnector where
  connector_id : Nat
  connection : Nat
  modes : List drmModeModeInfo
  encoder_id : Nat
  encoders : List Nat
  deriving DecidableEq, Repr

/-- The fields of `drmModeEncoder` the manager reads. -/
structure drmModeEncoder where
  encoder_id : Nat
  crtc_id : Nat
  possible_crtcs : Nat
  deriving DecidableEq, Repr

/-- The fields of `drmModeRes` the manager reads. -/
structure drmModeRes where
  crtcs : List Nat
  connectors : List Nat
  deriving DecidableEq, Repr

/-- The simulated kernel seen by one reconciliation pass. -/
structure Kernel where
  /-- Result of `drmModeGetResources(fd_)`. -/
  drmModeGetResources : Option drmModeRes
  /-- Result of `drmModeGetConnector(fd_, id)`. -/
  drmModeGetConnector : Nat → Option drmModeConnector
  /-- Result of `drmModeGetEncoder(fd_, id)`. -/
  drmModeGetEncoder : Nat → Option drmModeEncoder
  /-- Outcome of the bind attempt `ConnectDisplay` of the display on pipe
  `pipe` to the connector `connector_id`. -/
  connectOk : (pipe : Nat) → (connector_id : Nat) → Bool

/-- What can stop an operation short of its return. -/
inductive Fault where
  /-- The exception `std::out_of_range` thrown by `std::vector::at`. -/
  | out_of_range
  /-- An access outside an array that is not checked (undefined behaviour). -/
  | undefined
  /-- The loop was still running when the step budget ran out. -/
  | fuel
  deriving DecidableEq, Repr

/-- What the manager does to the outside, in order. -/
inductive Event where
  | lock
  | unlock
  | drmGetMagic
  | drmAuthMagic
  | drmSetMaster
  | drmDropMaster
  | usleep (us : Nat)
  | DisConnect (pipe : Nat)
  | Callback (connected_displays : List Nat)
  | NotifyClientOfConnectedState (pipe : Nat)
  | NotifyClientOfDisConnectedState (pipe : Nat)
  | ReleaseUnreservedPlanes (pipe : Nat) (reserved_planes : List Nat)
  deriving DecidableEq, Repr

/-! ## Display Entity -/

/-- Modelled from the spec: the class `DrmDisplay` (`drmdisplay.cpp`,
`physicaldisplay.cpp`) is not among the sources. A Display Entity holds its
pipeline index, its pipeline id, the currently bound output id (0 when
disconnected), its connection state with the pending-disconnect mark, the
list of supported modes, the index of the active mode and the flag saying
that unreserved planes were already pruned. -/
structure DrmDisplay where
  pipe_ : Nat
  crtc_id_ : Nat
  connector_ : Nat := 0
  connected_ : Bool := false
  pending_disconnect_ : Bool := false
  modes_ : List drmModeModeInfo := []
  config_ : Nat := 0
  planes_updated_ : Bool := false
  deriving DecidableEq, Repr

namespace DrmDisplay

/-- Modelled from the spec: `DrmDisplay::CrtcId`, the pipeline id. -/
def CrtcId (d : DrmDisplay) : Nat := d.crtc_id_

/-- Modelled from the spec: `DrmDisplay::GetDisplayPipe`, the pipeline
index. -/
def GetDisplayPipe (d : DrmDisplay) : Nat := d.pipe_

/-- Modelled from the spec: `DrmDisplay::GetConnectorID`, the bound output
id. -/
def GetConnectorID (d : DrmDisplay) : Nat := d.connector_

/-- Modelled from the spec: `DrmDisplay::IsConnected`. An entity marked
pending-disconnect is "not yet connected" until a bind attempt succeeds. -/
def IsConnected (d : DrmDisplay) : Bool := d.connected_ && !d.pending_disconnect_

/-- Modelled from the spec: `DrmDisplay::MarkForDisconnect` marks the entity
pending-disconnect. -/
def MarkForDisconnect (d : DrmDisplay) : DrmDisplay :=
  { d with pending_disconnect_ := true }

/-- Modelled from the spec: the effect of a successful
`DrmDisplay::ConnectDisplay(mode_info, connector, config)`: the entity is
Connected, bound to the output id of the connector, with `config` the index
of the active mode. -/
def ConnectDisplay (d : DrmDisplay) (connector : drmModeConnector) (config : Nat) :
    DrmDisplay :=
  { d with connected_ := true, pending_disconnect_ := false,
           connector_ := connector.connector_id, config_ := config }

/-- Modelled from the spec: `DrmDisplay::SetDrmModeInfo` stores the list of
supported modes. -/
def SetDrmModeInfo (d : DrmDisplay) (mode : List drmModeModeInfo) : DrmDisplay :=
  { d with modes_ := mode }

/-- Modelled from the spec: `DrmDisplay::DisConnect`, the transition to
Disconnected, which releases the prior mode and output association. -/
def DisConnect (d : DrmDisplay) : DrmDisplay :=
  { d with connected_ := false, pending_disconnect_ := false, connector_ := 0,
           modes_ := [], config_ := 0 }

/-- Modelled from the spec: `DrmDisplay::IsPlanesUpdated`, the pruned
flag. -/
def IsPlanesUpdated (d : DrmDisplay) : Bool := d.planes_updated_

/-- Modelled from the spec: `DrmDisplay::SetPlanesUpdated`. -/
def SetPlanesUpdated (d : DrmDisplay) (updated : Bool) : DrmDisplay :=
  { d with planes_updated_ := updated }

end DrmDisplay

/-! ## Manager state -/

/-- Build-time switches and the configuration held by `device_`. -/
structure Config where
  /-- The macro `ENABLE_ANDROID_WA` is defined. -/
  ENABLE_ANDROID_WA : Bool := false
  /-- The macro `DISABLE_HOTPLUG_NOTIFICATION` is defined. -/
  DISABLE_HOTPLUG_NOTIFICATION : Bool := false
  /-- Result of `device_.IsReservedDrmPlane()`. -/
  IsReservedDrmPlane : Bool := false
  /-- Result of `device_.GetDisplayReservedPlanes(i)`. -/
  GetDisplayReservedPlanes : Nat → List Nat := fun _ => []

/-- A software-only display created by `new VirtualDisplay(fd_,
buffer_handler_.get(), display_index, 0)`: `handle` is the address of the
object, which is what `CreateVirtualDisplay` returns. -/
structure VirtualDisplay where
  handle : Nat
  fd : Int
  display_index : Nat
  deriving DecidableEq, Repr

/-- The members of `DrmDisplayManager` the modelled operations use. -/
structure DrmDisplayManager where
  displays_ : List DrmDisplay := []
  connected_display_count_ : Nat := 0
  /-- Whether a hot-plug callback is registered (`callback_` is not null). -/
  callback_ : Bool := false
  notify_client_ : Bool := false
  drm_master_ : Bool := false
  fd_ : Int := -1
  offscreen_fd_ : Int := -1
  device_num_ : Nat := 0
  hotplug_fd_ : Int := -1
  /-- Modelled from the spec: the member `virtual_displays_` is declared in
  the header, which is not among the sources. It is the ownership map of the
  virtual displays, keyed by the index (the calls `emplace`, `at`, `find`
  and `erase` are those of `std::map`): a list of entries with at most one
  entry for a key. -/
  virtual_displays_ : List (Nat × VirtualDisplay) := []
  log : List Event := []
  deriving DecidableEq, Repr

/-- Appends events to the log of the manager. -/
def DrmDisplayManager.emit (m : DrmDisplayManager) (es : List Event) : DrmDisplayManager :=
  { m with log := m.log ++ es }

/-! ## Master arbitration -/

/-- The do-while loop of `DrmDisplayManager::setDrmMaster`. `drmSetMaster n`
is the return code of the `n`-th call of `drmSetMaster(fd_)` of this
invocation (0 is success), `attempt` the number of calls made so far and
`retry_times` the `uint8_t` counter. -/
def setDrmMasterLoop (must_set : Bool) (drmSetMaster : Nat → Int) :
    (fuel : Nat) → (attempt : Nat) → (retry_times : Nat) → DrmDisplayManager →
    Except Fault DrmDisplayManager
  | 0, _, _, _ => .error .fuel
  | fuel + 1, attempt, retry_times, m =>
    let ret := drmSetMaster attempt
    let retry_times := if !must_set then (retry_times + 1) % 256 else retry_times
    let m := if ret ≠ 0
      then { m with drm_master_ := false, log := m.log ++ [.drmSetMaster, .usleep 10000] }
      else { m with drm_master_ := true, log := m.log ++ [.drmSetMaster] }
    if ret ≠ 0 ∧ retry_times < 10 then
      setDrmMasterLoop must_set drmSetMaster fuel (attempt + 1) retry_times m
    else .ok m

/-- The method `DrmDisplayManager::setDrmMaster(must_set)`. -/
def setDrmMaster (must_set : Bool) (drmSetMaster : Nat → Int) (fuel : Nat)
    (m : DrmDisplayManager) : Except Fault DrmDisplayManager :=
  let m := m.emit [.lock]
  if m.drm_master_ then .ok (m.emit [.unlock])
  else do
    let m ← setDrmMasterLoop must_set drmSetMaster fuel 0 0 m
    pure (m.emit [.unlock])

/-- The do-while loop of `DrmDisplayManager::DropDrmMaster`. -/
def DropDrmMasterLoop (drmDropMaster : Nat → Int) :
    (fuel : Nat) → (attempt : Nat) → (retry_times : Nat) → DrmDisplayManager →
    Except Fault DrmDisplayManager
  | 0, _, _, _ => .error .fuel
  | fuel + 1, attempt, retry_times, m =>
    let ret := drmDropMaster attempt
    let retry_times := (retry_times + 1) % 256
    let m := if ret ≠ 0
      then { m with log := m.log ++ [.drmDropMaster, .usleep 10000] }
      else { m with drm_master_ := false, log := m.log ++ [.drmDropMaster] }
    if ret ≠ 0 ∧ retry_times < 10 then
      DropDrmMasterLoop drmDropMaster fuel (attempt + 1) retry_times m
    else .ok m

/-- The method `DrmDisplayManager::DropDrmMaster`. -/
def DropDrmMaster (drmDropMaster : Nat → Int) (fuel : Nat) (m : DrmDisplayManager) :
    Except Fault DrmDisplayManager :=
  let m := m.emit [.lock]
  if !m.drm_master_ then .ok (m.emit [.unlock])
  else do
    let m ← DropDrmMasterLoop drmDropMaster fuel 0 0 m
    pure (m.emit [.unlock])

/-- The method `DrmDisplayManager::IsDrmMasterByDefault`; `drmGetMagic` and
`drmAuthMagic` are the return codes of the two kernel calls. -/
def IsDrmMasterByDefault (drmGetMagic drmAuthMagic : Int) (m : DrmDisplayManager) :
    Bool × DrmDisplayManager :=
  let m := m.emit [.lock]
  if m.drm_master_ then (m.drm_master_, m.emit [.unlock])
  else
    let m := m.emit [.drmGetMagic]
    let m := if drmGetMagic ≠ 0 then m
      else
        let m := m.emit [.drmAuthMagic]
        if drmAuthMagic ≠ 0 then m else { m with drm_master_ := true }
    (m.drm_master_, m.emit [.unlock])

/-- Number of calls of `drmSetMaster` recorded in a log. -/
def setMasterAttempts (log : List Event) : Nat := log.count .drmSetMaster

/-- Number of calls of `drmDropMaster` recorded in a log. -/
def dropMasterAttempts (log : List Event) : Nat := log.count .drmDropMaster

/-! ## Reconciliation (`UpdateDisplayState`) -/

/-- The loop that copies the modes of a connector and computes
`preferred_mode`: `i` is the index of the head of the list, `preferred_mode`
the value of the variable before the head is looked at. -/
def preferredModeLoop : List drmModeModeInfo → (i : Nat) → (preferred_mode : Nat) → Nat
  | [], _, preferred_mode => preferred_mode
  | md :: rest, i, preferred_mode =>
    preferredModeLoop rest (i + 1)
      (if md.type &&& DRM_MODE_TYPE_PREFERRED ≠ 0 then i else preferred_mode)

/-- The value of `preferred_mode` handed to the bind attempt. -/
def preferredMode (modes : List drmModeModeInfo) : Nat := preferredModeLoop modes 0 0

/-- The first loop over the connectors, which counts the connected ones in
the `uint32_t` member `connected_display_count_`; a failed query leaves the
loop (`break`). -/
def countConnected (K : Kernel) : List Nat → Nat → Nat
  | [], count => count
  | id :: rest, count =>
    match K.drmModeGetConnector id with
    | none => count
    | some connector =>
      if connector.connection ≠ DRM_MODE_CONNECTED then countConnected K rest count
      else countConnected K rest ((count + 1) % 2 ^ 32)

/-- The range-for over `displays_` of both sub-passes: the first display that
is not connected, satisfies `eligible` and whose `ConnectDisplay` succeeds is
bound, receives the mode list, and ends the loop. `mode.at(preferred_mode)`
is evaluated when the first two conditions hold and throws when the index is
out of range. -/
def connectLoop (K : Kernel) (connector : drmModeConnector) (mode : List drmModeModeInfo)
    (preferred_mode : Nat) (eligible : DrmDisplay → Bool) :
    List DrmDisplay → Except Fault (List DrmDisplay)
  | [] => .ok []
  | display :: rest =>
    if !display.IsConnected && eligible display then
      match mode[preferred_mode]? with
      | none => .error .out_of_range
      | some _ =>
        if K.connectOk display.GetDisplayPipe connector.connector_id then
          .ok (((display.ConnectDisplay connector preferred_mode).SetDrmModeInfo mode) :: rest)
        else
          match connectLoop K connector mode preferred_mode eligible rest with
          | .ok rest => .ok (display :: rest)
          | .error e => .error e
    else
      match connectLoop K connector mode preferred_mode eligible rest with
      | .ok rest => .ok (display :: rest)
      | .error e => .error e

/-- The condition `encoder->crtc_id == display->CrtcId()` of the first
sub-pass. -/
def crtcMatches (encoder : drmModeEncoder) (display : DrmDisplay) : Bool :=
  encoder.crtc_id == display.CrtcId

/-- The condition `encoder->possible_crtcs & (1 << display->GetDisplayPipe())`
of the second sub-pass, in 32-bit arithmetic. For a pipe of 32 or more the
shift is undefined in C++; here it yields 0 and the test fails. -/
def canDrive (encoder : drmModeEncoder) (display : DrmDisplay) : Bool :=
  encoder.possible_crtcs &&& ((1 <<< display.GetDisplayPipe) % 2 ^ 32) != 0

/-- The second loop over the connectors (first sub-pass): `connectors` is what
is left of `res->connectors`, `i` the index of its head, `no_encoder` the
indices deferred so far. -/
def connectEncoders (K : Kernel) :
    (connectors : List Nat) → (i : Nat) → (no_encoder : List Nat) → List DrmDisplay →
    Except Fault (List DrmDisplay × List Nat)
  | [], _, no_encoder, displays => .ok (displays, no_encoder)
  | id :: rest, i, no_encoder, displays =>
    match K.drmModeGetConnector id with
    | none => .ok (displays, no_encoder)
    | some connector =>
      if connector.connection ≠ DRM_MODE_CONNECTED then
        connectEncoders K rest (i + 1) no_encoder displays
      else if connector.modes.length = 0 then
        connectEncoders K rest (i + 1) no_encoder displays
      else if connector.encoder_id = 0 then
        connectEncoders K rest (i + 1) (no_encoder ++ [i]) displays
      else
        match K.drmModeGetEncoder connector.encoder_id with
        | none => connectEncoders K rest (i + 1) no_encoder displays
        | some encoder =>
          if encoder.crtc_id ≠ 0 then
            match connectLoop K connector connector.modes (preferredMode connector.modes)
                (crtcMatches encoder) displays with
            | .ok displays => connectEncoders K rest (i + 1) no_encoder displays
            | .error e => .error e
          else connectEncoders K rest (i + 1) no_encoder displays

/-- The loop over the possible encoders of a connector without encoder
(second sub-pass). A failed encoder query goes on with the next encoder, and
so does a successful bind: the `break` leaves the loop over the displays
only. -/
def encoderLoop (K : Kernel) (connector : drmModeConnector) :
    (encoders : List Nat) → List DrmDisplay → Except Fault (List DrmDisplay)
  | [], displays => .ok displays
  | id :: rest, displays =>
    match K.drmModeGetEncoder id with
    | none => encoderLoop K connector rest displays
    | some encoder =>
      match connectLoop K connector connector.modes (preferredMode connector.modes)
          (canDrive encoder) displays with
      | .ok displays => encoderLoop K connector rest displays
      | .error e => .error e

/-- The loop over `no_encoder` (second sub-pass); `connectors` is
`res->connectors`, read without a bounds check. -/
def connectNoEncoder (K : Kernel) (connectors : List Nat) :
    (no_encoder : List Nat) → List DrmDisplay → Except Fault (List DrmDisplay)
  | [], displays => .ok displays
  | idx :: rest, displays =>
    match connectors[idx]? with
    | none => .error .undefined
    | some id =>
      match K.drmModeGetConnector id with
      | none => .ok displays
      | some connector =>
        match encoderLoop K connector connector.encoders displays with
        | .ok displays => connectNoEncoder K connectors rest displays
        | .error e => .error e

/-- The first loop of the pass: an entity that is not connected has its pruned
flag cleared when planes are reserved, and every entity is marked
pending-disconnect. -/
def markDisplays (cfg : Config) (displays : List DrmDisplay) : List DrmDisplay :=
  displays.map fun display =>
    (if cfg.IsReservedDrmPlane && !display.IsConnected
      then display.SetPlanesUpdated false else display).MarkForDisconnect

/-- The last loop under the lock: an entity that is not connected receives
`DisConnect`, a connected one joins `connected_displays` when a callback is
registered. The result is the entities, the `DisConnect` events and
`connected_displays` (entities are named by their pipe). -/
def disconnectLoop (callback_ : Bool) :
    List DrmDisplay → List DrmDisplay × List Event × List Nat
  | [] => ([], [], [])
  | display :: rest =>
    let r := disconnectLoop callback_ rest
    if !display.IsConnected then
      (display.DisConnect :: r.1, Event.DisConnect display.GetDisplayPipe :: r.2.1, r.2.2)
    else if callback_ then
      (display :: r.1, r.2.1, display.GetDisplayPipe :: r.2.2)
    else (display :: r.1, r.2.1, r.2.2)

/-- The notification of one display in `NotifyClientsOfDisplayChangeStatus`. -/
def notifyEvent (display : DrmDisplay) : Event :=
  if !display.IsConnected then .NotifyClientOfDisConnectedState display.GetDisplayPipe
  else .NotifyClientOfConnectedState display.GetDisplayPipe

/-- The method `DrmDisplayManager::NotifyClientsOfDisplayChangeStatus`. -/
def NotifyClientsOfDisplayChangeStatus (cfg : Config) (m : DrmDisplayManager) :
    DrmDisplayManager :=
  let m := m.emit [.lock]
  let m := m.emit (m.displays_.map notifyEvent)
  let m := if cfg.ENABLE_ANDROID_WA then { m with notify_client_ := true } else m
  m.emit [.unlock]

/-- The loop of `DrmDisplayManager::RemoveUnreservedPlanes`, whose counter
`i` is a `uint8_t` compared with `displays_.size()`. -/
def RemoveUnreservedPlanesLoop (cfg : Config) :
    (fuel : Nat) → (i : Nat) → DrmDisplayManager → Except Fault DrmDisplayManager
  | 0, _, _ => .error .fuel
  | fuel + 1, i, m =>
    if i < m.displays_.length then
      match m.displays_[i]? with
      | none => .error .out_of_range
      | some display =>
        if !display.IsConnected || display.IsPlanesUpdated then
          RemoveUnreservedPlanesLoop cfg fuel ((i + 1) % 256) m
        else
          let reserved_planes := cfg.GetDisplayReservedPlanes i
          let m := if !reserved_planes.isEmpty && reserved_planes.length < 4
            then m.emit [.ReleaseUnreservedPlanes display.GetDisplayPipe reserved_planes]
            else m
          let m := { m with displays_ := m.displays_.set i (display.SetPlanesUpdated true) }
          RemoveUnreservedPlanesLoop cfg fuel ((i + 1) % 256) m
    else .ok m

/-- The method `DrmDisplayManager::RemoveUnreservedPlanes`. -/
def RemoveUnreservedPlanes (cfg : Config) (fuel : Nat) (m : DrmDisplayManager) :
    Except Fault DrmDisplayManager :=
  RemoveUnreservedPlanesLoop cfg fuel 0 m

/-- The two sub-passes over the connectors of the snapshot. -/
def bindDisplays (K : Kernel) (connectors : List Nat) (displays : List DrmDisplay) :
    Except Fault (List DrmDisplay) :=
  match connectEncoders K connectors 0 [] displays with
  | .error e => .error e
  | .ok r => connectNoEncoder K connectors r.2 r.1

/-- The part of `UpdateDisplayState` that runs after the lock is released:
the client notification and the pruning of planes. -/
def afterUnlock (cfg : Config) (fuel : Nat) (m : DrmDisplayManager) :
    Except Fault (Bool × DrmDisplayManager) :=
  let m := if !cfg.ENABLE_ANDROID_WA then { m with notify_client_ := true } else m
  let notify : Except Fault Bool :=
    if m.notify_client_ then .ok true
    else match m.displays_[0]? with
      | none => .error .out_of_range
      | some display => .ok (!display.IsConnected)
  match notify with
  | .error e => .error e
  | .ok notify =>
    let m := if notify then NotifyClientsOfDisplayChangeStatus cfg m else m
    if cfg.IsReservedDrmPlane then
      match RemoveUnreservedPlanes cfg fuel m with
      | .ok m => .ok (true, m)
      | .error e => .error e
    else .ok (true, m)

/-- The part of `UpdateDisplayState` that runs under the lock, from the
marking of the entities to the callback. -/
def underLock (cfg : Config) (K : Kernel) (res : drmModeRes) (m : DrmDisplayManager) :
    Except Fault DrmDisplayManager :=
  let m := m.emit [.lock]
  let displays := markDisplays cfg m.displays_
  let count := countConnected K res.connectors 0
  match bindDisplays K res.connectors displays with
  | .error e => .error e
  | .ok displays =>
    let r := disconnectLoop m.callback_ displays
    let m := { m with displays_ := r.1, connected_display_count_ := count,
                      log := m.log ++ r.2.1 }
    let m := if m.callback_ then m.emit [.Callback r.2.2] else m
    .ok (m.emit [.unlock])

/-- The method `DrmDisplayManager::UpdateDisplayState`. `fuel` bounds the
steps of the plane pruning loop. -/
def UpdateDisplayState (cfg : Config) (K : Kernel) (fuel : Nat) (m : DrmDisplayManager) :
    Except Fault (Bool × DrmDisplayManager) :=
  match K.drmModeGetResources with
  | none => .ok (false, m)
  | some res =>
    match underLock cfg K res m with
    | .error e => .error e
    | .ok m => afterUnlock cfg fuel m

/-- The method `DrmDisplayManager::GetConnectedPhysicalDisplayCount`. -/
def GetConnectedPhysicalDisplayCount (m : DrmDisplayManager) : Nat :=
  m.connected_display_count_

/-! ## Device discovery (`Initialize`) -/

/-- Value of `DRM_NODE_PRIMARY` in `xf86drm.h`. -/
def DRM_NODE_PRIMARY : Nat := 0

/-- Value of `DRM_NODE_RENDER` in `xf86drm.h`. -/
def DRM_NODE_RENDER : Nat := 2

/-- The fields of `drmDevice` the device selection reads; `primary_node` and
`render_node` are `nodes[DRM_NODE_PRIMARY]` and `nodes[DRM_NODE_RENDER]`. -/
structure drmDevice where
  vendor_id : Nat
  available_nodes : Nat
  primary_node : String
  render_node : String
  deriving DecidableEq, Repr

/-- The simulated system seen by `Initialize`. -/
structure InitKernel where
  /-- Return value of `drmGetDevices2`. -/
  drmGetDevices2 : Int
  /-- The devices `drmGetDevices2` stored. -/
  devices : List drmDevice
  /-- Value of `errno` when the primary node is opened. -/
  errno : Int
  /-- Descriptor returned by `open(path, ...)`, -1 on failure. -/
  open_fd : String → Int
  /-- Value `open(path, ...)` stores in `errno` when it fails. -/
  open_errno : String → Int
  drmGetMagic : Int
  drmAuthMagic : Int
  /-- Return code of the `n`-th call of `drmSetClientCap`. -/
  drmSetClientCap : Nat → Int
  drmModeGetResources : Option drmModeRes
  /-- The `crtc_id` of the result of `drmModeGetCrtc(fd_, id)`. -/
  drmModeGetCrtc : Nat → Option Nat
  /-- Return value of `socket(PF_NETLINK, ...)`. -/
  socket : Int
  /-- Return code of the `bind` call on the hot-plug socket. -/
  bind_ret : Int

/-- The conversion of an `int` to `bool` at a `return` of a function declared
`bool`: every non-zero value is `true`. -/
def intToBool (v : Int) : Bool := v != 0

/-- The loop of `InitializePreferredScanoutDevice` that looks for the Intel
device whose primary node is `/dev/dri/card0`; `i` is the index of the head
of the list. -/
def findCard0 : List drmDevice → (i : Nat) → Option Nat
  | [], _ => none
  | device :: rest, i =>
    if device.vendor_id ≠ 0x8086 then findCard0 rest (i + 1)
    else if device.available_nodes &&& (1 <<< DRM_NODE_PRIMARY) = 0 then findCard0 rest (i + 1)
    else if device.primary_node ≠ "/dev/dri/card0" then findCard0 rest (i + 1)
    else some i

/-- The method `DrmDisplayManager::InitializePreferredScanoutDevice`. The
output parameter `scanout_device_no` receives the value stored in
`device_num_`. Reading `devices[preferred_device]` when no device was stored
is an unchecked access. -/
def InitializePreferredScanoutDevice (S : InitKernel) (m : DrmDisplayManager) :
    Except Fault DrmDisplayManager :=
  if S.drmGetDevices2 < 0 then .ok m
  else
    let num_devices := S.drmGetDevices2.toNat
    let preferred_device := (findCard0 (S.devices.take num_devices) 0).getD 0
    match S.devices[preferred_device]? with
    | none => .error .undefined
    | some device =>
      let m := { m with device_num_ := preferred_device }
      let fd := S.open_fd device.primary_node
      let errno := if fd = -1 then S.open_errno device.primary_node else S.errno
      let m := { m with fd_ := fd }
      if fd = -1 ∨ errno = EACCES then .ok m
      else
        let m :=
          if device.available_nodes &&& (1 <<< DRM_NODE_RENDER) ≠ 0 then
            let ofd := S.open_fd device.render_node
            if ofd = -1 ∧ S.open_errno device.render_node = EACCES
              then { m with offscreen_fd_ := m.fd_ }
              else { m with offscreen_fd_ := ofd }
          else m
        let m := if m.offscreen_fd_ = -1 then { m with offscreen_fd_ := m.fd_ } else m
        .ok m

/-- The loop of `Initialize` over the pipelines of the snapshot: one display
per pipeline, appended to `displays_`; `none` when a pipeline query fails
(`return false`), together with the displays created until then. -/
def createDisplays (S : InitKernel) :
    (crtcs : List Nat) → (i : Nat) → List DrmDisplay → Bool × List DrmDisplay
  | [], _, displays => (true, displays)
  | id :: rest, i, displays =>
    match S.drmModeGetCrtc id with
    | none => (false, displays)
    | some crtc_id =>
      createDisplays S rest (i + 1) (displays ++ [{ pipe_ := i, crtc_id_ := crtc_id }])

/-- The method `DrmDisplayManager::Initialize`. -/
def Initialize (cfg : Config) (S : InitKernel) (m : DrmDisplayManager) :
    Except Fault (Bool × DrmDisplayManager) :=
  match InitializePreferredScanoutDevice S m with
  | .error e => .error e
  | .ok m =>
    if m.fd_ < 0 then .ok (intToBool (-ENODEV), m)
    else
      let m := (IsDrmMasterByDefault S.drmGetMagic S.drmAuthMagic m).2
      if S.drmSetClientCap 0 ≠ 0 then .ok (false, m)
      else if S.drmSetClientCap 1 ≠ 0 then .ok (false, m)
      else
        match S.drmModeGetResources with
        | none => .ok (false, m)
        | some res =>
          if res.crtcs.length = 0 then .ok (false, m)
          else
            let r := createDisplays S res.crtcs 0 m.displays_
            let m := { m with displays_ := r.2 }
            if !r.1 then .ok (false, m)
            else if cfg.DISABLE_HOTPLUG_NOTIFICATION then .ok (true, m)
            else
              let m := { m with hotplug_fd_ := S.socket }
              if S.socket < 0 then .ok (true, m)
              else if S.bind_ret ≠ 0 then .ok (true, m)
              else .ok (true, m)

/-! ## Hot-plug monitor (`HotPlugEventHandler`)

Bytes are natural numbers, 0 is the terminator. The size of the buffer,
`DRM_HOTPLUG_EVENT_SIZE`, is a macro of the header and a parameter here. -/

/-- The bytes of the literal `"DEVTYPE=drm_minor"`. -/
def DEVTYPE_drm_minor : List Nat :=
  [68, 69, 86, 84, 89, 80, 69, 61, 100, 114, 109, 95, 109, 105, 110, 111, 114]

/-- The bytes of the literal `"HOTPLUG=1"`. -/
def HOTPLUG_1 : List Nat :=
  [72, 79, 84, 80, 76, 85, 71, 61, 49]

/-- The bytes of the literal `"HDMI-Change"`. -/
def HDMI_Change : List Nat :=
  [72, 68, 77, 73, 45, 67, 104, 97, 110, 103, 101]

/-- The C string that starts at `buffer + i`: the bytes before the first
terminator. `none` when the array holds no terminator from `i` on, so that
`strcmp` and `strlen` would read past its end. -/
def cstring (buffer : List Nat) (i : Nat) : Option (List Nat) :=
  if 0 ∈ buffer.drop i then some ((buffer.drop i).takeWhile fun c => c != 0) else none

/-- The `for` loop of `HotPlugEventHandler` over one datagram of `ret` bytes:
`strcmp(event, s) == 0` is equality of the C string with the literal, and
`strlen(event)` its length. The result is `(drm_event, hotplug_event)`. -/
def scanLoop (buffer : List Nat) (ret : Nat) :
    (fuel : Nat) → (i : Nat) → (drm_event : Bool) → (hotplug_event : Bool) →
    Except Fault (Bool × Bool)
  | 0, _, _, _ => .error .fuel
  | fuel + 1, i, drm_event, hotplug_event =>
    if i < ret then
      match cstring buffer i with
      | none => .error .undefined
      | some event =>
        let drm_event := if event = DEVTYPE_drm_minor then true else drm_event
        let hotplug_event :=
          if event = DEVTYPE_drm_minor then hotplug_event
          else if event = HOTPLUG_1 ∨ event = HDMI_Change then true
          else hotplug_event
        if hotplug_event && drm_event then .ok (drm_event, hotplug_event)
        else scanLoop buffer ret fuel (i + event.length + 1) drm_event hotplug_event
    else .ok (drm_event, hotplug_event)

/-- The effect of `read(fd, &buffer, srclen)` followed by `buffer[ret] = 0`
for a datagram: `ret` is the number of bytes stored, at most `srclen`, and
the bytes of the buffer behind them keep their old value. -/
def receive (DRM_HOTPLUG_EVENT_SIZE : Nat) (buffer : List Nat) (datagram : List Nat) :
    Nat × List Nat :=
  let srclen := DRM_HOTPLUG_EVENT_SIZE - 1
  let ret := min datagram.length srclen
  (ret, (datagram.take ret ++ buffer.drop ret).set ret 0)

/-- Whether one received datagram makes the handler call
`UpdateDisplayState`: the flags start `false` for each datagram and the call
is made when both are set after the scan. -/
def triggers (buffer : List Nat) (ret : Nat) (fuel : Nat) : Except Fault Bool :=
  match scanLoop buffer ret fuel 0 false false with
  | .error e => .error e
  | .ok r => .ok (r.1 && r.2)

/-- The `while (true)` loop of `HotPlugEventHandler`. `read n` is the `n`-th
datagram delivered by the socket, `none` when the read fails (`ret < 0`);
`K n` is the kernel state at that moment. `calls` records for each datagram
scanned whether `UpdateDisplayState` was called. `sfuel` and `ufuel` bound the
scan and the pass. -/
def HotPlugEventHandlerLoop (cfg : Config) (DRM_HOTPLUG_EVENT_SIZE : Nat)
    (read : Nat → Option (List Nat)) (K : Nat → Kernel) (sfuel ufuel : Nat) :
    (fuel : Nat) → (n : Nat) → (buffer : List Nat) → (calls : List Bool) →
    DrmDisplayManager → Except Fault (List Bool × DrmDisplayManager)
  | 0, _, _, _, _ => .error .fuel
  | fuel + 1, n, buffer, calls, m =>
    match read n with
    | none => .ok (calls, m)
    | some datagram =>
      let r := receive DRM_HOTPLUG_EVENT_SIZE buffer datagram
      if r.1 = 0 then .ok (calls, m)
      else
        match triggers r.2 r.1 sfuel with
        | .error e => .error e
        | .ok true =>
          match UpdateDisplayState cfg (K n) ufuel m with
          | .error e => .error e
          | .ok u =>
            HotPlugEventHandlerLoop cfg DRM_HOTPLUG_EVENT_SIZE read K sfuel ufuel fuel (n + 1)
              r.2 (calls ++ [true]) u.2
        | .ok false =>
          HotPlugEventHandlerLoop cfg DRM_HOTPLUG_EVENT_SIZE read K sfuel ufuel fuel (n + 1)
            r.2 (calls ++ [false]) m

/-- The method `DrmDisplayManager::HotPlugEventHandler`: the buffer starts
zeroed. -/
def HotPlugEventHandler (cfg : Config) (DRM_HOTPLUG_EVENT_SIZE : Nat)
    (read : Nat → Option (List Nat)) (K : Nat → Kernel) (sfuel ufuel fuel : Nat)
    (m : DrmDisplayManager) : Except Fault (List Bool × DrmDisplayManager) :=
  HotPlugEventHandlerLoop cfg DRM_HOTPLUG_EVENT_SIZE read K sfuel ufuel fuel 0
    (List.replicate DRM_HOTPLUG_EVENT_SIZE 0) [] m

/-! ## Virtual display registry -/

/-- The call `virtual_displays_.find(key)` followed by the access to the
mapped display: the entry registered under the key, if there is one. -/
def findVirtual (key : Nat) : List (Nat × VirtualDisplay) → Option VirtualDisplay
  | [] => none
  | (k, v) :: rest => if k = key then some v else findVirtual key rest

/-- The call `virtual_displays_.emplace(key, display)` of `std::map`: the
entry is inserted when no entry has the key; otherwise the map is left as it
is and the display offered is destroyed. -/
def emplaceVirtual (key : Nat) (display : VirtualDisplay)
    (map : List (Nat × VirtualDisplay)) : List (Nat × VirtualDisplay) :=
  match findVirtual key map with
  | some _ => map
  | none => map ++ [(key, display)]

/-- The call `virtual_displays_.erase(key)`: the entry with the key is
removed. -/
def eraseVirtual (key : Nat) : List (Nat × VirtualDisplay) → List (Nat × VirtualDisplay)
  | [] => []
  | (k, v) :: rest => if k = key then eraseVirtual key rest else (k, v) :: eraseVirtual key rest

/-- The method `DrmDisplayManager::CreateVirtualDisplay(display_index)`.
`handle` is the address of the display constructed by the call; the result is
the pointer returned, taken from `virtual_displays_.at(display_index)`, which
throws when the key is absent. -/
def CreateVirtualDisplay (handle : Nat) (display_index : Nat) (m : DrmDisplayManager) :
    Except Fault (Nat × DrmDisplayManager) :=
  let display : VirtualDisplay := { handle := handle, fd := m.fd_, display_index := display_index }
  let m := { m with virtual_displays_ := emplaceVirtual display_index display m.virtual_displays_ }
  match findVirtual display_index m.virtual_displays_ with
  | none => .error .out_of_range
  | some latest_display => .ok (latest_display.handle, m)

/-- The method `DrmDisplayManager::DestroyVirtualDisplay(display_index)`. -/
def DestroyVirtualDisplay (display_index : Nat) (m : DrmDisplayManager) : DrmDisplayManager :=
  match findVirtual display_index m.virtual_displays_ with
  | some _ => { m with virtual_displays_ := eraseVirtual display_index m.virtual_displays_ }
  | none => m

/-! ## Definitions used to state and prove the properties -/

/-- Applies `f` to the first element that satisfies `test` and leaves the
rest of the list as it is. -/
def bindFirst (test : DrmDisplay → Bool) (f : DrmDisplay → DrmDisplay) :
    List DrmDisplay → List DrmDisplay
  | [] => []
  | d :: rest => if test d then f d :: rest else d :: bindFirst test f rest

/-- One run of the loop over the displays: the connector offered and the
structural condition on the display. -/
structure BindStep where
  connector : drmModeConnector
  eligible : DrmDisplay → Bool

/-- The condition under which a step binds a display. -/
def BindStep.test (K : Kernel) (s : BindStep) (d : DrmDisplay) : Bool :=
  !d.IsConnected && s.eligible d && K.connectOk d.GetDisplayPipe s.connector.connector_id

/-- The display as a step leaves it when it binds it. -/
def BindStep.bound (s : BindStep) (d : DrmDisplay) : DrmDisplay :=
  (d.ConnectDisplay s.connector (preferredMode s.connector.modes)).SetDrmModeInfo
    s.connector.modes

/-- The effect of one step on the displays. -/
def applyStep (K : Kernel) (s : BindStep) (displays : List DrmDisplay) : List DrmDisplay :=
  bindFirst (s.test K) s.bound displays

/-- The effect of a sequence of steps. -/
def runSteps (K : Kernel) (steps : List BindStep) (displays : List DrmDisplay) :
    List DrmDisplay :=
  steps.foldl (fun ds s => applyStep K s ds) displays

/-- The connectors the loops over `res->connectors` look at: those before the
first failed query. -/
def scanned (K : Kernel) : List Nat → List drmModeConnector
  | [] => []
  | id :: rest =>
    match K.drmModeGetConnector id with
    | none => []
    | some connector => connector :: scanned K rest

/-- A connector the first sub-pass goes on with: connected, with a mode. -/
def usable (connector : drmModeConnector) : Bool :=
  connector.connection == DRM_MODE_CONNECTED && connector.modes.length != 0

/-- The step of the first sub-pass for a connector, if it makes one. -/
def directStep (K : Kernel) (connector : drmModeConnector) : Option BindStep :=
  if usable connector && connector.encoder_id != 0 then
    match K.drmModeGetEncoder connector.encoder_id with
    | none => none
    | some encoder =>
      if encoder.crtc_id ≠ 0 then some ⟨connector, crtcMatches encoder⟩ else none
  else none

/-- The steps of the second sub-pass for a connector: one for each possible
encoder whose query succeeds. -/
def encoderSteps (K : Kernel) (connector : drmModeConnector) : List BindStep :=
  connector.encoders.filterMap fun id =>
    (K.drmModeGetEncoder id).map fun encoder => ⟨connector, canDrive encoder⟩

/-- The indices stored in `no_encoder` by the first sub-pass over
`connectors`, whose head has index `i`. -/
def deferredIdx (K : Kernel) : List Nat → Nat → List Nat
  | [], _ => []
  | id :: rest, i =>
    match K.drmModeGetConnector id with
    | none => []
    | some connector =>
      if usable connector && connector.encoder_id == 0 then i :: deferredIdx K rest (i + 1)
      else deferredIdx K rest (i + 1)

/-- The steps of the second sub-pass for the connector at index `idx`. -/
def stepsAt (K : Kernel) (connectors : List Nat) (idx : Nat) : List BindStep :=
  match connectors[idx]? with
  | none => []
  | some id =>
    match K.drmModeGetConnector id with
    | none => []
    | some connector => encoderSteps K connector

/-- The steps of the first sub-pass. -/
def steps1 (K : Kernel) (connectors : List Nat) : List BindStep :=
  (scanned K connectors).filterMap (directStep K)

/-- The steps of the second sub-pass. -/
def steps2 (K : Kernel) (connectors : List Nat) : List BindStep :=
  (deferredIdx K connectors 0).flatMap (stepsAt K connectors)

/-- The entities as the last loop under the lock leaves them. -/
def finalize (displays : List DrmDisplay) : List DrmDisplay :=
  displays.map fun d => if !d.IsConnected then d.DisConnect else d

/-- What a client can observe of the binding of an entity: pipeline index and
id, whether it is Connected, the output id, the index of the active mode and
the mode list. -/
structure Binding where
  pipe : Nat
  crtc_id : Nat
  connected : Bool
  output : Nat
  active_mode : Nat
  modes : List drmModeModeInfo
  deriving DecidableEq, Repr

/-- The binding of an entity. -/
def DrmDisplay.binding (d : DrmDisplay) : Binding :=
  ⟨d.GetDisplayPipe, d.CrtcId, d.IsConnected, d.GetConnectorID, d.config_, d.modes_⟩

/-- The conditions under which the part of the pass after the lock returns:
with `ENABLE_ANDROID_WA` and notification off, `displays_.at(0)` needs a
display; with reserved planes the `uint8_t` counter of the pruning loop must
be able to reach the number of displays, within the step budget. -/
def PassReturns (cfg : Config) (fuel : Nat) (m : DrmDisplayManager) : Prop :=
  (cfg.ENABLE_ANDROID_WA = true → m.notify_client_ = false → m.displays_ ≠ []) ∧
  (cfg.IsReservedDrmPlane = true → m.displays_.length < 256 ∧ m.displays_.length < fuel)

/-- The pipes of the `DisConnect` calls recorded in a log, in order. -/
def disconnects (log : List Event) : List Nat :=
  log.filterMap fun e => match e with
    | .DisConnect pipe => some pipe
    | _ => none

/-- What the part of the pass after the lock leaves alone: the bindings of
the entities, the connected-output count and the `DisConnect` calls; a
notification policy that is on stays on. -/
def Frame (m m' : DrmDisplayManager) : Prop :=
  m'.displays_.map DrmDisplay.binding = m.displays_.map DrmDisplay.binding ∧
  m'.connected_display_count_ = m.connected_display_count_ ∧
  disconnects m'.log = disconnects m.log ∧
  (m.notify_client_ = true → m'.notify_client_ = true)

/-- The entities after both sub-passes of a pass over the connectors of
`res`, before the last loop under the lock. -/
def afterSubpasses (cfg : Config) (K : Kernel) (res : drmModeRes) (m : DrmDisplayManager) :
    List DrmDisplay :=
  runSteps K (steps1 K res.connectors ++ steps2 K res.connectors) (markDisplays cfg m.displays_)

/-- A step whose structural condition reads only the pipeline index and the
pipeline id of the display. -/
def Structural (s : BindStep) : Prop :=
  ∀ a b : DrmDisplay, a.pipe_ = b.pipe_ → a.crtc_id_ = b.crtc_id_ → s.eligible a = s.eligible b

/-- Two entities on the same pipeline that agree on being Connected and,
when Connected, on their binding. -/
def SameBinding (a b : DrmDisplay) : Prop :=
  a.pipe_ = b.pipe_ ∧ a.crtc_id_ = b.crtc_id_ ∧ a.IsConnected = b.IsConnected ∧
    (a.IsConnected = true → a.binding = b.binding)

/-- The identity of an entity that no operation changes: pipeline index and
pipeline id. -/
def DrmDisplay.ids (d : DrmDisplay) : Nat × Nat := (d.pipe_, d.crtc_id_)

/-- The trigger condition in the words of the specification: the records of
the datagram are its pieces between terminators, and the datagram triggers
reconciliation when one record is the display-minor marker and one record is
a plug-change marker. -/
def hasBothMarkers (datagram : List Nat) : Bool :=
  decide (DEVTYPE_drm_minor ∈ datagram.splitOn 0) &&
    (decide (HOTPLUG_1 ∈ datagram.splitOn 0) || decide (HDMI_Change ∈ datagram.splitOn 0))

/-- An index of `no_encoder` the second sub-pass can use: it names a
connector of the snapshot whose query succeeds and which is connected, has a
mode and reports no encoder. -/
def ValidIdx (K : Kernel) (connectors : List Nat) (idx : Nat) : Prop :=
  ∃ id c, connectors[idx]? = some id ∧ K.drmModeGetConnector id = some c ∧ usable c = true ∧
    c.encoder_id = 0

/-- Whether `RemoveUnreservedPlanes` passes over a display: it is not
connected or its planes were already pruned. -/
def skipsPruning (d : DrmDisplay) : Bool := !d.IsConnected || d.IsPlanesUpdated

/-- A display as `RemoveUnreservedPlanes` leaves it. -/
def pruneDisplay (d : DrmDisplay) : DrmDisplay :=
  if skipsPruning d then d else d.SetPlanesUpdated true

/-- Whether `RemoveUnreservedPlanes` tells the display at index `i` to release
its unreserved planes. -/
def releases (cfg : Config) (i : Nat) (d : DrmDisplay) : Bool :=
  d.IsConnected && !d.IsPlanesUpdated && !(cfg.GetDisplayReservedPlanes i).isEmpty &&
    decide ((cfg.GetDisplayReservedPlanes i).length < 4)

/-- The `ReleaseUnreservedPlanes` calls made for the displays of a list whose
head has index `i`. -/
def releaseEvents (cfg : Config) : Nat → List DrmDisplay → List Event
  | _, [] => []
  | i, d :: rest =>
    (if releases cfg i d
      then [Event.ReleaseUnreservedPlanes d.GetDisplayPipe (cfg.GetDisplayReservedPlanes i)]
      else []) ++ releaseEvents cfg (i + 1) rest

/-- Number of calls of `drmGetMagic` recorded in a log. -/
def getMagicCalls (log : List Event) : Nat := log.count .drmGetMagic

/-- Number of calls of `drmAuthMagic` recorded in a log. -/
def authMagicCalls (log : List Event) : Nat := log.count .drmAuthMagic

/-- Whether an event is a notification made to a client: the registered
hot-plug callback or the notification of one entity. -/
def clientFacing : Event → Bool
  | .Callback _ => true
  | .NotifyClientOfConnectedState _ => true
  | .NotifyClientOfDisConnectedState _ => true
  | _ => false

/-- Whether the shared-state lock is held after an event, given whether it
was held before it. -/
def lockAfter (held : Bool) : Event → Bool
  | .lock => true
  | .unlock => false
  | _ => held

/-- Whether the lock is held after a sequence of events. -/
def heldAfter (held : Bool) (events : List Event) : Bool := events.foldl lockAfter held

/-- The client-facing events of a sequence that are made while the lock is
held; `held` says whether it is held at the start. -/
def callsUnderLock (held : Bool) : List Event → List Event
  | [] => []
  | e :: rest =>
    (if held && clientFacing e then [e] else []) ++ callsUnderLock (lockAfter held e) rest

/-- The client-facing events of a sequence that are made while the lock is
free. -/
def callsOutsideLock (held : Bool) : List Event → List Event
  | [] => []
  | e :: rest =>
    (if !held && clientFacing e then [e] else []) ++ callsOutsideLock (lockAfter held e) rest

/-! ## Concrete states and snapshots -/

/-- A manager with two pipelines (pipeline ids 41 and 42), both entities
Disconnected, and a registered callback. -/
def twoPipes : DrmDisplayManager :=
  { displays_ := [{ pipe_ := 0, crtc_id_ := 41 }, { pipe_ := 1, crtc_id_ := 42 }],
    callback_ := true }

/-- The manager `twoPipes` after entity 0 was bound to output 7. -/
def boundToSeven : DrmDisplayManager :=
  { displays_ := [{ pipe_ := 0, crtc_id_ := 41, connector_ := 7, connected_ := true,
                    modes_ := [{ type := 0 }] },
                  { pipe_ := 1, crtc_id_ := 42 }],
    callback_ := true }

/-- Connector A of the scenario: output 7, connected, three modes of which
the second is flagged preferred, encoder 3. -/
def connectorA : drmModeConnector :=
  { connector_id := 7, connection := DRM_MODE_CONNECTED,
    modes := [{ type := 0, timing := 0 }, { type := DRM_MODE_TYPE_PREFERRED, timing := 1 },
              { type := 0, timing := 2 }],
    encoder_id := 3, encoders := [3] }

/-- Encoder 3, attached to pipeline id 41. -/
def encoderOnFirst : drmModeEncoder := { encoder_id := 3, crtc_id := 41, possible_crtcs := 1 }

/-- Snapshot of the scenario with connector A alone. -/
def directKernel : Kernel where
  drmModeGetResources := some { crtcs := [41, 42], connectors := [7] }
  drmModeGetConnector := fun id => if id = 7 then some connectorA else none
  drmModeGetEncoder := fun id => if id = 3 then some encoderOnFirst else none
  connectOk := fun _ _ => true

/-- Connector B of the scenario: output 8, connected, no encoder assigned,
two possible encoders, no mode flagged preferred. -/
def connectorB : drmModeConnector :=
  { connector_id := 8, connection := DRM_MODE_CONNECTED,
    modes := [{ type := 0, timing := 0 }, { type := 0, timing := 1 }],
    encoder_id := 0, encoders := [3, 4] }

/-- Encoder 4, attached to no pipeline, able to drive pipeline 1 only. -/
def encoderForSecond : drmModeEncoder := { encoder_id := 4, crtc_id := 0, possible_crtcs := 2 }

/-- Snapshot with connector A on encoder 3 and connector B without encoder. -/
def fallbackKernel : Kernel where
  drmModeGetResources := some { crtcs := [41, 42], connectors := [7, 8] }
  drmModeGetConnector := fun id =>
    if id = 7 then some connectorA else if id = 8 then some connectorB else none
  drmModeGetEncoder := fun id =>
    if id = 3 then some encoderOnFirst else if id = 4 then some encoderForSecond else none
  connectOk := fun _ _ => true

/-- The entities of `twoPipes` after the first sub-pass over the snapshot
`fallbackKernel`: entity 0 is bound to connector A, entity 1 is still
pending-disconnect. -/
def afterDirect : List DrmDisplay :=
  [{ pipe_ := 0, crtc_id_ := 41, connector_ := 7, connected_ := true,
     modes_ := connectorA.modes, config_ := 1 },
   { pipe_ := 1, crtc_id_ := 42, pending_disconnect_ := true }]

/-- Snapshot with one connector without encoder whose two possible encoders
drive pipeline 0 and pipeline 1. -/
def twoEncoderKernel : Kernel where
  drmModeGetResources := some { crtcs := [41, 42], connectors := [7] }
  drmModeGetConnector := fun id =>
    if id = 7 then some { connector_id := 7, connection := DRM_MODE_CONNECTED,
                          modes := [{ type := 0 }], encoder_id := 0, encoders := [3, 4] }
    else none
  drmModeGetEncoder := fun id =>
    if id = 3 then some { encoder_id := 3, crtc_id := 0, possible_crtcs := 1 }
    else if id = 4 then some { encoder_id := 4, crtc_id := 0, possible_crtcs := 2 }
    else none
  connectOk := fun _ _ => true

/-- Snapshot with connectors 6 and 7 where the query of connector 6 fails and
connector 7 is connector A. -/
def failingFirstKernel : Kernel where
  drmModeGetResources := some { crtcs := [41, 42], connectors := [6, 7] }
  drmModeGetConnector := fun id => if id = 7 then some connectorA else none
  drmModeGetEncoder := fun id => if id = 3 then some encoderOnFirst else none
  connectOk := fun _ _ => true

/-- Snapshot in which output 7 is no longer connected and output 8 is
connected through an encoder attached to pipeline id 41. -/
def replugKernel : Kernel where
  drmModeGetResources := some { crtcs := [41, 42], connectors := [7, 8] }
  drmModeGetConnector := fun id =>
    if id = 7 then some { connector_id := 7, connection := 2, modes := [],
                          encoder_id := 0, encoders := [] }
    else if id = 8 then some { connector_id := 8, connection := DRM_MODE_CONNECTED,
                               modes := [{ type := 0 }], encoder_id := 3, encoders := [3] }
    else none
  drmModeGetEncoder := fun id => if id = 3 then some encoderOnFirst else none
  connectOk := fun _ _ => true

/-- Snapshot in which output 7 is no longer connected and nothing else is. -/
def unplugKernel : Kernel where
  drmModeGetResources := some { crtcs := [41, 42], connectors := [7] }
  drmModeGetConnector := fun id =>
    if id = 7 then some { connector_id := 7, connection := 2, modes := [],
                          encoder_id := 0, encoders := [] }
    else none
  drmModeGetEncoder := fun _ => none
  connectOk := fun _ _ => true

/-- A kernel whose resource snapshot cannot be fetched. -/
def deadKernel : Kernel where
  drmModeGetResources := none
  drmModeGetConnector := fun _ => none
  drmModeGetEncoder := fun _ => none
  connectOk := fun _ _ => true

/-- System with one Intel device whose primary node cannot be opened. -/
def noPrimary : InitKernel where
  drmGetDevices2 := 1
  devices := [{ vendor_id := 0x8086, available_nodes := 5,
                primary_node := "/dev/dri/card0", render_node := "/dev/dri/renderD128" }]
  errno := 0
  open_fd := fun _ => -1
  open_errno := fun _ => 2
  drmGetMagic := 0
  drmAuthMagic := 0
  drmSetClientCap := fun _ => 0
  drmModeGetResources := some { crtcs := [41], connectors := [7] }
  drmModeGetCrtc := fun id => some id
  socket := 3
  bind_ret := 0

/-- The bytes of a datagram with the records `change@/devices/card0`,
`DEVTYPE=drm_minor` and `HOTPLUG=1`, each followed by a terminator. -/
def hotplugDatagram : List Nat :=
  [99, 104, 97, 110, 103, 101, 64, 47, 100, 101, 118, 105, 99, 101, 115, 47, 99, 97, 114, 100,
   48, 0, 68, 69, 86, 84, 89, 80, 69, 61, 100, 114, 109, 95, 109, 105, 110, 111, 114, 0,
   72, 79, 84, 80, 76, 85, 71, 61, 49, 0]

/-- A socket that delivers `hotplugDatagram` and then fails. -/
def oneDatagram : Nat → Option (List Nat) :=
  fun n => if n = 0 then some hotplugDatagram else none

/-- A device configuration with plane reservation: planes 31 are reserved for
display 0, nothing for the other displays. -/
def reservedConfig : Config :=
  { IsReservedDrmPlane := true
    GetDisplayReservedPlanes := fun i => if i = 0 then [31] else [] }

/-- A manager that holds master rights. -/
def heldMaster : DrmDisplayManager := { drm_master_ := true }

/-- Return codes of `drmDropMaster` that fail twice and then succeed. -/
def failsTwice : Nat → Int := fun n => if n < 2 then -1 else 0

/-- A manager whose registry holds one virtual display, under index 2. -/
def oneVirtual : DrmDisplayManager :=
  { fd_ := 5, virtual_displays_ := [(2, { handle := 100, fd := 5, display_index := 2 })] }

/-- The bytes `HOT` of a datagram without any terminator. -/
def malformedDatagram : List Nat := [72, 79, 84]

/-- System whose primary node opens and which reports the pipelines 41 and
42. -/
def twoCrtcSystem : InitKernel where
  drmGetDevices2 := 1
  devices := [{ vendor_id := 0x8086, available_nodes := 5,
                primary_node := "/dev/dri/card0", render_node := "/dev/dri/renderD128" }]
  errno := 0
  open_fd := fun _ => 5
  open_errno := fun _ => 0
  drmGetMagic := 0
  drmAuthMagic := 0
  drmSetClientCap := fun _ => 0
  drmModeGetResources := some { crtcs := [41, 42], connectors := [7] }
  drmModeGetCrtc := fun id => some id
  socket := 3
  bind_ret := 0

/-- Snapshot with connector A on encoder 3 and connector 9 on encoder 5, both
encoders attached to pipeline id 41. -/
def samePipelineKernel : Kernel where
  drmModeGetResources := some { crtcs := [41, 42], connectors := [7, 9] }
  drmModeGetConnector := fun id =>
    if id = 7 then some connectorA
    else if id = 9 then some { connector_id := 9, connection := DRM_MODE_CONNECTED,
                               modes := [{ type := 0 }], encoder_id := 5, encoders := [5] }
    else none
  drmModeGetEncoder := fun id =>
    if id = 3 then some encoderOnFirst
    else if id = 5 then some { encoder_id := 5, crtc_id := 41, possible_crtcs := 1 }
    else none
  connectOk := fun _ _ => true

/-- Snapshot with one connector, output 8, without encoder, whose second mode
alone is flagged preferred and whose possible encoder can drive both
pipelines. -/
def deferredPreferredKernel : Kernel where
  drmModeGetResources := some { crtcs := [41, 42], connectors := [8] }
  drmModeGetConnector := fun id =>
    if id = 8 then some { connector_id := 8, connection := DRM_MODE_CONNECTED,
                          modes := [{ type := 0, timing := 0 },
                                    { type := DRM_MODE_TYPE_PREFERRED, timing := 1 }],
                          encoder_id := 0, encoders := [4] }
    else none
  drmModeGetEncoder := fun id =>
    if id = 4 then some { encoder_id := 4, crtc_id := 0, possible_crtcs := 3 } else none
  connectOk := fun _ _ => true

/-! # Properties

Lemmas about the model first, then one theorem for each property. -/

theorem setDrmMasterLoop_bounded (f : Nat → Int) :
    ∀ (fuel a : Nat) (m : DrmDisplayManager), a < 10 → 10 ≤ fuel + a →
      ∃ m' k, setDrmMasterLoop false f fuel a a m = .ok m' ∧ a < k ∧ k ≤ 10 ∧
        setMasterAttempts m'.log = setMasterAttempts m.log + (k - a) ∧
        (∀ j, a ≤ j → j + 1 < k → f j ≠ 0) ∧
        (m'.drm_master_ = true ↔ f (k - 1) = 0) ∧
        (f (k - 1) ≠ 0 → k = 10) := by
  intro fuel
  induction fuel with
  | zero => intro a m h1 h2; omega
  | succ fuel ih =>
    intro a m ha hf
    have hmod : (a + 1) % 256 = a + 1 := Nat.mod_eq_of_lt (by omega)
    by_cases hret : f a = 0
    · refine ⟨{ m with drm_master_ := true, log := m.log ++ [.drmSetMaster] }, a + 1,
        ?_, by omega, by omega, ?_, ?_, ?_, ?_⟩
      · simp [setDrmMasterLoop, hret]
      · simp [setMasterAttempts, List.count_append]
      · intro j h1 h2; omega
      · simp [hret]
      · simp [hret]
    · by_cases h9 : a + 1 < 10
      · obtain ⟨m', k, hk, h1, h2, h3, h4, h5, h6⟩ := ih (a + 1)
          { m with drm_master_ := false, log := m.log ++ [.drmSetMaster, .usleep 10000] } h9 (by omega)
        refine ⟨m', k, ?_, by omega, h2, ?_, ?_, h5, h6⟩
        · rw [← hk]
          simp [setDrmMasterLoop, hret, hmod, h9]
        · rw [h3]
          simp [setMasterAttempts, List.count_append]
          omega
        · intro j hj1 hj2
          rcases Nat.eq_or_lt_of_le hj1 with h | h
          · subst h; exact hret
          · exact h4 j h hj2
      · have h10 : a + 1 = 10 := by omega
        refine ⟨{ m with drm_master_ := false, log := m.log ++ [.drmSetMaster, .usleep 10000] },
          a + 1, ?_, by omega, by omega, ?_, ?_, ?_, ?_⟩
        · simp [setDrmMasterLoop, hret, hmod, h9]
        · simp [setMasterAttempts, List.count_append]
        · intro j h1 h2; omega
        · simp [hret]
        · intro _; exact h10

theorem setDrmMasterLoop_forced (f : Nat → Int) (n : Nat) (hn : f n = 0) :
    ∀ (fuel a r : Nat) (m : DrmDisplayManager), r < 10 → a ≤ n →
      (∀ j, a ≤ j → j < n → f j ≠ 0) → n < fuel + a →
      ∃ m', setDrmMasterLoop true f fuel a r m = .ok m' ∧
        setMasterAttempts m'.log = setMasterAttempts m.log + (n + 1 - a) ∧
        m'.drm_master_ = true := by
  intro fuel
  induction fuel with
  | zero => intro a r m _ h1 _ h2; omega
  | succ fuel ih =>
    intro a r m hr han hfail hf
    rcases Nat.eq_or_lt_of_le han with h | h
    · subst h
      refine ⟨{ m with drm_master_ := true, log := m.log ++ [.drmSetMaster] }, ?_, ?_, rfl⟩
      · simp [setDrmMasterLoop, hn]
      · simp [setMasterAttempts, List.count_append]
    · have hret : f a ≠ 0 := hfail a (Nat.le_refl a) h
      obtain ⟨m', hk, h3, h4⟩ := ih (a + 1) r
        { m with drm_master_ := false, log := m.log ++ [.drmSetMaster, .usleep 10000] } hr h
        (fun j h1 h2 => hfail j (by omega) h2) (by omega)
      refine ⟨m', ?_, ?_, h4⟩
      · rw [← hk]
        simp [setDrmMasterLoop, hret, hr]
      · rw [h3]
        simp [setMasterAttempts, List.count_append]
        omega

theorem setDrmMasterLoop_forced_never (f : Nat → Int) (hf : ∀ n, f n ≠ 0) :
    ∀ (fuel a r : Nat) (m : DrmDisplayManager), r < 10 →
      setDrmMasterLoop true f fuel a r m = .error .fuel := by
  intro fuel
  induction fuel with
  | zero => intro a r m _; rfl
  | succ fuel ih =>
    intro a r m hr
    simp [setDrmMasterLoop, hf a, hr, ih]

theorem preferredModeLoop_lt (modes : List drmModeModeInfo) :
    ∀ i p, p < i + modes.length → preferredModeLoop modes i p < i + modes.length := by
  induction modes with
  | nil => intro i p h; simpa [preferredModeLoop] using h
  | cons md rest ih =>
    intro i p h
    simp only [preferredModeLoop, List.length_cons]
    have := ih (i + 1) (if md.type &&& DRM_MODE_TYPE_PREFERRED ≠ 0 then i else p)
      (by split <;> simp at h ⊢ <;> omega)
    omega

theorem preferredMode_lt (modes : List drmModeModeInfo) (h : modes.length ≠ 0) :
    preferredMode modes < modes.length := by
  have := preferredModeLoop_lt modes 0 0 (by omega)
  simpa [preferredMode] using this

theorem connectLoop_eq (K : Kernel) (connector : drmModeConnector)
    (mode : List drmModeModeInfo) (p : Nat) (eligible : DrmDisplay → Bool)
    (hp : p < mode.length) (displays : List DrmDisplay) :
    connectLoop K connector mode p eligible displays =
      .ok (bindFirst
        (fun d => !d.IsConnected && eligible d && K.connectOk d.GetDisplayPipe connector.connector_id)
        (fun d => (d.ConnectDisplay connector p).SetDrmModeInfo mode) displays) := by
  induction displays with
  | nil => rfl
  | cons d rest ih =>
    have hsome : mode[p]? = some mode[p] := List.getElem?_eq_getElem hp
    simp only [connectLoop, bindFirst, ih, hsome]
    by_cases h1 : (!d.IsConnected && eligible d) = true
    · by_cases h2 : K.connectOk d.GetDisplayPipe connector.connector_id = true
      · simp [h1, h2]
      · simp [h1, h2]
    · simp [h1]

theorem connectLoop_step (K : Kernel) (s : BindStep) (h : s.connector.modes.length ≠ 0)
    (displays : List DrmDisplay) :
    connectLoop K s.connector s.connector.modes (preferredMode s.connector.modes) s.eligible
      displays = .ok (applyStep K s displays) :=
  connectLoop_eq K s.connector s.connector.modes _ s.eligible (preferredMode_lt _ h) displays

theorem runSteps_append (K : Kernel) (a b : List BindStep) (ds : List DrmDisplay) :
    runSteps K (a ++ b) ds = runSteps K b (runSteps K a ds) := by
  simp [runSteps, List.foldl_append]

theorem runSteps_cons (K : Kernel) (s : BindStep) (b : List BindStep) (ds : List DrmDisplay) :
    runSteps K (s :: b) ds = runSteps K b (applyStep K s ds) := rfl

theorem runSteps_nil (K : Kernel) (ds : List DrmDisplay) : runSteps K [] ds = ds := rfl

theorem connectEncoders_eq (K : Kernel) :
    ∀ (connectors : List Nat) (i : Nat) (no_encoder : List Nat) (displays : List DrmDisplay),
      connectEncoders K connectors i no_encoder displays =
        .ok (runSteps K (steps1 K connectors) displays,
             no_encoder ++ deferredIdx K connectors i) := by
  intro connectors
  induction connectors with
  | nil => intro i ne ds; simp [connectEncoders, steps1, scanned, deferredIdx, runSteps]
  | cons id rest ih =>
    intro i ne ds
    cases hq : K.drmModeGetConnector id with
    | none => simp [connectEncoders, steps1, scanned, deferredIdx, runSteps, hq]
    | some c =>
      have hs : steps1 K (id :: rest) = (directStep K c).toList ++ steps1 K rest := by
        simp only [steps1, scanned, hq, List.filterMap_cons]
        cases directStep K c <;> simp
      rw [hs, runSteps_append]
      simp only [connectEncoders, hq, deferredIdx]
      by_cases h1 : c.connection = DRM_MODE_CONNECTED
      · by_cases h2 : c.modes.length = 0
        · simp [h1, h2, ih, directStep, usable, runSteps]
        · by_cases h3 : c.encoder_id = 0
          · simp [h1, h2, h3, ih, directStep, usable, runSteps]
          · cases he : K.drmModeGetEncoder c.encoder_id with
            | none => simp [h1, h2, h3, he, ih, directStep, usable, runSteps]
            | some e =>
              by_cases h4 : e.crtc_id = 0
              · simp [h1, h2, h3, he, h4, ih, directStep, usable, runSteps]
              · have hl := connectLoop_step K ⟨c, crtcMatches e⟩ h2 ds
                simp only at hl
                simp [h1, h2, h3, he, h4, ih, directStep, usable, hl, runSteps, applyStep]
      · simp [h1, ih, directStep, usable, runSteps]

theorem encoderLoop_eq (K : Kernel) (c : drmModeConnector) (h : c.modes.length ≠ 0) :
    ∀ (encoders : List Nat) (displays : List DrmDisplay),
      encoderLoop K c encoders displays =
        .ok (runSteps K (encoders.filterMap fun id =>
          (K.drmModeGetEncoder id).map fun encoder => ⟨c, canDrive encoder⟩) displays) := by
  intro encoders
  induction encoders with
  | nil => intro ds; rfl
  | cons id rest ih =>
    intro ds
    cases he : K.drmModeGetEncoder id with
    | none => simp [encoderLoop, he, ih]
    | some e =>
      have hl := connectLoop_step K ⟨c, canDrive e⟩ h ds
      simp only at hl
      simp [encoderLoop, he, ih, hl, runSteps_cons]

theorem usable_modes {c : drmModeConnector} (h : usable c = true) : c.modes.length ≠ 0 := by
  simp [usable] at h
  intro h0
  exact h.2 (List.length_eq_zero.mp h0)

theorem connectNoEncoder_eq (K : Kernel) (connectors : List Nat) :
    ∀ (no_encoder : List Nat) (displays : List DrmDisplay),
      (∀ idx ∈ no_encoder, ValidIdx K connectors idx) →
      connectNoEncoder K connectors no_encoder displays =
        .ok (runSteps K (no_encoder.flatMap (stepsAt K connectors)) displays) := by
  intro ne
  induction ne with
  | nil => intro ds _; rfl
  | cons idx rest ih =>
    intro ds hv
    obtain ⟨id, c, h1, h2, h3, _⟩ := hv idx (List.mem_cons_self _ _)
    have hrest : ∀ j ∈ rest, ValidIdx K connectors j := fun j hj => hv j (List.mem_cons_of_mem _ hj)
    have hl := encoderLoop_eq K c (usable_modes h3) c.encoders ds
    simp [connectNoEncoder, h1, h2, hl, ih _ hrest, stepsAt, encoderSteps, runSteps_append]

theorem deferredIdx_valid (K : Kernel) (full : List Nat) :
    ∀ (connectors pre : List Nat), full = pre ++ connectors →
      ∀ idx ∈ deferredIdx K connectors pre.length, ValidIdx K full idx := by
  intro connectors
  induction connectors with
  | nil => intro pre _ idx h; simp [deferredIdx] at h
  | cons id rest ih =>
    intro pre hfull idx hmem
    have hnext := ih (pre ++ [id]) (by simp [hfull])
    simp only [List.length_append, List.length_singleton] at hnext
    cases hq : K.drmModeGetConnector id with
    | none => simp [deferredIdx, hq] at hmem
    | some c =>
      simp only [deferredIdx, hq] at hmem
      by_cases hd : (usable c && c.encoder_id == 0) = true
      · simp only [hd, if_true, List.mem_cons] at hmem
        rcases hmem with h | h
        · subst h
          simp only [Bool.and_eq_true, beq_iff_eq] at hd
          have hget : full[pre.length]? = some id := by
            rw [hfull, List.getElem?_append_right (Nat.le_refl _)]
            simp
          exact ⟨id, c, hget, hq, hd.1, hd.2⟩
        · exact hnext idx h
      · simp only [hd] at hmem
        exact hnext idx hmem

theorem bindDisplays_eq (K : Kernel) (connectors : List Nat) (displays : List DrmDisplay) :
    bindDisplays K connectors displays =
      .ok (runSteps K (steps1 K connectors ++ steps2 K connectors) displays) := by
  have hv := deferredIdx_valid K connectors connectors [] rfl
  simp only [List.length_nil] at hv
  simp [bindDisplays, connectEncoders_eq, connectNoEncoder_eq K connectors _ _ hv,
    runSteps_append, steps2]

theorem set_same {α : Type} (l : List α) (i : Nat) (x : α) (h : l[i]? = some x) :
    l.set i x = l := by
  induction l generalizing i with
  | nil => rfl
  | cons a rest ih =>
    cases i with
    | zero => simp at h; simp [h]
    | succ i => simp at h; simp [ih i h]

theorem Frame.refl (m : DrmDisplayManager) : Frame m m := ⟨rfl, rfl, rfl, id⟩

theorem Frame.trans {a b c : DrmDisplayManager} (h1 : Frame a b) (h2 : Frame b c) :
    Frame a c :=
  ⟨h2.1.trans h1.1, h2.2.1.trans h1.2.1, h2.2.2.1.trans h1.2.2.1, fun h => h2.2.2.2 (h1.2.2.2 h)⟩

theorem binding_SetPlanesUpdated (d : DrmDisplay) (b : Bool) :
    (d.SetPlanesUpdated b).binding = d.binding := rfl

theorem RemoveUnreservedPlanesLoop_ok (cfg : Config) :
    ∀ (fuel i : Nat) (m : DrmDisplayManager), m.displays_.length < 256 →
      i ≤ m.displays_.length → m.displays_.length < fuel + i →
      ∃ m', RemoveUnreservedPlanesLoop cfg fuel i m = .ok m' ∧ Frame m m' := by
  intro fuel
  induction fuel with
  | zero => intro i m _ h1 h2; omega
  | succ fuel ih =>
    intro i m hlen hi hf
    by_cases hlt : i < m.displays_.length
    · have hmod : (i + 1) % 256 = i + 1 := Nat.mod_eq_of_lt (by omega)
      have hsome : m.displays_[i]? = some m.displays_[i] := List.getElem?_eq_getElem hlt
      simp only [RemoveUnreservedPlanesLoop, hlt, if_true, hsome, hmod]
      split
      · exact ih (i + 1) m hlen (by omega) (by omega)
      · have key : ∀ log : List Event, disconnects log = disconnects m.log →
            ∃ m', RemoveUnreservedPlanesLoop cfg fuel (i + 1)
              { m with log := log,
                       displays_ := m.displays_.set i (m.displays_[i].SetPlanesUpdated true) }
                = .ok m' ∧ Frame m m' := by
          intro log hlog
          obtain ⟨m', h1, h2⟩ := ih (i + 1)
            { m with log := log,
                     displays_ := m.displays_.set i (m.displays_[i].SetPlanesUpdated true) }
            (by simpa using hlen) (by simpa using hlt) (by simpa using (by omega : m.displays_.length < fuel + (i + 1)))
          have hfr : Frame m
              { m with
                log := log,
                displays_ := m.displays_.set i (m.displays_[i].SetPlanesUpdated true) } := by
            refine ⟨?_, rfl, hlog, id⟩
            simp only [List.map_set, binding_SetPlanesUpdated]
            exact set_same _ _ _ (by simp [hsome])
          exact ⟨m', h1, Frame.trans hfr h2⟩
        split
        · exact key _ (by simp [DrmDisplayManager.emit, disconnects, List.filterMap_append])
        · exact key _ rfl
    · simp only [RemoveUnreservedPlanesLoop, hlt, if_false]
      exact ⟨m, rfl, Frame.refl m⟩

theorem NotifyClients_frame (cfg : Config) (m : DrmDisplayManager) :
    Frame m (NotifyClientsOfDisplayChangeStatus cfg m) := by
  refine ⟨?_, ?_, ?_, ?_⟩
  · simp only [NotifyClientsOfDisplayChangeStatus, DrmDisplayManager.emit]; split <;> rfl
  · simp only [NotifyClientsOfDisplayChangeStatus, DrmDisplayManager.emit]; split <;> rfl
  · have hn : ∀ ds : List DrmDisplay, disconnects (ds.map notifyEvent) = [] := by
      intro ds
      induction ds with
      | nil => rfl
      | cons d rest ih =>
        have h1 : disconnects (notifyEvent d :: rest.map notifyEvent) =
            disconnects (rest.map notifyEvent) := by
          cases hc : d.IsConnected <;> simp [notifyEvent, disconnects, hc]
        simpa [h1] using ih
    have hd : ∀ a b : List Event, disconnects (a ++ b) = disconnects a ++ disconnects b := by
      intro a b; simp [disconnects, List.filterMap_append]
    have hl : disconnects [Event.lock] = [] := rfl
    have hu : disconnects [Event.unlock] = [] := rfl
    simp only [NotifyClientsOfDisplayChangeStatus, DrmDisplayManager.emit]
    split <;> simp only [hd, hn, hl, hu, List.append_nil]
  · intro h
    simp only [NotifyClientsOfDisplayChangeStatus, DrmDisplayManager.emit]
    split <;> simp [h]

theorem Frame.length {m m' : DrmDisplayManager} (h : Frame m m') :
    m'.displays_.length = m.displays_.length := by
  have := congrArg List.length h.1
  simpa using this

theorem prune_ok (cfg : Config) (fuel : Nat) (m m2 : DrmDisplayManager)
    (h : PassReturns cfg fuel m) (hF : Frame m m2) :
    ∃ m', (if cfg.IsReservedDrmPlane then
        match RemoveUnreservedPlanes cfg fuel m2 with
        | .ok m => (.ok (true, m) : Except Fault (Bool × DrmDisplayManager))
        | .error e => .error e
      else .ok (true, m2)) = .ok (true, m') ∧ Frame m m' := by
  by_cases hr : cfg.IsReservedDrmPlane = true
  · obtain ⟨h1, h2⟩ := h.2 hr
    obtain ⟨m', hm', hF'⟩ := RemoveUnreservedPlanesLoop_ok cfg fuel 0 m2
      (by rw [hF.length]; exact h1) (Nat.zero_le _) (by rw [hF.length]; simpa using h2)
    refine ⟨m', ?_, Frame.trans hF hF'⟩
    simp [hr, RemoveUnreservedPlanes, hm']
  · exact ⟨m2, by simp [hr], hF⟩

theorem afterUnlock_ok (cfg : Config) (fuel : Nat) (m : DrmDisplayManager)
    (h : PassReturns cfg fuel m) :
    ∃ m', afterUnlock cfg fuel m = .ok (true, m') ∧ Frame m m' := by
  by_cases hwa : cfg.ENABLE_ANDROID_WA = true
  · by_cases hn : m.notify_client_ = true
    · obtain ⟨m', h1, h2⟩ := prune_ok cfg fuel m (NotifyClientsOfDisplayChangeStatus cfg m) h
        (NotifyClients_frame cfg m)
      exact ⟨m', by simpa [afterUnlock, hwa, hn] using h1, h2⟩
    · have hne := h.1 hwa (by simpa using hn)
      obtain ⟨d, rest, hd⟩ := List.exists_cons_of_ne_nil hne
      by_cases hc : d.IsConnected = true
      · obtain ⟨m', h1, h2⟩ := prune_ok cfg fuel m m h (Frame.refl m)
        exact ⟨m', by simpa [afterUnlock, hwa, hn, hd, hc] using h1, h2⟩
      · obtain ⟨m', h1, h2⟩ := prune_ok cfg fuel m (NotifyClientsOfDisplayChangeStatus cfg m) h
          (NotifyClients_frame cfg m)
        exact ⟨m', by simpa [afterUnlock, hwa, hn, hd, hc] using h1, h2⟩
  · have hF : Frame m (NotifyClientsOfDisplayChangeStatus cfg { m with notify_client_ := true }) :=
      Frame.trans (show Frame m { m with notify_client_ := true } from ⟨rfl, rfl, rfl, fun _ => rfl⟩)
        (NotifyClients_frame cfg _)
    obtain ⟨m', h1, h2⟩ := prune_ok cfg fuel m _ h hF
    exact ⟨m', by simpa [afterUnlock, hwa] using h1, h2⟩

theorem bindFirst_length (test : DrmDisplay → Bool) (f : DrmDisplay → DrmDisplay)
    (ds : List DrmDisplay) : (bindFirst test f ds).length = ds.length := by
  induction ds with
  | nil => rfl
  | cons d rest ih => simp only [bindFirst]; split <;> simp [ih]

theorem runSteps_length (K : Kernel) (steps : List BindStep) :
    ∀ ds, (runSteps K steps ds).length = ds.length := by
  induction steps with
  | nil => intro ds; rfl
  | cons s rest ih => intro ds; rw [runSteps_cons, ih, applyStep, bindFirst_length]

theorem afterSubpasses_length (cfg : Config) (K : Kernel) (res : drmModeRes)
    (m : DrmDisplayManager) : (afterSubpasses cfg K res m).length = m.displays_.length := by
  simp [afterSubpasses, runSteps_length, markDisplays]

theorem disconnectLoop_fst (cb : Bool) (ds : List DrmDisplay) :
    (disconnectLoop cb ds).1 = finalize ds := by
  induction ds with
  | nil => rfl
  | cons d rest ih =>
    simp only [disconnectLoop, finalize, List.map_cons] at ih ⊢
    split
    · simp [ih]
    · split <;> simp [ih]

theorem disconnectLoop_events (cb : Bool) (ds : List DrmDisplay) :
    disconnects (disconnectLoop cb ds).2.1 =
      (ds.filter fun d => !d.IsConnected).map DrmDisplay.GetDisplayPipe := by
  induction ds with
  | nil => rfl
  | cons d rest ih =>
    simp only [disconnectLoop, List.filter_cons]
    split
    · simp [disconnects] at ih ⊢
      exact ih
    · split <;> simpa using ih

theorem disconnectLoop_connected (ds : List DrmDisplay) :
    (disconnectLoop true ds).2.2 =
      (ds.filter fun d => d.IsConnected).map DrmDisplay.GetDisplayPipe := by
  induction ds with
  | nil => rfl
  | cons d rest ih =>
    simp only [disconnectLoop, List.filter_cons]
    cases hc : d.IsConnected <;> simp [ih]

theorem disconnects_append (a b : List Event) :
    disconnects (a ++ b) = disconnects a ++ disconnects b := by
  simp [disconnects, List.filterMap_append]

theorem underLock_eq (cfg : Config) (K : Kernel) (res : drmModeRes) (m : DrmDisplayManager) :
    ∃ m', underLock cfg K res m = .ok m' ∧
      m'.displays_ = finalize (afterSubpasses cfg K res m) ∧
      m'.connected_display_count_ = countConnected K res.connectors 0 ∧
      disconnects m'.log = disconnects m.log ++
        ((afterSubpasses cfg K res m).filter fun d => !d.IsConnected).map
          DrmDisplay.GetDisplayPipe ∧
      m'.notify_client_ = m.notify_client_ := by
  have hb := bindDisplays_eq K res.connectors (markDisplays cfg m.displays_)
  have hl : disconnects [Event.lock] = [] := rfl
  have hu : disconnects [Event.unlock] = [] := rfl
  have hc : ∀ l, disconnects [Event.Callback l, Event.unlock] = [] := fun _ => rfl
  have hl2 : ∀ l, disconnects (Event.lock :: l) = disconnects l := fun _ => rfl
  simp only [underLock, DrmDisplayManager.emit, hb]
  refine ⟨_, rfl, ?_, ?_, ?_, ?_⟩
  · by_cases hcb : m.callback_ = true <;> simp [hcb, disconnectLoop_fst, afterSubpasses]
  · by_cases hcb : m.callback_ = true <;> simp [hcb]
  · by_cases hcb : m.callback_ = true <;>
      simp [hcb, disconnects_append, hl, hl2, hu, hc, disconnectLoop_events, afterSubpasses]
  · by_cases hcb : m.callback_ = true <;> simp [hcb]

theorem finalize_length (ds : List DrmDisplay) : (finalize ds).length = ds.length := by
  simp [finalize]

theorem UpdateDisplayState_spec (cfg : Config) (K : Kernel) (fuel : Nat)
    (m : DrmDisplayManager) (res : drmModeRes) (hres : K.drmModeGetResources = some res)
    (h : PassReturns cfg fuel m) :
    ∃ m', UpdateDisplayState cfg K fuel m = .ok (true, m') ∧
      m'.displays_.map DrmDisplay.binding =
        (finalize (afterSubpasses cfg K res m)).map DrmDisplay.binding ∧
      m'.connected_display_count_ = countConnected K res.connectors 0 ∧
      disconnects m'.log = disconnects m.log ++
        ((afterSubpasses cfg K res m).filter fun d => !d.IsConnected).map
          DrmDisplay.GetDisplayPipe ∧
      PassReturns cfg fuel m' := by
  obtain ⟨m1, h1, hd, hc, hlog, hn⟩ := underLock_eq cfg K res m
  have hlen1 : m1.displays_.length = m.displays_.length := by
    rw [hd, finalize_length, afterSubpasses_length]
  have hp1 : PassReturns cfg fuel m1 := by
    refine ⟨fun hwa hnot => ?_, fun hr => ?_⟩
    · have := h.1 hwa (by rw [← hn]; exact hnot)
      intro h0
      apply this
      apply List.eq_nil_of_length_eq_zero
      rw [← hlen1, h0]; rfl
    · rw [hlen1]; exact h.2 hr
  obtain ⟨m2, h2, hF⟩ := afterUnlock_ok cfg fuel m1 hp1
  refine ⟨m2, ?_, ?_, ?_, ?_, ?_⟩
  · simp [UpdateDisplayState, hres, h1, h2]
  · rw [hF.1, hd]
  · rw [hF.2.1, hc]
  · rw [hF.2.2.1, hlog]
  · refine ⟨fun hwa hnot => ?_, fun hr => ?_⟩
    · have hm1 : m1.notify_client_ = false := by
        cases hx : m1.notify_client_ with
        | false => rfl
        | true => rw [hF.2.2.2 hx] at hnot; cases hnot
      have := hp1.1 hwa hm1
      intro h0
      apply this
      apply List.eq_nil_of_length_eq_zero
      rw [← hF.length, h0]; rfl
    · rw [hF.length]; exact hp1.2 hr

theorem steps_structural (K : Kernel) (connectors : List Nat) :
    ∀ s ∈ steps1 K connectors ++ steps2 K connectors, Structural s := by
  intro s hs
  rcases List.mem_append.mp hs with h | h
  · simp only [steps1, List.mem_filterMap] at h
    obtain ⟨c, _, hc⟩ := h
    unfold directStep at hc
    split at hc
    · split at hc
      · cases hc
      · split at hc
        · cases hc
          intro a b _ h2
          simp [crtcMatches, DrmDisplay.CrtcId, h2]
        · cases hc
    · cases hc
  · simp only [steps2, List.mem_flatMap] at h
    obtain ⟨idx, _, hidx⟩ := h
    unfold stepsAt at hidx
    split at hidx
    · cases hidx
    · split at hidx
      · cases hidx
      · simp only [encoderSteps, List.mem_filterMap, Option.map_eq_some'] at hidx
        obtain ⟨id, _, e, _, he⟩ := hidx
        subst he
        intro a b h1 _
        simp [canDrive, DrmDisplay.GetDisplayPipe, h1]

theorem bound_IsConnected (s : BindStep) (d : DrmDisplay) : (s.bound d).IsConnected = true := rfl

theorem applyStep_sameBinding (K : Kernel) (s : BindStep) (hs : Structural s)
    (a b : List DrmDisplay) (h : List.Forall₂ SameBinding a b) :
    List.Forall₂ SameBinding (applyStep K s a) (applyStep K s b) := by
  induction h with
  | nil => exact List.Forall₂.nil
  | @cons x y xs ys hxy _ ih =>
    have htest : s.test K x = s.test K y := by
      simp only [BindStep.test, hs x y hxy.1 hxy.2.1, hxy.2.2.1, DrmDisplay.GetDisplayPipe, hxy.1]
    simp only [applyStep, bindFirst, htest] at ih ⊢
    split
    · refine List.Forall₂.cons ⟨hxy.1, hxy.2.1, rfl, fun _ => ?_⟩ ‹_›
      simp [BindStep.bound, DrmDisplay.binding, DrmDisplay.ConnectDisplay,
        DrmDisplay.SetDrmModeInfo, DrmDisplay.GetDisplayPipe, DrmDisplay.CrtcId,
        DrmDisplay.IsConnected, DrmDisplay.GetConnectorID, hxy.1, hxy.2.1]
    · exact List.Forall₂.cons hxy ih

theorem runSteps_sameBinding (K : Kernel) (steps : List BindStep)
    (hs : ∀ s ∈ steps, Structural s) :
    ∀ a b, List.Forall₂ SameBinding a b →
      List.Forall₂ SameBinding (runSteps K steps a) (runSteps K steps b) := by
  induction steps with
  | nil => intro a b h; exact h
  | cons s rest ih =>
    intro a b h
    rw [runSteps_cons, runSteps_cons]
    exact ih (fun t ht => hs t (List.mem_cons_of_mem _ ht)) _ _
      (applyStep_sameBinding K s (hs s (List.mem_cons_self _ _)) a b h)

theorem finalize_sameBinding (a b : List DrmDisplay) (h : List.Forall₂ SameBinding a b) :
    (finalize a).map DrmDisplay.binding = (finalize b).map DrmDisplay.binding := by
  induction h with
  | nil => rfl
  | @cons x y xs ys hxy _ ih =>
    simp only [finalize, List.map_cons, List.cons.injEq] at ih ⊢
    refine ⟨?_, ih⟩
    cases hx : x.IsConnected with
    | true =>
      have hy : y.IsConnected = true := by rw [← hxy.2.2.1]; exact hx
      simpa [hx, hy] using hxy.2.2.2 hx
    | false =>
      have hy : y.IsConnected = false := by rw [← hxy.2.2.1]; exact hx
      simp only [hx, hy, Bool.not_false, if_true]
      simp [DrmDisplay.binding, DrmDisplay.DisConnect, DrmDisplay.GetDisplayPipe,
        DrmDisplay.CrtcId, DrmDisplay.IsConnected, DrmDisplay.GetConnectorID, hxy.1, hxy.2.1]

theorem markDisplays_sameBinding (cfg : Config) (a b : List DrmDisplay)
    (h : a.map DrmDisplay.ids = b.map DrmDisplay.ids) :
    List.Forall₂ SameBinding (markDisplays cfg a) (markDisplays cfg b) := by
  induction a generalizing b with
  | nil =>
    cases b with
    | nil => exact List.Forall₂.nil
    | cons y ys => simp at h
  | cons x xs ih =>
    cases b with
    | nil => simp at h
    | cons y ys =>
      simp only [List.map_cons, List.cons.injEq] at h
      have hp : x.pipe_ = y.pipe_ := congrArg Prod.fst h.1
      have hc : x.crtc_id_ = y.crtc_id_ := congrArg Prod.snd h.1
      have hm : ∀ d : DrmDisplay, ((if cfg.IsReservedDrmPlane && !d.IsConnected
          then d.SetPlanesUpdated false else d).MarkForDisconnect).IsConnected = false := by
        intro d
        split <;> simp [DrmDisplay.MarkForDisconnect, DrmDisplay.IsConnected,
          DrmDisplay.SetPlanesUpdated]
      have hpipe : ∀ d : DrmDisplay, ((if cfg.IsReservedDrmPlane && !d.IsConnected
          then d.SetPlanesUpdated false else d).MarkForDisconnect).pipe_ = d.pipe_ := by
        intro d; split <;> rfl
      have hcrtc : ∀ d : DrmDisplay, ((if cfg.IsReservedDrmPlane && !d.IsConnected
          then d.SetPlanesUpdated false else d).MarkForDisconnect).crtc_id_ = d.crtc_id_ := by
        intro d; split <;> rfl
      simp only [markDisplays, List.map_cons]
      refine List.Forall₂.cons ⟨?_, ?_, ?_, ?_⟩ (ih ys h.2)
      · rw [hpipe, hpipe]; exact hp
      · rw [hcrtc, hcrtc]; exact hc
      · rw [hm, hm]
      · intro hx; rw [hm] at hx; cases hx

theorem bindFirst_ids (s : BindStep) (test : DrmDisplay → Bool) (ds : List DrmDisplay) :
    (bindFirst test s.bound ds).map DrmDisplay.ids = ds.map DrmDisplay.ids := by
  induction ds with
  | nil => rfl
  | cons d rest ih =>
    simp only [bindFirst]
    split
    · rfl
    · simp [ih]

theorem runSteps_ids (K : Kernel) (steps : List BindStep) :
    ∀ ds, (runSteps K steps ds).map DrmDisplay.ids = ds.map DrmDisplay.ids := by
  induction steps with
  | nil => intro ds; rfl
  | cons s rest ih => intro ds; rw [runSteps_cons, ih, applyStep, bindFirst_ids]

theorem markDisplays_ids (cfg : Config) (ds : List DrmDisplay) :
    (markDisplays cfg ds).map DrmDisplay.ids = ds.map DrmDisplay.ids := by
  simp only [markDisplays, List.map_map]
  apply List.map_congr_left
  intro d _
  simp only [Function.comp]
  split <;> rfl

theorem finalize_ids (ds : List DrmDisplay) :
    (finalize ds).map DrmDisplay.ids = ds.map DrmDisplay.ids := by
  simp only [finalize, List.map_map]
  apply List.map_congr_left
  intro d _
  simp only [Function.comp]
  split <;> rfl

theorem ids_of_binding (a b : List DrmDisplay)
    (h : a.map DrmDisplay.binding = b.map DrmDisplay.binding) :
    a.map DrmDisplay.ids = b.map DrmDisplay.ids := by
  have := congrArg (List.map fun x : Binding => (x.pipe, x.crtc_id)) h
  simpa [List.map_map, Function.comp, DrmDisplay.binding, DrmDisplay.ids,
    DrmDisplay.GetDisplayPipe, DrmDisplay.CrtcId] using this

theorem applyStep_get (K : Kernel) (s : BindStep) :
    ∀ (ds : List DrmDisplay) (k : Nat) (x : DrmDisplay), ds[k]? = some x →
      (applyStep K s ds)[k]? = some x ∨
        (x.IsConnected = false ∧ (applyStep K s ds)[k]? = some (s.bound x)) := by
  intro ds
  induction ds with
  | nil => intro k x h; simp at h
  | cons d rest ih =>
    intro k x h
    simp only [applyStep, bindFirst] at ih ⊢
    by_cases ht : s.test K d = true
    · simp only [ht, if_true]
      cases k with
      | zero =>
        simp only [List.getElem?_cons_zero, Option.some.injEq] at h
        subst h
        right
        refine ⟨?_, by simp⟩
        simp only [BindStep.test, Bool.and_eq_true, Bool.not_eq_true'] at ht
        exact ht.1.1
      | succ k => left; simpa using h
    · have htf : s.test K d = false := by simpa using ht
      simp only [htf, Bool.false_eq_true, if_false]
      cases k with
      | zero => left; simpa using h
      | succ k =>
        simp only [List.getElem?_cons_succ] at h ⊢
        exact ih k x h

theorem runSteps_invariant (K : Kernel) (P : DrmDisplay → Prop) (steps : List BindStep)
    (hP : ∀ s ∈ steps, ∀ x, P x → x.IsConnected = false → P (s.bound x)) :
    ∀ (ds : List DrmDisplay) (k : Nat) (x : DrmDisplay), ds[k]? = some x → P x →
      ∃ y, (runSteps K steps ds)[k]? = some y ∧ P y := by
  induction steps with
  | nil => intro ds k x h hx; exact ⟨x, h, hx⟩
  | cons s rest ih =>
    intro ds k x h hx
    rw [runSteps_cons]
    have hrest : ∀ t ∈ rest, ∀ x, P x → x.IsConnected = false → P (t.bound x) :=
      fun t ht => hP t (List.mem_cons_of_mem _ ht)
    rcases applyStep_get K s ds k x h with h1 | ⟨hc, h1⟩
    · exact ih hrest _ k x h1 hx
    · exact ih hrest _ k _ h1 (hP s (List.mem_cons_self _ _) x hx hc)

theorem runSteps_connected (K : Kernel) (steps : List BindStep) (ds : List DrmDisplay)
    (k : Nat) (x : DrmDisplay) (h : ds[k]? = some x) (hx : x.IsConnected = true) :
    (runSteps K steps ds)[k]? = some x := by
  obtain ⟨y, hy, hyx⟩ := runSteps_invariant K (fun y => y = x) steps
    (fun s _ z hz hc => by subst hz; rw [hx] at hc; cases hc) ds k x h rfl
  rw [hy, hyx]

theorem mem_scanned (K : Kernel) (connectors : List Nat) (c : drmModeConnector)
    (h : c ∈ scanned K connectors) :
    ∃ id ∈ connectors, K.drmModeGetConnector id = some c := by
  induction connectors with
  | nil => simp [scanned] at h
  | cons id rest ih =>
    cases hq : K.drmModeGetConnector id with
    | none => simp [scanned, hq] at h
    | some c' =>
      simp only [scanned, hq, List.mem_cons] at h
      rcases h with h | h
      · subst h; exact ⟨id, List.mem_cons_self _ _, hq⟩
      · obtain ⟨x, hx, hxq⟩ := ih h
        exact ⟨x, List.mem_cons_of_mem _ hx, hxq⟩

theorem steps_connector (K : Kernel) (connectors : List Nat) :
    ∀ s ∈ steps1 K connectors ++ steps2 K connectors,
      usable s.connector = true ∧
      ∃ id ∈ connectors, K.drmModeGetConnector id = some s.connector := by
  intro s hs
  rcases List.mem_append.mp hs with h | h
  · simp only [steps1, List.mem_filterMap] at h
    obtain ⟨c, hc, hd⟩ := h
    unfold directStep at hd
    split at hd
    · rename_i hu
      split at hd
      · cases hd
      · split at hd
        · cases hd
          simp only [Bool.and_eq_true] at hu
          exact ⟨hu.1, mem_scanned K connectors c hc⟩
        · cases hd
    · cases hd
  · simp only [steps2, List.mem_flatMap] at h
    obtain ⟨idx, hidx, hst⟩ := h
    have hv := deferredIdx_valid K connectors connectors [] rfl idx (by simpa using hidx)
    obtain ⟨id, c, h1, h2, h3, _⟩ := hv
    simp only [stepsAt, h1, h2, encoderSteps, List.mem_filterMap, Option.map_eq_some'] at hst
    obtain ⟨eid, _, e, _, he⟩ := hst
    subst he
    exact ⟨h3, id, List.mem_iff_getElem?.mpr ⟨idx, h1⟩, h2⟩

theorem runSteps_forall (K : Kernel) (P : DrmDisplay → Prop) (steps : List BindStep)
    (hP : ∀ s ∈ steps, ∀ x, P x → x.IsConnected = false → P (s.bound x))
    (ds : List DrmDisplay) (hall : ∀ x ∈ ds, P x) :
    ∀ y ∈ runSteps K steps ds, P y := by
  intro y hy
  obtain ⟨k, hk⟩ := List.mem_iff_getElem?.mp hy
  have hlt : k < ds.length := by
    have := (List.getElem?_eq_some_iff.mp hk).1
    rwa [runSteps_length] at this
  have hx : ds[k]? = some ds[k] := List.getElem?_eq_getElem hlt
  obtain ⟨y', h1, h2⟩ := runSteps_invariant K P steps hP ds k _ hx
    (hall _ (List.getElem_mem hlt))
  rw [hk] at h1
  cases h1
  exact h2

theorem markDisplays_not_connected (cfg : Config) (ds : List DrmDisplay) :
    ∀ x ∈ markDisplays cfg ds, x.IsConnected = false := by
  intro x hx
  simp only [markDisplays, List.mem_map] at hx
  obtain ⟨d, _, hd⟩ := hx
  subst hd
  split <;> simp [DrmDisplay.MarkForDisconnect, DrmDisplay.IsConnected,
    DrmDisplay.SetPlanesUpdated]

theorem finalize_binding_mem (ds : List DrmDisplay) (b : Binding)
    (h : b ∈ (finalize ds).map DrmDisplay.binding) :
    ∃ y ∈ ds, (y.IsConnected = true ∧ b = y.binding) ∨
      (y.IsConnected = false ∧ b = ⟨y.pipe_, y.crtc_id_, false, 0, 0, []⟩) := by
  simp only [finalize, List.map_map, List.mem_map, Function.comp] at h
  obtain ⟨y, hy, hb⟩ := h
  refine ⟨y, hy, ?_⟩
  cases hc : y.IsConnected with
  | true => left; simp [hc] at hb; exact ⟨rfl, hb.symm⟩
  | false => right; simp [hc] at hb; exact ⟨rfl, hb.symm⟩

theorem finalize_disconnected (ds : List DrmDisplay) :
    (((finalize ds).map DrmDisplay.binding).filter fun b => !b.connected).map (fun b => b.pipe) =
      (ds.filter fun d => !d.IsConnected).map DrmDisplay.GetDisplayPipe := by
  induction ds with
  | nil => rfl
  | cons d rest ih =>
    simp only [finalize, List.map_cons, List.filter_cons] at ih ⊢
    cases hc : d.IsConnected with
    | true => simpa [hc, DrmDisplay.binding] using ih
    | false =>
      simp only [hc, Bool.not_false, if_true]
      simpa [DrmDisplay.binding, DrmDisplay.DisConnect, DrmDisplay.IsConnected,
        DrmDisplay.GetDisplayPipe] using ih

theorem afterSubpasses_output (cfg : Config) (K : Kernel) (res : drmModeRes)
    (m : DrmDisplayManager) :
    ∀ y ∈ afterSubpasses cfg K res m, y.IsConnected = true →
      ∃ id ∈ res.connectors, ∃ c, K.drmModeGetConnector id = some c ∧
        c.connection = DRM_MODE_CONNECTED ∧ c.connector_id = y.connector_ := by
  apply runSteps_forall
  · intro s hs x _ _ _
    obtain ⟨hu, id, hid, hq⟩ := steps_connector K res.connectors s hs
    simp only [usable, Bool.and_eq_true, beq_iff_eq] at hu
    exact ⟨id, hid, s.connector, hq, hu.1, rfl⟩
  · intro x hx hc
    rw [markDisplays_not_connected cfg _ x hx] at hc
    cases hc

theorem flatMap_congr_mem {α β : Type} (l : List α) (f g : α → List β)
    (h : ∀ x ∈ l, f x = g x) : l.flatMap f = l.flatMap g := by
  induction l with
  | nil => rfl
  | cons a rest ih =>
    simp only [List.flatMap_cons]
    rw [h a (List.mem_cons_self _ _), ih (fun x hx => h x (List.mem_cons_of_mem _ hx))]

theorem countConnected_truncate (K : Kernel) (k : Nat) (post : List Nat)
    (hfail : K.drmModeGetConnector k = none) :
    ∀ (pre : List Nat) (n : Nat),
      countConnected K (pre ++ k :: post) n = countConnected K pre n := by
  intro pre
  induction pre with
  | nil => intro n; simp [countConnected, hfail]
  | cons id rest ih =>
    intro n
    simp only [List.cons_append, countConnected]
    cases K.drmModeGetConnector id with
    | none => rfl
    | some c => simp only [List.append_eq, ih]

theorem scanned_truncate (K : Kernel) (k : Nat) (post : List Nat)
    (hfail : K.drmModeGetConnector k = none) :
    ∀ pre : List Nat, scanned K (pre ++ k :: post) = scanned K pre := by
  intro pre
  induction pre with
  | nil => simp [scanned, hfail]
  | cons id rest ih =>
    simp only [List.cons_append, scanned]
    cases K.drmModeGetConnector id with
    | none => rfl
    | some c => simp only [List.append_eq, ih]

theorem deferredIdx_truncate (K : Kernel) (k : Nat) (post : List Nat)
    (hfail : K.drmModeGetConnector k = none) :
    ∀ (pre : List Nat) (i : Nat),
      deferredIdx K (pre ++ k :: post) i = deferredIdx K pre i := by
  intro pre
  induction pre with
  | nil => intro i; simp [deferredIdx, hfail]
  | cons id rest ih =>
    intro i
    simp only [List.cons_append, deferredIdx]
    cases K.drmModeGetConnector id with
    | none => rfl
    | some c => simp only [List.append_eq, ih]

theorem deferredIdx_lt (K : Kernel) :
    ∀ (l : List Nat) (i : Nat), ∀ idx ∈ deferredIdx K l i, i ≤ idx ∧ idx < i + l.length := by
  intro l
  induction l with
  | nil => intro i idx h; simp [deferredIdx] at h
  | cons id rest ih =>
    intro i idx h
    simp only [deferredIdx] at h
    cases hq : K.drmModeGetConnector id with
    | none => simp [hq] at h
    | some c =>
      simp only [hq] at h
      simp only [List.length_cons]
      split at h
      · rcases List.mem_cons.mp h with h | h
        · omega
        · have := ih (i + 1) idx h; omega
      · have := ih (i + 1) idx h; omega

theorem steps_truncate (K : Kernel) (pre : List Nat) (k : Nat) (post : List Nat)
    (hfail : K.drmModeGetConnector k = none) :
    steps1 K (pre ++ k :: post) ++ steps2 K (pre ++ k :: post) = steps1 K pre ++ steps2 K pre := by
  simp only [steps1, steps2, scanned_truncate K k post hfail, deferredIdx_truncate K k post hfail]
  congr 1
  apply flatMap_congr_mem
  intro idx hidx
  have hlt := (deferredIdx_lt K pre 0 idx hidx).2
  simp only [stepsAt, List.getElem?_append_left (by omega : idx < pre.length)]

theorem countConnected_kernel (r r' : Option drmModeRes) (gc : Nat → Option drmModeConnector)
    (ge : Nat → Option drmModeEncoder) (ok : Nat → Nat → Bool) :
    ∀ (l : List Nat) (n : Nat),
      countConnected ⟨r, gc, ge, ok⟩ l n = countConnected ⟨r', gc, ge, ok⟩ l n := by
  intro l
  induction l with
  | nil => intro n; rfl
  | cons id rest ih =>
    intro n
    simp only [countConnected]
    cases gc id with
    | none => rfl
    | some c => simp only [ih]

theorem scanned_kernel (r r' : Option drmModeRes) (gc : Nat → Option drmModeConnector)
    (ge : Nat → Option drmModeEncoder) (ok : Nat → Nat → Bool) :
    ∀ l : List Nat, scanned ⟨r, gc, ge, ok⟩ l = scanned ⟨r', gc, ge, ok⟩ l := by
  intro l
  induction l with
  | nil => rfl
  | cons id rest ih =>
    simp only [scanned]
    cases gc id with
    | none => rfl
    | some c => simp only [ih]

theorem deferredIdx_kernel (r r' : Option drmModeRes) (gc : Nat → Option drmModeConnector)
    (ge : Nat → Option drmModeEncoder) (ok : Nat → Nat → Bool) :
    ∀ (l : List Nat) (i : Nat),
      deferredIdx ⟨r, gc, ge, ok⟩ l i = deferredIdx ⟨r', gc, ge, ok⟩ l i := by
  intro l
  induction l with
  | nil => intro i; rfl
  | cons id rest ih =>
    intro i
    simp only [deferredIdx]
    cases gc id with
    | none => rfl
    | some c => simp only [ih]

theorem underLock_kernel (cfg : Config) (K : Kernel) (r : Option drmModeRes)
    (res : drmModeRes) (m : DrmDisplayManager) :
    underLock cfg { K with drmModeGetResources := r } res m = underLock cfg K res m := by
  obtain ⟨r0, gc, ge, ok⟩ := K
  simp only [underLock, bindDisplays_eq, countConnected_kernel r r0 gc ge ok]
  have hs : steps1 ⟨r, gc, ge, ok⟩ res.connectors ++ steps2 ⟨r, gc, ge, ok⟩ res.connectors =
      steps1 ⟨r0, gc, ge, ok⟩ res.connectors ++ steps2 ⟨r0, gc, ge, ok⟩ res.connectors := by
    simp only [steps1, steps2, scanned_kernel r r0 gc ge ok, deferredIdx_kernel r r0 gc ge ok]
    rfl
  rw [hs]
  rfl

theorem underLock_truncate (cfg : Config) (K : Kernel) (res : drmModeRes)
    (m : DrmDisplayManager) (pre : List Nat) (k : Nat) (post : List Nat)
    (hsplit : res.connectors = pre ++ k :: post) (hfail : K.drmModeGetConnector k = none) :
    underLock cfg K res m = underLock cfg K { res with connectors := pre } m := by
  simp only [underLock, bindDisplays_eq, hsplit, countConnected_truncate K k post hfail,
    steps_truncate K pre k post hfail]

theorem scanned_append (K : Kernel) (l : List Nat) :
    ∀ pre : List Nat, (∀ x ∈ pre, (K.drmModeGetConnector x).isSome = true) →
      scanned K (pre ++ l) = scanned K pre ++ scanned K l := by
  intro pre
  induction pre with
  | nil => intro _; rfl
  | cons id rest ih =>
    intro h
    have h1 := h id (List.mem_cons_self _ _)
    cases hq : K.drmModeGetConnector id with
    | none => rw [hq] at h1; cases h1
    | some c =>
      simp only [List.cons_append, scanned, hq, List.append_eq,
        ih (fun x hx => h x (List.mem_cons_of_mem _ hx))]

theorem steps1_connector (K : Kernel) (l : List Nat) :
    ∀ s ∈ steps1 K l, ∃ x ∈ l, K.drmModeGetConnector x = some s.connector := by
  intro s hs
  simp only [steps1, List.mem_filterMap] at hs
  obtain ⟨c, hc, hd⟩ := hs
  have : s.connector = c := by
    unfold directStep at hd
    split at hd
    · split at hd
      · cases hd
      · split at hd
        · cases hd; rfl
        · cases hd
    · cases hd
  rw [this]
  exact mem_scanned K l c hc

theorem steps2_connector (K : Kernel) (l : List Nat) :
    ∀ s ∈ steps2 K l, ∃ x ∈ l, K.drmModeGetConnector x = some s.connector ∧
      s.connector.encoder_id = 0 := by
  intro s hs
  simp only [steps2, List.mem_flatMap] at hs
  obtain ⟨idx, hidx, hst⟩ := hs
  have hv := deferredIdx_valid K l l [] rfl idx (by simpa using hidx)
  obtain ⟨id, c, h1, h2, _, h4⟩ := hv
  simp only [stepsAt, h1, h2, encoderSteps, List.mem_filterMap, Option.map_eq_some'] at hst
  obtain ⟨eid, _, e, _, he⟩ := hst
  subst he
  exact ⟨id, List.mem_iff_getElem?.mpr ⟨idx, h1⟩, h2, h4⟩

theorem bindFirst_set (test : DrmDisplay → Bool) (f : DrmDisplay → DrmDisplay) :
    ∀ (ds : List DrmDisplay) (j : Nat) (d : DrmDisplay), ds[j]? = some d → test d = true →
      (∀ k x, k < j → ds[k]? = some x → test x = false) →
      bindFirst test f ds = ds.set j (f d) := by
  intro ds
  induction ds with
  | nil => intro j d h; simp at h
  | cons a rest ih =>
    intro j d h ht hlow
    cases j with
    | zero =>
      simp only [List.getElem?_cons_zero, Option.some.injEq] at h
      subst h
      simp [bindFirst, ht]
    | succ j =>
      have ha : test a = false := hlow 0 a (Nat.succ_pos j) (by simp)
      simp only [List.getElem?_cons_succ] at h
      simp only [bindFirst, ha, Bool.false_eq_true, if_false, List.set_cons_succ]
      rw [ih j d h ht (fun k x hk hx => hlow (k + 1) x (by omega) (by simpa using hx))]

theorem finalize_get_connected (ds : List DrmDisplay) (k : Nat) (x : DrmDisplay)
    (h : ds[k]? = some x) (hx : x.IsConnected = true) :
    ((finalize ds).map DrmDisplay.binding)[k]? = some x.binding := by
  simp [finalize, List.getElem?_map, h, hx]

theorem finalize_get (ds : List DrmDisplay) (k : Nat) (b : Binding)
    (h : ((finalize ds).map DrmDisplay.binding)[k]? = some b) (hb : b.connected = true) :
    ∃ x, ds[k]? = some x ∧ x.IsConnected = true ∧ b = x.binding := by
  simp only [finalize, List.getElem?_map, List.map_map, Option.map_eq_some',
    Function.comp] at h
  obtain ⟨x, hx, hbx⟩ := h
  refine ⟨x, hx, ?_⟩
  cases hc : x.IsConnected with
  | true => simp [hc] at hbx; exact ⟨rfl, hbx.symm⟩
  | false =>
    simp [hc] at hbx
    rw [← hbx] at hb
    simp [DrmDisplay.binding, DrmDisplay.DisConnect, DrmDisplay.IsConnected] at hb



theorem canDrive_of_testBit (encoder : drmModeEncoder) (d : DrmDisplay)
    (h32 : encoder.possible_crtcs < 2 ^ 32)
    (hbit : encoder.possible_crtcs.testBit d.GetDisplayPipe = true) :
    canDrive encoder d = true := by
  have hp : d.GetDisplayPipe < 32 := by
    by_contra hge
    have hle : 2 ^ 32 ≤ 2 ^ d.GetDisplayPipe :=
      Nat.pow_le_pow_right (by decide) (by omega)
    have := Nat.testBit_lt_two_pow (Nat.lt_of_lt_of_le h32 hle)
    rw [this] at hbit
    cases hbit
  have hlt : 2 ^ d.GetDisplayPipe < 2 ^ 32 := Nat.pow_lt_pow_right (by decide) hp
  simp only [canDrive, Nat.one_shiftLeft, Nat.mod_eq_of_lt hlt, Nat.and_two_pow, hbit,
    Bool.toNat_true, Nat.one_mul, bne_iff_ne, ne_eq]
  exact Nat.ne_of_gt (Nat.two_pow_pos _)

theorem bindFirst_exists (test : DrmDisplay → Bool) (f : DrmDisplay → DrmDisplay) :
    ∀ ds : List DrmDisplay, (∃ x ∈ ds, test x = true) →
      ∃ (k : Nat) (x : DrmDisplay), ds[k]? = some x ∧ test x = true ∧
        (bindFirst test f ds)[k]? = some (f x) := by
  intro ds
  induction ds with
  | nil => intro h; obtain ⟨x, hx, _⟩ := h; simp at hx
  | cons a rest ih =>
    intro h
    by_cases ha : test a = true
    · exact ⟨0, a, by simp, ha, by simp [bindFirst, ha]⟩
    · obtain ⟨x, hx, hxt⟩ := h
      have hxr : x ∈ rest := by
        rcases List.mem_cons.mp hx with h | h
        · subst h; exact absurd hxt ha
        · exact h
      obtain ⟨k, y, h1, h2, h3⟩ := ih ⟨x, hxr, hxt⟩
      exact ⟨k + 1, y, by simpa using h1, h2, by simpa [bindFirst, ha] using h3⟩

theorem takeWhile_append_stop (p : Nat → Bool) (x : Nat) (t : List Nat) (hx : p x = false) :
    ∀ s : List Nat, (s ++ x :: t).takeWhile p = s.takeWhile p := by
  intro s
  induction s with
  | nil => simp [List.takeWhile, hx]
  | cons a rest ih =>
    simp only [List.cons_append, List.takeWhile_cons]
    split
    · rw [ih]
    · rfl

theorem cstring_at (pre s tail : List Nat) :
    cstring (pre ++ s ++ 0 :: tail) pre.length = some (s.takeWhile fun c => c != 0) := by
  have hdrop : (pre ++ s ++ 0 :: tail).drop pre.length = s ++ 0 :: tail := by
    rw [List.append_assoc, List.drop_left]
  simp only [cstring, hdrop]
  rw [if_pos (by simp), takeWhile_append_stop _ 0 tail (by simp) s]

theorem splitOn_record (s : List Nat) :
    (s.dropWhile (fun c => c != 0) = [] ∧
      s.splitOn 0 = [s.takeWhile fun c => c != 0]) ∨
    ∃ rest, s.dropWhile (fun c => c != 0) = 0 :: rest ∧
      s = (s.takeWhile fun c => c != 0) ++ 0 :: rest ∧
      s.splitOn 0 = (s.takeWhile fun c => c != 0) :: rest.splitOn 0 := by
  have hr : ∀ x ∈ s.takeWhile (fun c => c != 0), ¬ ((x == 0) = true) := by
    intro x hx
    have := List.mem_takeWhile_imp hx
    simpa using this
  have hsplit := List.takeWhile_append_dropWhile (fun c => c != 0) s
  cases hd : s.dropWhile (fun c => c != 0) with
  | nil =>
    left
    refine ⟨rfl, ?_⟩
    rw [hd, List.append_nil] at hsplit
    have := List.splitOnP_eq_single (fun x => x == 0) (s.takeWhile fun c => c != 0) hr
    rw [hsplit] at this ⊢
    exact this
  | cons a rest =>
    right
    have ha : a = 0 := by
      have := List.head_dropWhile_not (fun c => c != 0) s (by rw [hd]; simp)
      simpa [hd] using this
    subst ha
    refine ⟨rest, rfl, ?_, ?_⟩
    · rw [hd] at hsplit; exact hsplit.symm
    · have := List.splitOnP_first (fun x => x == 0) (s.takeWhile fun c => c != 0) hr 0
        (by simp) rest
      rw [hd] at hsplit
      rw [hsplit] at this
      exact this

theorem markers_distinct :
    DEVTYPE_drm_minor ≠ HOTPLUG_1 ∧ DEVTYPE_drm_minor ≠ HDMI_Change ∧
    DEVTYPE_drm_minor ≠ [] ∧ HOTPLUG_1 ≠ [] ∧ HDMI_Change ≠ [] := by
  decide

theorem scan_flags (event : List Nat) (drm hot : Bool) :
    (if event = DEVTYPE_drm_minor then true else drm) =
      (drm || decide (DEVTYPE_drm_minor = event)) ∧
    (if event = DEVTYPE_drm_minor then hot
      else if event = HOTPLUG_1 ∨ event = HDMI_Change then true else hot) =
      (hot || (decide (HOTPLUG_1 = event) || decide (HDMI_Change = event))) := by
  obtain ⟨h1, h2, _⟩ := markers_distinct
  by_cases hd : event = DEVTYPE_drm_minor
  · subst hd
    simp [Ne.symm h1, Ne.symm h2]
  · have hd' : ¬ DEVTYPE_drm_minor = event := fun h => hd h.symm
    by_cases hh : event = HOTPLUG_1
    · subst hh; simp [hd, hd']
    · have hh' : ¬ HOTPLUG_1 = event := fun h => hh h.symm
      by_cases hm : event = HDMI_Change
      · subst hm; simp [hd, hd']
      · have hm' : ¬ HDMI_Change = event := fun h => hm h.symm
        simp [hd, hd', hh, hh', hm, hm']

theorem scanLoop_past (buffer : List Nat) (ret fuel i : Nat) (drm hot : Bool)
    (h : ret ≤ i) : scanLoop buffer ret (fuel + 1) i drm hot = .ok (drm, hot) := by
  simp [scanLoop, Nat.not_lt.mpr h]

theorem scanLoop_spec (tail : List Nat) :
    ∀ (fuel : Nat) (s pre : List Nat) (drm hot : Bool), s.length < fuel →
      ∃ r, scanLoop (pre ++ s ++ 0 :: tail) (pre.length + s.length) fuel pre.length drm hot
          = .ok r ∧
        (r.1 && r.2) = ((drm || decide (DEVTYPE_drm_minor ∈ s.splitOn 0)) &&
          (hot || (decide (HOTPLUG_1 ∈ s.splitOn 0) || decide (HDMI_Change ∈ s.splitOn 0)))) := by
  obtain ⟨_, _, hn1, hn2, hn3⟩ := markers_distinct
  intro fuel
  induction fuel with
  | zero => intro s pre drm hot h; omega
  | succ fuel ih =>
    intro s pre drm hot hlen
    cases hs : s with
    | nil =>
      refine ⟨(drm, hot), ?_, ?_⟩
      · simp [scanLoop]
      · simp [List.splitOn, List.splitOnP_nil, hn1, hn2, hn3]
    | cons a s0 =>
      rw [← hs]
      have hpos : pre.length < pre.length + s.length := by rw [hs]; simp
      obtain ⟨f1, f2⟩ := scan_flags (s.takeWhile fun c => c != 0) drm hot
      simp only [scanLoop, hpos, if_true, cstring_at, f1, f2]
      generalize hdR : decide (DEVTYPE_drm_minor = s.takeWhile fun c => c != 0) = dR
      generalize hhR : (decide (HOTPLUG_1 = s.takeWhile fun c => c != 0) ||
        decide (HDMI_Change = s.takeWhile fun c => c != 0)) = hR
      rcases splitOn_record s with ⟨_, hsp⟩ | ⟨rest, _, hsr, hsp⟩
      · -- the last record
        have hD : decide (DEVTYPE_drm_minor ∈ s.splitOn 0) = dR := by
          rw [hsp, ← hdR]; simp
        have hH : (decide (HOTPLUG_1 ∈ s.splitOn 0) || decide (HDMI_Change ∈ s.splitOn 0)) = hR := by
          rw [hsp, ← hhR]; simp
        rw [hD, hH]
        by_cases hboth : ((hot || hR) && (drm || dR)) = true
        · refine ⟨_, by rw [if_pos hboth], ?_⟩
          simp only [Bool.and_comm]
        · have hfuel : ∃ f, fuel = f + 1 := ⟨fuel - 1, by rw [hs] at hlen; simp at hlen; omega⟩
          obtain ⟨f, hf⟩ := hfuel
          have hlen_le : (s.takeWhile fun c => c != 0).length ≤ s.length :=
            (List.takeWhile_sublist _).length_le
          have hge : pre.length + s.length ≤
              pre.length + (s.takeWhile fun c => c != 0).length + 1 := by
            have : (s.takeWhile fun c => c != 0) = s := by
              have := List.takeWhile_append_dropWhile (fun c => c != 0) s
              rw [‹s.dropWhile (fun c => c != 0) = []›, List.append_nil] at this
              exact this
            rw [this]; omega
          refine ⟨_, by rw [if_neg hboth, hf, scanLoop_past _ _ _ _ _ _ hge], ?_⟩
          simp only [Bool.and_comm]
      · -- a record followed by a terminator
        have hD : decide (DEVTYPE_drm_minor ∈ s.splitOn 0) =
            (dR || decide (DEVTYPE_drm_minor ∈ rest.splitOn 0)) := by
          rw [hsp, ← hdR]; simp
        have hH : (decide (HOTPLUG_1 ∈ s.splitOn 0) || decide (HDMI_Change ∈ s.splitOn 0)) =
            (hR || (decide (HOTPLUG_1 ∈ rest.splitOn 0) ||
              decide (HDMI_Change ∈ rest.splitOn 0))) := by
          rw [hsp, ← hhR]
          simp only [List.mem_cons, Bool.decide_or]
          cases decide (HOTPLUG_1 = s.takeWhile fun c => c != 0) <;>
            cases decide (HDMI_Change = s.takeWhile fun c => c != 0) <;>
            cases decide (HOTPLUG_1 ∈ rest.splitOn 0) <;> simp
        rw [hD, hH]
        by_cases hboth : ((hot || hR) && (drm || dR)) = true
        · refine ⟨_, by rw [if_pos hboth], ?_⟩
          simp only [Bool.and_eq_true, Bool.or_eq_true] at hboth
          rcases hboth with ⟨h1 | h1, h2 | h2⟩ <;> simp [h1, h2]
        · have hrl : s.length = (s.takeWhile fun c => c != 0).length + 1 + rest.length := by
            conv_lhs => rw [hsr]
            simp; omega
          have hbuf : pre ++ s ++ 0 :: tail =
              (pre ++ (s.takeWhile fun c => c != 0) ++ [0]) ++ rest ++ 0 :: tail := by
            conv_lhs => rw [hsr]
            simp
          have hi : pre.length + (s.takeWhile fun c => c != 0).length + 1 =
              (pre ++ (s.takeWhile fun c => c != 0) ++ [0]).length := by simp; omega
          have hret : pre.length + s.length =
              (pre ++ (s.takeWhile fun c => c != 0) ++ [0]).length + rest.length := by
            simp; omega
          obtain ⟨r, hr1, hr2⟩ := ih rest (pre ++ (s.takeWhile fun c => c != 0) ++ [0])
            (drm || dR) (hot || hR) (by omega)
          refine ⟨r, ?_, ?_⟩
          · rw [if_neg hboth, hbuf, hi, hret]
            exact hr1
          · rw [hr2]
            cases drm <;> cases dR <;> cases hot <;> cases hR <;> simp

theorem receive_eq (SIZE : Nat) (buffer datagram : List Nat) (hbuf : buffer.length = SIZE)
    (h2 : datagram.length ≤ SIZE - 1) (h1 : 1 ≤ datagram.length) :
    receive SIZE buffer datagram =
      (datagram.length, datagram ++ 0 :: buffer.drop (datagram.length + 1)) := by
  have hmin : min datagram.length (SIZE - 1) = datagram.length := Nat.min_eq_left h2
  have hlt : datagram.length < buffer.length := by omega
  have hdrop : buffer.drop datagram.length =
      buffer[datagram.length] :: buffer.drop (datagram.length + 1) :=
    List.drop_eq_getElem_cons hlt
  simp only [receive, hmin, List.take_length]
  congr 1
  rw [List.set_append_right _ _ (Nat.le_refl _), Nat.sub_self, hdrop, List.set_cons_zero]

theorem triggers_spec (SIZE : Nat) (buffer datagram : List Nat) (sfuel : Nat)
    (hbuf : buffer.length = SIZE) (h1 : 1 ≤ datagram.length)
    (h2 : datagram.length ≤ SIZE - 1) (hfuel : datagram.length < sfuel) :
    triggers (receive SIZE buffer datagram).2 (receive SIZE buffer datagram).1 sfuel =
      .ok (hasBothMarkers datagram) := by
  rw [receive_eq SIZE buffer datagram hbuf h2 h1]
  obtain ⟨r, hr1, hr2⟩ := scanLoop_spec (buffer.drop (datagram.length + 1)) sfuel datagram []
    false false hfuel
  simp only [List.nil_append, List.length_nil, Nat.zero_add] at hr1
  simp only [triggers, hr1, hr2, hasBothMarkers, Bool.false_or]

theorem UpdateDisplayState_returns (cfg : Config) (K : Kernel) (fuel : Nat)
    (m : DrmDisplayManager) (h : PassReturns cfg fuel m) :
    ∃ r m', UpdateDisplayState cfg K fuel m = .ok (r, m') ∧ PassReturns cfg fuel m' := by
  cases hres : K.drmModeGetResources with
  | none => exact ⟨false, m, by simp [UpdateDisplayState, hres], h⟩
  | some res =>
    obtain ⟨m', h1, _, _, _, hp⟩ := UpdateDisplayState_spec cfg K fuel m res hres h
    exact ⟨true, m', h1, hp⟩

theorem HotPlugEventHandlerLoop_spec (cfg : Config) (SIZE : Nat)
    (read : Nat → Option (List Nat)) (K : Nat → Kernel) (sfuel ufuel : Nat)
    (hsfuel : SIZE ≤ sfuel) :
    ∀ (n fuel start : Nat) (buffer : List Nat) (calls : List Bool) (m : DrmDisplayManager),
      buffer.length = SIZE →
      (∀ i, i < n → ∃ dg, read (start + i) = some dg ∧ 1 ≤ dg.length ∧ dg.length ≤ SIZE - 1) →
      (read (start + n) = none ∨ read (start + n) = some []) →
      n < fuel → PassReturns cfg ufuel m →
      ∃ m', HotPlugEventHandlerLoop cfg SIZE read K sfuel ufuel fuel start buffer calls m =
        .ok (calls ++ (List.range n).map (fun i => hasBothMarkers ((read (start + i)).getD [])),
             m') := by
  intro n
  induction n with
  | zero =>
    intro fuel start buffer calls m _ _ hend hfuel _
    obtain ⟨f, hf⟩ : ∃ f, fuel = f + 1 := ⟨fuel - 1, by omega⟩
    subst hf
    simp only [Nat.add_zero] at hend
    rcases hend with h | h
    · exact ⟨m, by simp [HotPlugEventHandlerLoop, h]⟩
    · exact ⟨m, by simp [HotPlugEventHandlerLoop, h, receive]⟩
  | succ n ih =>
    intro fuel start buffer calls m hbuf hreads hend hfuel hret
    obtain ⟨f, hf⟩ : ∃ f, fuel = f + 1 := ⟨fuel - 1, by omega⟩
    subst hf
    obtain ⟨dg, hdg, h1, h2⟩ := hreads 0 (Nat.succ_pos n)
    simp only [Nat.add_zero] at hdg
    have htr := triggers_spec SIZE buffer dg sfuel hbuf h1 h2 (by omega)
    have hrec := receive_eq SIZE buffer dg hbuf h2 h1
    have hbuf' : (receive SIZE buffer dg).2.length = SIZE := by
      rw [hrec]; simp; omega
    have hne : ¬ (receive SIZE buffer dg).1 = 0 := by
      rw [hrec]; exact Nat.ne_of_gt h1
    have hreads' : ∀ i, i < n → ∃ dg, read (start + 1 + i) = some dg ∧ 1 ≤ dg.length ∧
        dg.length ≤ SIZE - 1 := by
      intro i hi
      have := hreads (i + 1) (by omega)
      rwa [show start + (i + 1) = start + 1 + i by omega] at this
    have hend' : read (start + 1 + n) = none ∨ read (start + 1 + n) = some [] := by
      rwa [show start + (n + 1) = start + 1 + n by omega] at hend
    have hrange : (List.range (n + 1)).map (fun i => hasBothMarkers ((read (start + i)).getD []))
        = hasBothMarkers dg ::
          (List.range n).map (fun i => hasBothMarkers ((read (start + 1 + i)).getD [])) := by
      rw [List.range_succ_eq_map, List.map_cons, List.map_map]
      simp only [Nat.add_zero, hdg, Option.getD_some, List.cons.injEq, true_and]
      apply List.map_congr_left
      intro i _
      simp only [Function.comp, Nat.succ_eq_add_one]
      rw [show start + (i + 1) = start + 1 + i by omega]
    rw [hrange]
    cases hb : hasBothMarkers dg with
    | true =>
      obtain ⟨r, u, hu, hpu⟩ := UpdateDisplayState_returns cfg (K start) ufuel m hret
      obtain ⟨m', hm'⟩ := ih f (start + 1) _ (calls ++ [true]) u hbuf' hreads' hend'
        (by omega) hpu
      refine ⟨m', ?_⟩
      simp only [HotPlugEventHandlerLoop, hdg, hne, if_false, htr, hb, hu, hm',
        List.append_assoc, List.singleton_append]
    | false =>
      obtain ⟨m', hm'⟩ := ih f (start + 1) _ (calls ++ [false]) m hbuf' hreads' hend'
        (by omega) hret
      refine ⟨m', ?_⟩
      simp only [HotPlugEventHandlerLoop, hdg, hne, if_false, htr, hb, hm',
        List.append_assoc, List.singleton_append]

theorem RemoveUnreservedPlanesLoop_eq (cfg : Config) :
    ∀ (fuel : Nat) (post pre : List DrmDisplay) (m : DrmDisplayManager),
      m.displays_ = pre ++ post → (pre ++ post).length < 256 → post.length < fuel →
      RemoveUnreservedPlanesLoop cfg fuel pre.length m =
        .ok { m with displays_ := pre ++ post.map pruneDisplay,
                     log := m.log ++ releaseEvents cfg pre.length post } := by
  intro fuel
  induction fuel with
  | zero => intro post pre m _ _ h; omega
  | succ fuel ih =>
    intro post pre m hd hlen hf
    cases post with
    | nil =>
      have hnot : ¬ pre.length < m.displays_.length := by rw [hd]; simp
      simp only [RemoveUnreservedPlanesLoop, hnot, if_false, List.map_nil, releaseEvents,
        List.append_nil, ← hd]
    | cons d rest =>
      have hlt : pre.length < m.displays_.length := by rw [hd]; simp
      have hget : m.displays_[pre.length]? = some d := by
        rw [hd, List.getElem?_append_right (Nat.le_refl _)]; simp
      have hmod : (pre.length + 1) % 256 = pre.length + 1 := by
        apply Nat.mod_eq_of_lt
        simp at hlen; omega
      have hlen' : ((pre ++ [d]) ++ rest).length < 256 := by simpa using hlen
      have hf' : rest.length < fuel := by simp at hf; omega
      have hpl : (pre ++ [d]).length = pre.length + 1 := by simp
      simp only [RemoveUnreservedPlanesLoop, hlt, if_true, hget, hmod]
      by_cases hs : skipsPruning d = true
      · have hs' : (!d.IsConnected || d.IsPlanesUpdated) = true := hs
        have hrel : releases cfg pre.length d = false := by
          simp only [skipsPruning, Bool.or_eq_true, Bool.not_eq_true'] at hs
          rcases hs with h | h <;> simp [releases, h]
        rw [if_pos hs', ← hpl, ih rest (pre ++ [d]) m (by simp [hd]) hlen' hf']
        simp [pruneDisplay, hs, releaseEvents, hrel]
      · have hs' : ¬ (!d.IsConnected || d.IsPlanesUpdated) = true := hs
        have hset : m.displays_.set pre.length (d.SetPlanesUpdated true) =
            (pre ++ [d.SetPlanesUpdated true]) ++ rest := by
          rw [hd, List.set_append_right _ _ (Nat.le_refl _)]; simp
        have hconn : d.IsConnected = true ∧ d.IsPlanesUpdated = false := by
          simp only [skipsPruning, Bool.or_eq_true, Bool.not_eq_true', not_or,
            Bool.not_eq_false, Bool.not_eq_true] at hs
          exact hs
        have hpl2 : (pre ++ [d.SetPlanesUpdated true]).length = pre.length + 1 := by simp
        rw [if_neg hs']
        by_cases hr : (!(cfg.GetDisplayReservedPlanes pre.length).isEmpty &&
            decide ((cfg.GetDisplayReservedPlanes pre.length).length < 4)) = true
        · have hrel : releases cfg pre.length d = true := by
            simp only [releases, hconn.1, hconn.2, Bool.not_false, Bool.true_and, Bool.and_assoc]
            exact hr
          simp only [hr, if_true, DrmDisplayManager.emit]
          rw [← hpl2, ih rest (pre ++ [d.SetPlanesUpdated true]) _ hset
            (by simpa using hlen) hf']
          simp [pruneDisplay, hs, releaseEvents, hrel]
        · have hrel : releases cfg pre.length d = false := by
            simp only [releases, hconn.1, hconn.2, Bool.not_false, Bool.true_and, Bool.and_assoc]
            simpa using hr
          simp only [hr]
          rw [← hpl2, ih rest (pre ++ [d.SetPlanesUpdated true]) _ hset
            (by simpa using hlen) hf']
          simp [pruneDisplay, hs, releaseEvents, hrel]

theorem RemoveUnreservedPlanes_eq (cfg : Config) (fuel : Nat) (m : DrmDisplayManager)
    (hlen : m.displays_.length < 256) (hf : m.displays_.length < fuel) :
    RemoveUnreservedPlanes cfg fuel m =
      .ok { m with displays_ := m.displays_.map pruneDisplay,
                   log := m.log ++ releaseEvents cfg 0 m.displays_ } := by
  have := RemoveUnreservedPlanesLoop_eq cfg fuel m.displays_ [] m rfl (by simpa using hlen) hf
  simpa [RemoveUnreservedPlanes] using this

theorem pruneDisplay_skips (d : DrmDisplay) : skipsPruning (pruneDisplay d) = true := by
  unfold pruneDisplay
  by_cases h : skipsPruning d = true
  · simp [h]
  · simp only [h]
    simp [skipsPruning, DrmDisplay.SetPlanesUpdated, DrmDisplay.IsPlanesUpdated]

theorem pruneDisplay_idem (d : DrmDisplay) : pruneDisplay (pruneDisplay d) = pruneDisplay d := by
  have h := pruneDisplay_skips d
  generalize pruneDisplay d = x at h ⊢
  unfold pruneDisplay
  rw [if_pos h]

theorem releaseEvents_pruned (cfg : Config) :
    ∀ (l : List DrmDisplay) (i : Nat), releaseEvents cfg i (l.map pruneDisplay) = [] := by
  intro l
  induction l with
  | nil => intro i; rfl
  | cons d rest ih =>
    intro i
    have h := pruneDisplay_skips d
    have hrel : releases cfg i (pruneDisplay d) = false := by
      simp only [skipsPruning, Bool.or_eq_true, Bool.not_eq_true'] at h
      rcases h with h | h <;> simp [releases, h]
    simp [releaseEvents, hrel, ih]

theorem releaseEvents_enum (cfg : Config) :
    ∀ (l : List DrmDisplay) (i : Nat),
      releaseEvents cfg i l =
        ((l.enumFrom i).filter fun e => releases cfg e.1 e.2).map fun e =>
          Event.ReleaseUnreservedPlanes e.2.GetDisplayPipe (cfg.GetDisplayReservedPlanes e.1) := by
  intro l
  induction l with
  | nil => intro i; rfl
  | cons d rest ih =>
    intro i
    simp only [releaseEvents, List.enumFrom_cons, List.filter_cons, ih]
    split <;> simp

theorem pruneDisplay_eq (d : DrmDisplay) :
    pruneDisplay d =
      if d.IsConnected && !d.IsPlanesUpdated then d.SetPlanesUpdated true else d := by
  unfold pruneDisplay skipsPruning
  cases d.IsConnected <;> cases d.IsPlanesUpdated <;> simp

theorem DropDrmMasterLoop_bounded (f : Nat → Int) :
    ∀ (fuel a : Nat) (m : DrmDisplayManager), a < 10 → 10 ≤ fuel + a →
      m.drm_master_ = true →
      ∃ m' k, DropDrmMasterLoop f fuel a a m = .ok m' ∧ a < k ∧ k ≤ 10 ∧
        dropMasterAttempts m'.log = dropMasterAttempts m.log + (k - a) ∧
        (∀ j, a ≤ j → j + 1 < k → f j ≠ 0) ∧
        (m'.drm_master_ = false ↔ f (k - 1) = 0) ∧
        (f (k - 1) ≠ 0 → k = 10) := by
  intro fuel
  induction fuel with
  | zero => intro a m h1 h2; omega
  | succ fuel ih =>
    intro a m ha hf hm
    have hmod : (a + 1) % 256 = a + 1 := Nat.mod_eq_of_lt (by omega)
    by_cases hret : f a = 0
    · refine ⟨{ m with drm_master_ := false, log := m.log ++ [.drmDropMaster] }, a + 1,
        ?_, by omega, by omega, ?_, ?_, ?_, ?_⟩
      · simp [DropDrmMasterLoop, hret]
      · simp [dropMasterAttempts, List.count_append]
      · intro j h1 h2; omega
      · simp [hret]
      · simp [hret]
    · by_cases h9 : a + 1 < 10
      · obtain ⟨m', k, hk, h1, h2, h3, h4, h5, h6⟩ := ih (a + 1)
          { m with log := m.log ++ [.drmDropMaster, .usleep 10000] } h9 (by omega) hm
        refine ⟨m', k, ?_, by omega, h2, ?_, ?_, h5, h6⟩
        · rw [← hk]
          simp [DropDrmMasterLoop, hret, hmod, h9]
        · rw [h3]
          simp [dropMasterAttempts, List.count_append]
          omega
        · intro j hj1 hj2
          rcases Nat.eq_or_lt_of_le hj1 with h | h
          · subst h; exact hret
          · exact h4 j h hj2
      · have h10 : a + 1 = 10 := by omega
        refine ⟨{ m with log := m.log ++ [.drmDropMaster, .usleep 10000] },
          a + 1, ?_, by omega, by omega, ?_, ?_, ?_, ?_⟩
        · simp [DropDrmMasterLoop, hret, hmod, h9]
        · simp [dropMasterAttempts, List.count_append]
        · intro j h1 h2; omega
        · simp [hret, hm]
        · intro _; exact h10

theorem findVirtual_append (key : Nat) (b : List (Nat × VirtualDisplay)) :
    ∀ a : List (Nat × VirtualDisplay),
      findVirtual key (a ++ b) =
        match findVirtual key a with
        | some v => some v
        | none => findVirtual key b := by
  intro a
  induction a with
  | nil => rfl
  | cons e rest ih =>
    obtain ⟨k, v⟩ := e
    simp only [List.cons_append, findVirtual]
    split
    · rfl
    · exact ih

theorem preferredModeLoop_none (modes : List drmModeModeInfo)
    (h : ∀ md ∈ modes, md.type &&& DRM_MODE_TYPE_PREFERRED = 0) :
    ∀ i p, preferredModeLoop modes i p = p := by
  induction modes with
  | nil => intro i p; rfl
  | cons md rest ih =>
    intro i p
    simp only [preferredModeLoop, h md (List.mem_cons_self _ _), ne_eq, not_true_eq_false,
      if_false]
    exact ih (fun x hx => h x (List.mem_cons_of_mem _ hx)) (i + 1) p

theorem preferredModeLoop_last (md : drmModeModeInfo) (b : List drmModeModeInfo)
    (hmd : md.type &&& DRM_MODE_TYPE_PREFERRED ≠ 0)
    (hb : ∀ x ∈ b, x.type &&& DRM_MODE_TYPE_PREFERRED = 0) :
    ∀ (a : List drmModeModeInfo) (i p : Nat),
      preferredModeLoop (a ++ md :: b) i p = i + a.length := by
  intro a
  induction a with
  | nil =>
    intro i p
    simp only [List.nil_append, preferredModeLoop, hmd, ne_eq, not_false_eq_true, if_true,
      List.length_nil, Nat.add_zero]
    exact preferredModeLoop_none b hb (i + 1) i
  | cons x rest ih =>
    intro i p
    simp only [List.cons_append, preferredModeLoop, List.length_cons, List.append_eq]
    rw [ih]
    omega

theorem countConnected_all (K : Kernel) :
    ∀ (l : List Nat) (n : Nat), (∀ id ∈ l, (K.drmModeGetConnector id).isSome = true) →
      n + l.length < 2 ^ 32 →
      countConnected K l n = n + l.countP fun id =>
        (K.drmModeGetConnector id).any fun c => c.connection == DRM_MODE_CONNECTED := by
  intro l
  induction l with
  | nil => intro n _ _; rfl
  | cons id rest ih =>
    intro n hq hlen
    have h1 := hq id (List.mem_cons_self _ _)
    have hrest : ∀ x ∈ rest, (K.drmModeGetConnector x).isSome = true :=
      fun x hx => hq x (List.mem_cons_of_mem _ hx)
    simp only [List.length_cons] at hlen
    cases hc : K.drmModeGetConnector id with
    | none => rw [hc] at h1; cases h1
    | some c =>
      simp only [countConnected, hc, List.countP_cons, Option.any_some]
      by_cases hconn : c.connection = DRM_MODE_CONNECTED
      · have hmod : (n + 1) % 2 ^ 32 = n + 1 := Nat.mod_eq_of_lt (by omega)
        simp only [hconn, ne_eq, not_true_eq_false, if_false, hmod, beq_self_eq_true, if_true]
        rw [ih (n + 1) hrest (by omega)]
        omega
      · have hb : (c.connection == DRM_MODE_CONNECTED) = false := by simpa using hconn
        simp only [ne_eq, hconn, not_false_eq_true, if_true, hb, Bool.false_eq_true, if_false,
          Nat.add_zero]
        exact ih n hrest (by omega)

theorem scanLoop_tail (tail tail' : List Nat) :
    ∀ (fuel : Nat) (s pre : List Nat) (drm hot : Bool),
      scanLoop (pre ++ s ++ 0 :: tail) (pre.length + s.length) fuel pre.length drm hot =
        scanLoop (pre ++ s ++ 0 :: tail') (pre.length + s.length) fuel pre.length drm hot := by
  intro fuel
  induction fuel with
  | zero => intro s pre drm hot; rfl
  | succ fuel ih =>
    intro s pre drm hot
    cases hs : s with
    | nil => simp [scanLoop]
    | cons a s0 =>
      rw [← hs]
      have hpos : pre.length < pre.length + s.length := by rw [hs]; simp
      obtain ⟨f1, f2⟩ := scan_flags (s.takeWhile fun c => c != 0) drm hot
      simp only [scanLoop, hpos, if_true, cstring_at, f1, f2]
      generalize (drm || decide (DEVTYPE_drm_minor = s.takeWhile fun c => c != 0)) = D
      generalize (hot || (decide (HOTPLUG_1 = s.takeWhile fun c => c != 0) ||
        decide (HDMI_Change = s.takeWhile fun c => c != 0))) = H
      by_cases hboth : (H && D) = true
      · rw [if_pos hboth, if_pos hboth]
      · rw [if_neg hboth, if_neg hboth]
        rcases splitOn_record s with ⟨hnil, _⟩ | ⟨rest, _, hsr, _⟩
        · have hall : (s.takeWhile fun c => c != 0) = s := by
            have := List.takeWhile_append_dropWhile (fun c => c != 0) s
            rw [hnil, List.append_nil] at this
            exact this
          rw [hall]
          cases fuel with
          | zero => rfl
          | succ f =>
            rw [scanLoop_past _ _ _ _ _ _ (by omega), scanLoop_past _ _ _ _ _ _ (by omega)]
        · have hrl : s.length = (s.takeWhile fun c => c != 0).length + 1 + rest.length := by
            conv_lhs => rw [hsr]
            simp; omega
          have hbuf : ∀ t : List Nat, pre ++ s ++ 0 :: t =
              (pre ++ (s.takeWhile fun c => c != 0) ++ [0]) ++ rest ++ 0 :: t := by
            intro t
            conv_lhs => rw [hsr]
            simp
          have hi : pre.length + (s.takeWhile fun c => c != 0).length + 1 =
              (pre ++ (s.takeWhile fun c => c != 0) ++ [0]).length := by simp; omega
          have hret : pre.length + s.length =
              (pre ++ (s.takeWhile fun c => c != 0) ++ [0]).length + rest.length := by
            simp; omega
          rw [hbuf tail, hbuf tail', hi, hret]
          exact ih rest _ _ _

theorem cstring_received (datagram tail : List Nat) (i : Nat) (hi : i < datagram.length) :
    ∃ event, cstring (datagram ++ 0 :: tail) i = some event ∧
      i + event.length ≤ datagram.length ∧
      cstring (datagram ++ [0]) i = some event := by
  have hsplit : datagram = datagram.take i ++ datagram.drop i := (List.take_append_drop i _).symm
  have hlen : (datagram.take i).length = i := by simp; omega
  have h1 := cstring_at (datagram.take i) (datagram.drop i) tail
  have h2 := cstring_at (datagram.take i) (datagram.drop i) []
  rw [← hsplit, hlen] at h1 h2
  refine ⟨_, h1, ?_, h2⟩
  have hle : ((datagram.drop i).takeWhile fun c => c != 0).length ≤ (datagram.drop i).length :=
    (List.takeWhile_sublist _).length_le
  simp at hle
  omega

theorem callsOutsideLock_append (b : List Event) :
    ∀ (a : List Event) (held : Bool),
      callsOutsideLock held (a ++ b) =
        callsOutsideLock held a ++ callsOutsideLock (heldAfter held a) b := by
  intro a
  induction a with
  | nil => intro held; rfl
  | cons e rest ih =>
    intro held
    simp only [List.cons_append, callsOutsideLock, List.append_eq, ih, heldAfter,
      List.foldl_cons, List.append_assoc]

theorem heldAfter_append (a b : List Event) (held : Bool) :
    heldAfter held (a ++ b) = heldAfter (heldAfter held a) b := by
  simp [heldAfter, List.foldl_append]

theorem callsOutsideLock_quiet (a : List Event) (h : ∀ e ∈ a, clientFacing e = false) :
    ∀ held, callsOutsideLock held a = [] := by
  induction a with
  | nil => intro held; rfl
  | cons e rest ih =>
    intro held
    simp only [callsOutsideLock, h e (List.mem_cons_self _ _), Bool.and_false,
      Bool.false_eq_true, if_false, List.nil_append]
    exact ih (fun x hx => h x (List.mem_cons_of_mem _ hx)) _

theorem held_stays (a : List Event) (h : ∀ e ∈ a, e ≠ Event.lock ∧ e ≠ Event.unlock) :
    ∀ held, heldAfter held a = held ∧ (held = true → callsOutsideLock held a = []) := by
  induction a with
  | nil => intro held; exact ⟨rfl, fun _ => rfl⟩
  | cons e rest ih =>
    intro held
    have he := h e (List.mem_cons_self _ _)
    have hl : lockAfter held e = held := by
      cases e <;> simp_all [lockAfter]
    have hrest := ih (fun x hx => h x (List.mem_cons_of_mem _ hx)) held
    refine ⟨?_, fun ht => ?_⟩
    · simp only [heldAfter, List.foldl_cons, hl]
      exact hrest.1
    · simp only [callsOutsideLock, ht, Bool.not_true, Bool.false_and, Bool.false_eq_true,
        if_false, List.nil_append]
      rw [← ht, hl]
      exact hrest.2 ht

theorem disconnectLoop_events_kind (cb : Bool) (ds : List DrmDisplay) :
    ∀ e ∈ (disconnectLoop cb ds).2.1, ∃ pipe, e = Event.DisConnect pipe := by
  induction ds with
  | nil => intro e he; simp [disconnectLoop] at he
  | cons d rest ih =>
    intro e he
    simp only [disconnectLoop] at he
    split at he
    · rcases List.mem_cons.mp he with h | h
      · exact ⟨_, h⟩
      · exact ih e h
    · split at he <;> exact ih e he

theorem releaseEvents_kind (cfg : Config) :
    ∀ (ds : List DrmDisplay) (i : Nat), ∀ e ∈ releaseEvents cfg i ds,
      ∃ pipe planes, e = Event.ReleaseUnreservedPlanes pipe planes := by
  intro ds
  induction ds with
  | nil => intro i e he; simp [releaseEvents] at he
  | cons d rest ih =>
    intro i e he
    simp only [releaseEvents, List.mem_append] at he
    rcases he with h | h
    · split at h
      · simp only [List.mem_singleton] at h
        exact ⟨_, _, h⟩
      · simp at h
    · exact ih (i + 1) e h

theorem notifyEvent_kind (d : DrmDisplay) :
    notifyEvent d ≠ Event.lock ∧ notifyEvent d ≠ Event.unlock := by
  unfold notifyEvent
  split <;> simp

theorem underLock_log (cfg : Config) (K : Kernel) (res : drmModeRes) (m : DrmDisplayManager) :
    ∃ m' locked, underLock cfg K res m = .ok m' ∧
      m'.log = m.log ++ Event.lock :: (locked ++ [Event.unlock]) ∧
      (∀ e ∈ locked, (∃ pipe, e = Event.DisConnect pipe) ∨ ∃ l, e = Event.Callback l) ∧
      (m.callback_ = true → ∃ l, locked.getLast? = some (Event.Callback l)) := by
  have hb := bindDisplays_eq K res.connectors (markDisplays cfg m.displays_)
  simp only [underLock, DrmDisplayManager.emit, hb]
  by_cases hcb : m.callback_ = true
  · refine ⟨_, (disconnectLoop m.callback_ (afterSubpasses cfg K res m)).2.1 ++
      [Event.Callback (disconnectLoop m.callback_ (afterSubpasses cfg K res m)).2.2],
      rfl, ?_, ?_, ?_⟩
    · simp [hcb, afterSubpasses]
    · intro e he
      rcases List.mem_append.mp he with h | h
      · exact Or.inl (disconnectLoop_events_kind _ _ e h)
      · exact Or.inr ⟨_, List.mem_singleton.mp h⟩
    · intro _
      exact ⟨(disconnectLoop m.callback_ (afterSubpasses cfg K res m)).2.2, by simp⟩
  · refine ⟨_, (disconnectLoop m.callback_ (afterSubpasses cfg K res m)).2.1, rfl, ?_, ?_, ?_⟩
    · simp [hcb, afterSubpasses]
    · intro e he
      exact Or.inl (disconnectLoop_events_kind _ _ e he)
    · intro h; exact absurd h hcb

theorem afterUnlock_log (cfg : Config) (fuel : Nat) (m : DrmDisplayManager)
    (h : PassReturns cfg fuel m) :
    ∃ m' notes released, afterUnlock cfg fuel m = .ok (true, m') ∧
      m'.log = m.log ++ notes ++ released ∧
      (notes = [] ∨ ∃ ds : List DrmDisplay,
        notes = Event.lock :: (ds.map notifyEvent ++ [Event.unlock])) ∧
      (∀ e ∈ released, ∃ pipe planes, e = Event.ReleaseUnreservedPlanes pipe planes) := by
  -- the pruning, after any state `x` with the displays of `m`
  have prune : ∀ (x : DrmDisplayManager) (notes : List Event),
      x.displays_.length = m.displays_.length → x.log = m.log ++ notes →
      ∃ m' released, (if cfg.IsReservedDrmPlane then
          match RemoveUnreservedPlanes cfg fuel x with
          | .ok m => (.ok (true, m) : Except Fault (Bool × DrmDisplayManager))
          | .error e => .error e
        else .ok (true, x)) = .ok (true, m') ∧
        m'.log = m.log ++ notes ++ released ∧
        (∀ e ∈ released, ∃ pipe planes, e = Event.ReleaseUnreservedPlanes pipe planes) := by
    intro x notes hlen hlog
    by_cases hr : cfg.IsReservedDrmPlane = true
    · obtain ⟨h1, h2⟩ := h.2 hr
      have := RemoveUnreservedPlanes_eq cfg fuel x (by rw [hlen]; exact h1)
        (by rw [hlen]; exact h2)
      refine ⟨{ x with displays_ := x.displays_.map pruneDisplay,
                       log := x.log ++ releaseEvents cfg 0 x.displays_ },
        releaseEvents cfg 0 x.displays_, by simp [hr, this], by simp [hlog],
        releaseEvents_kind cfg _ 0⟩
    · exact ⟨x, [], by simp [hr], by simp [hlog], by simp⟩
  have notified : ∀ x : DrmDisplayManager, x.displays_ = m.displays_ → x.log = m.log →
      (NotifyClientsOfDisplayChangeStatus cfg x).displays_.length = m.displays_.length ∧
      (NotifyClientsOfDisplayChangeStatus cfg x).log =
        m.log ++ Event.lock :: (m.displays_.map notifyEvent ++ [Event.unlock]) := by
    intro x hd hl
    simp only [NotifyClientsOfDisplayChangeStatus, DrmDisplayManager.emit]
    split <;> simp [hd, hl]
  by_cases hwa : cfg.ENABLE_ANDROID_WA = true
  · by_cases hn : m.notify_client_ = true
    · obtain ⟨hlen, hlog⟩ := notified m rfl rfl
      obtain ⟨m', released, h1, h2, h3⟩ := prune _ _ hlen hlog
      exact ⟨m', _, released, by simpa [afterUnlock, hwa, hn] using h1, h2,
        Or.inr ⟨_, rfl⟩, h3⟩
    · have hne := h.1 hwa (by simpa using hn)
      obtain ⟨d, rest, hd⟩ := List.exists_cons_of_ne_nil hne
      by_cases hc : d.IsConnected = true
      · obtain ⟨m', released, h1, h2, h3⟩ := prune m [] rfl (by simp)
        exact ⟨m', [], released, by simpa [afterUnlock, hwa, hn, hd, hc] using h1, h2,
          Or.inl rfl, h3⟩
      · obtain ⟨hlen, hlog⟩ := notified m rfl rfl
        obtain ⟨m', released, h1, h2, h3⟩ := prune _ _ hlen hlog
        exact ⟨m', _, released, by simpa [afterUnlock, hwa, hn, hd, hc] using h1, h2,
          Or.inr ⟨_, rfl⟩, h3⟩
  · obtain ⟨hlen, hlog⟩ := notified { m with notify_client_ := true } rfl rfl
    obtain ⟨m', released, h1, h2, h3⟩ := prune _ _ hlen hlog
    exact ⟨m', _, released, by simpa [afterUnlock, hwa] using h1, h2, Or.inr ⟨_, rfl⟩, h3⟩

theorem released_quiet (released : List Event)
    (h : ∀ e ∈ released, ∃ pipe planes, e = Event.ReleaseUnreservedPlanes pipe planes) :
    (∀ e ∈ released, clientFacing e = false) ∧
    (∀ e ∈ released, e ≠ Event.lock ∧ e ≠ Event.unlock) := by
  constructor
  · intro e he
    obtain ⟨_, _, rfl⟩ := h e he
    rfl
  · intro e he
    obtain ⟨_, _, rfl⟩ := h e he
    simp

theorem locked_region (inner rest : List Event)
    (hinner : ∀ e ∈ inner, e ≠ Event.lock ∧ e ≠ Event.unlock) (held : Bool) :
    callsOutsideLock held (Event.lock :: (inner ++ Event.unlock :: rest)) =
      callsOutsideLock false rest ∧
    heldAfter held (Event.lock :: (inner ++ Event.unlock :: rest)) = heldAfter false rest := by
  have hs := held_stays inner hinner true
  constructor
  · have h1 : callsOutsideLock held (Event.lock :: (inner ++ Event.unlock :: rest)) =
        callsOutsideLock true (inner ++ Event.unlock :: rest) := by
      simp [callsOutsideLock, clientFacing, lockAfter]
    have h2 : callsOutsideLock true (Event.unlock :: rest) = callsOutsideLock false rest := by
      simp [callsOutsideLock, clientFacing, lockAfter]
    rw [h1, callsOutsideLock_append, hs.2 rfl, hs.1, h2, List.nil_append]
  · have h1 : heldAfter held (Event.lock :: (inner ++ Event.unlock :: rest)) =
        heldAfter true (inner ++ Event.unlock :: rest) := rfl
    have h2 : heldAfter true (Event.unlock :: rest) = heldAfter false rest := rfl
    rw [h1, heldAfter_append, hs.1, h2]

theorem after_release_trace (notes released : List Event)
    (hn : notes = [] ∨ ∃ ds : List DrmDisplay,
      notes = Event.lock :: (ds.map notifyEvent ++ [Event.unlock]))
    (hr : ∀ e ∈ released, ∃ pipe planes, e = Event.ReleaseUnreservedPlanes pipe planes) :
    callsOutsideLock false (notes ++ released) = [] ∧
    heldAfter false (notes ++ released) = false ∧
    ∀ e ∈ notes ++ released, ∀ l, e ≠ Event.Callback l := by
  obtain ⟨hq, hk⟩ := released_quiet released hr
  have hq' : ∀ l, Event.Callback l ∉ released := by
    intro l hl
    have := hq _ hl
    cases this
  rcases hn with h | ⟨ds, h⟩
  · subst h
    refine ⟨callsOutsideLock_quiet released hq false, (held_stays released hk false).1, ?_⟩
    intro e he l hel
    subst hel
    exact hq' l (by simpa using he)
  · subst h
    have hns : ∀ e ∈ ds.map notifyEvent, e ≠ Event.lock ∧ e ≠ Event.unlock := by
      intro e he
      obtain ⟨d, _, rfl⟩ := List.mem_map.mp he
      exact notifyEvent_kind d
    have hshape : Event.lock :: (ds.map notifyEvent ++ [Event.unlock]) ++ released =
        Event.lock :: (ds.map notifyEvent ++ Event.unlock :: released) := by simp
    obtain ⟨r1, r2⟩ := locked_region (ds.map notifyEvent) released hns false
    rw [hshape, r1, r2]
    refine ⟨callsOutsideLock_quiet released hq false, (held_stays released hk false).1, ?_⟩
    intro e he l hel
    subst hel
    simp only [List.mem_cons, List.mem_append, List.mem_map] at he
    rcases he with h | ⟨d, _, h⟩ | h | h
    · cases h
    · unfold notifyEvent at h
      split at h <;> cases h
    · cases h
    · exact hq' l h

theorem createDisplays_spec (S : InitKernel) :
    ∀ (crtcs : List Nat) (i : Nat) (ds : List DrmDisplay),
      ((createDisplays S crtcs i ds).1 = true →
        (createDisplays S crtcs i ds).2.length = ds.length + crtcs.length ∧
        (∀ (k : Nat) (d : DrmDisplay), ds[k]? = some d →
          (createDisplays S crtcs i ds).2[k]? = some d) ∧
        ∀ (j id : Nat), crtcs[j]? = some id → ∃ c, S.drmModeGetCrtc id = some c ∧
          (createDisplays S crtcs i ds).2[ds.length + j]? =
            some { pipe_ := i + j, crtc_id_ := c }) ∧
      ((∃ id ∈ crtcs, S.drmModeGetCrtc id = none) →
        (createDisplays S crtcs i ds).1 = false) := by
  intro crtcs
  induction crtcs with
  | nil =>
    intro i ds
    refine ⟨fun _ => ⟨by simp [createDisplays], fun k d h => by simpa [createDisplays] using h,
      fun j id h => by simp at h⟩, fun h => ?_⟩
    obtain ⟨id, hid, _⟩ := h
    simp at hid
  | cons id rest ih =>
    intro i ds
    cases hq : S.drmModeGetCrtc id with
    | none =>
      simp only [createDisplays, hq]
      constructor
      · intro h; cases h
      · intro _; trivial
    | some c =>
      simp only [createDisplays, hq]
      obtain ⟨ih1, ih2⟩ := ih (i + 1) (ds ++ [{ pipe_ := i, crtc_id_ := c }])
      constructor
      · intro hok
        obtain ⟨hlen, hkeep, hnew⟩ := ih1 hok
        refine ⟨?_, ?_, ?_⟩
        · rw [hlen]; simp; omega
        · intro k d hk
          apply hkeep
          have hlt : k < ds.length := (List.getElem?_eq_some_iff.mp hk).1
          rw [List.getElem?_append_left hlt]; exact hk
        · intro j x hj
          cases j with
          | zero =>
            simp only [List.getElem?_cons_zero, Option.some.injEq] at hj
            subst hj
            refine ⟨c, hq, ?_⟩
            apply hkeep
            rw [List.getElem?_append_right (by omega)]
            simp
          | succ j =>
            simp only [List.getElem?_cons_succ] at hj
            obtain ⟨c', hc', hget⟩ := hnew j x hj
            refine ⟨c', hc', ?_⟩
            have e1 : (ds ++ [({ pipe_ := i, crtc_id_ := c } : DrmDisplay)]).length + j =
                ds.length + (j + 1) := by simp; omega
            have e2 : i + 1 + j = i + (j + 1) := by omega
            rw [e1, e2] at hget
            exact hget
      · intro hex
        obtain ⟨x, hx, hxq⟩ := hex
        rcases List.mem_cons.mp hx with h | h
        · subst h; rw [hq] at hxq; cases hxq
        · exact ih2 ⟨x, h, hxq⟩

theorem InitializePreferredScanoutDevice_displays (S : InitKernel) (m m0 : DrmDisplayManager)
    (h : InitializePreferredScanoutDevice S m = .ok m0) : m0.displays_ = m.displays_ := by
  unfold InitializePreferredScanoutDevice at h
  by_cases h0 : S.drmGetDevices2 < 0
  · rw [if_pos h0] at h; cases h; rfl
  · rw [if_neg h0] at h
    dsimp only at h
    cases hdev : S.devices[(findCard0 (List.take S.drmGetDevices2.toNat S.devices) 0).getD 0]? with
    | none => rw [hdev] at h; cases h
    | some device =>
      rw [hdev] at h
      dsimp only at h
      have key : ∀ (c : Prop) [Decidable c] (a b : DrmDisplayManager),
          (if c then Except.ok a else (Except.ok b : Except Fault DrmDisplayManager)) = .ok m0 →
          a.displays_ = m.displays_ → b.displays_ = m.displays_ →
          m0.displays_ = m.displays_ := by
        intro c _ a b hab ha hb
        by_cases hc : c
        · rw [if_pos hc] at hab; cases hab; exact ha
        · rw [if_neg hc] at hab; cases hab; exact hb
      refine key _ _ _ h rfl ?_
      split <;> split <;> (try split) <;> rfl

theorem IsDrmMasterByDefault_displays (g a : Int) (m : DrmDisplayManager) :
    (IsDrmMasterByDefault g a m).2.displays_ = m.displays_ := by
  unfold IsDrmMasterByDefault
  simp only [DrmDisplayManager.emit]
  split
  · rfl
  · split
    · rfl
    · split <;> rfl

theorem Initialize_seeds_when_primary_opens (cfg : Config) (S : InitKernel)
    (m m0 : DrmDisplayManager)
    (hsel : InitializePreferredScanoutDevice S m = .ok m0) (hfd : 0 ≤ m0.fd_)
    (hempty : m.displays_ = []) :
    ∃ r m', Initialize cfg S m = .ok (r, m') ∧
      (r = true → ∃ res, S.drmModeGetResources = some res ∧ res.crtcs ≠ [] ∧
        m'.displays_.length = res.crtcs.length ∧
        ∀ (i id : Nat), res.crtcs[i]? = some id → ∃ c, S.drmModeGetCrtc id = some c ∧
          m'.displays_[i]? = some { pipe_ := i, crtc_id_ := c }) ∧
      ((∀ res, S.drmModeGetResources = some res →
          res.crtcs = [] ∨ ∃ id ∈ res.crtcs, S.drmModeGetCrtc id = none) → r = false) := by
  have hd0 : m0.displays_ = [] := by
    rw [InitializePreferredScanoutDevice_displays S m m0 hsel, hempty]
  have hnot : ¬ m0.fd_ < 0 := by omega
  have hd1 : (IsDrmMasterByDefault S.drmGetMagic S.drmAuthMagic m0).2.displays_ = [] := by
    rw [IsDrmMasterByDefault_displays, hd0]
  simp only [Initialize, hsel]
  rw [if_neg hnot]
  by_cases hc0 : S.drmSetClientCap 0 ≠ 0
  · rw [if_pos hc0]
    refine ⟨false, _, rfl, ?_, ?_⟩
    · intro h; cases h
    · intro _; rfl
  · rw [if_neg hc0]
    by_cases hc1 : S.drmSetClientCap 1 ≠ 0
    · rw [if_pos hc1]
      refine ⟨false, _, rfl, ?_, ?_⟩
      · intro h; cases h
      · intro _; rfl
    · rw [if_neg hc1]
      cases hres : S.drmModeGetResources with
      | none =>
        refine ⟨false, _, rfl, ?_, ?_⟩
        · intro h; cases h
        · intro _; rfl
      | some res =>
        dsimp only
        by_cases hz : res.crtcs.length = 0
        · rw [if_pos hz]
          refine ⟨false, _, rfl, ?_, ?_⟩
          · intro h; cases h
          · intro _; rfl
        · rw [if_neg hz]
          obtain ⟨hs1, hs2⟩ := createDisplays_spec S res.crtcs 0
            (IsDrmMasterByDefault S.drmGetMagic S.drmAuthMagic m0).2.displays_
          cases hok : (createDisplays S res.crtcs 0
              (IsDrmMasterByDefault S.drmGetMagic S.drmAuthMagic m0).2.displays_).1 with
          | false =>
            simp only [Bool.not_false, if_true]
            refine ⟨false, _, rfl, ?_, ?_⟩
            · intro h; cases h
            · intro _; rfl
          | true =>
            obtain ⟨hlen, _, hnew⟩ := hs1 hok
            have hne : res.crtcs ≠ [] := fun h0 => hz (by rw [h0]; rfl)
            simp only [Bool.not_true, Bool.false_eq_true, if_false]
            have hfin : ∀ m' : DrmDisplayManager,
                m'.displays_ = (createDisplays S res.crtcs 0
                  (IsDrmMasterByDefault S.drmGetMagic S.drmAuthMagic m0).2.displays_).2 →
                (true = true → ∃ r' : drmModeRes, some res = some r' ∧ r'.crtcs ≠ [] ∧
                  m'.displays_.length = r'.crtcs.length ∧
                  ∀ (i id : Nat), r'.crtcs[i]? = some id → ∃ c, S.drmModeGetCrtc id = some c ∧
                    m'.displays_[i]? = some { pipe_ := i, crtc_id_ := c }) ∧
                ((∀ r' : drmModeRes, some res = some r' →
                  r'.crtcs = [] ∨ ∃ id ∈ r'.crtcs, S.drmModeGetCrtc id = none) →
                    true = false) := by
              intro m' hdisp
              refine ⟨fun _ => ⟨res, rfl, hne, ?_, ?_⟩, fun hbad => ?_⟩
              · rw [hdisp, hlen, hd1]; simp
              · intro i id hi
                obtain ⟨c, hc, hget⟩ := hnew i id hi
                refine ⟨c, hc, ?_⟩
                rw [hdisp]
                simpa [hd1] using hget
              · rcases hbad res rfl with h | h
                · exact absurd h hne
                · rw [hs2 h] at hok; cases hok
            split
            · exact ⟨true, _, rfl, hfin _ rfl⟩
            · split
              · exact ⟨true, _, rfl, hfin _ rfl⟩
              · split <;> exact ⟨true, _, rfl, hfin _ rfl⟩

theorem Initialize_seeds_two_pipelines :
    (Initialize {} twoCrtcSystem {}).toOption.map
      (fun r => (r.1, r.2.displays_.map fun d => (d.pipe_, d.crtc_id_))) =
      some (true, [(0, 41), (1, 42)]) := by
  decide

theorem afterSubpasses_bound (cfg : Config) (K : Kernel) (res : drmModeRes)
    (m : DrmDisplayManager) :
    ∀ y ∈ afterSubpasses cfg K res m, y.IsConnected = true →
      ∃ id ∈ res.connectors, ∃ c, K.drmModeGetConnector id = some c ∧
        c.connection = DRM_MODE_CONNECTED ∧ c.modes ≠ [] ∧ c.connector_id = y.connector_ ∧
        y.modes_ = c.modes ∧ y.config_ = preferredMode c.modes := by
  apply runSteps_forall
  · intro s hs x _ _ _
    obtain ⟨hu, id, hid, hq⟩ := steps_connector K res.connectors s hs
    have hne : s.connector.modes ≠ [] := fun h0 => usable_modes hu (by rw [h0]; rfl)
    simp only [usable, Bool.and_eq_true, beq_iff_eq] at hu
    exact ⟨id, hid, s.connector, hq, hu.1, hne, rfl, rfl, rfl⟩
  · intro x hx hc
    rw [markDisplays_not_connected cfg _ x hx] at hc
    cases hc

theorem finalize_get_disconnected (ds : List DrmDisplay) (k : Nat) (x : DrmDisplay)
    (h : ds[k]? = some x) (hx : x.IsConnected = false) :
    ((finalize ds).map DrmDisplay.binding)[k]? =
      some ⟨x.GetDisplayPipe, x.CrtcId, false, 0, 0, []⟩ := by
  have hk : (finalize ds)[k]? = some x.DisConnect := by
    simp [finalize, h, hx]
  rw [List.getElem?_map, hk]
  rfl

theorem preferredMode_rules (modes : List drmModeModeInfo) :
    (∀ (k : Nat) (md : drmModeModeInfo), modes[k]? = some md →
      md.type &&& DRM_MODE_TYPE_PREFERRED ≠ 0 →
      (∀ (j : Nat) (x : drmModeModeInfo), j ≠ k → modes[j]? = some x →
        x.type &&& DRM_MODE_TYPE_PREFERRED = 0) →
      preferredMode modes = k) ∧
    ((∀ md ∈ modes, md.type &&& DRM_MODE_TYPE_PREFERRED = 0) → preferredMode modes = 0) := by
  refine ⟨?_, ?_⟩
  · intro k md hk hmd hothers
    have hlt : k < modes.length := (List.getElem?_eq_some_iff.mp hk).1
    have hsplit : modes = modes.take k ++ md :: modes.drop (k + 1) := by
      have h1 : modes.drop k = md :: modes.drop (k + 1) := by
        rw [List.drop_eq_getElem_cons hlt]
        have := (List.getElem?_eq_some_iff.mp hk).2
        rw [this]
      rw [← h1, List.take_append_drop]
    have hb : ∀ x ∈ modes.drop (k + 1), x.type &&& DRM_MODE_TYPE_PREFERRED = 0 := by
      intro x hx
      obtain ⟨i, hi⟩ := List.mem_iff_getElem?.mp hx
      rw [List.getElem?_drop] at hi
      exact hothers (k + 1 + i) x (by omega) hi
    have := preferredModeLoop_last md (modes.drop (k + 1)) hmd hb (modes.take k) 0 0
    rw [← hsplit] at this
    simp only [preferredMode, this, List.length_take, Nat.zero_add]
    omega
  · intro hnone
    exact preferredModeLoop_none modes hnone 0 0

theorem deferredIdx_append (K : Kernel) (l : List Nat) :
    ∀ (pre : List Nat) (i : Nat), (∀ x ∈ pre, (K.drmModeGetConnector x).isSome = true) →
      deferredIdx K (pre ++ l) i = deferredIdx K pre i ++ deferredIdx K l (i + pre.length) := by
  intro pre
  induction pre with
  | nil => intro i _; simp [deferredIdx]
  | cons a t ih =>
    intro i h
    have ha := h a (List.mem_cons_self _ _)
    obtain ⟨c, hc⟩ := Option.isSome_iff_exists.mp ha
    have := ih (i + 1) (fun x hx => h x (List.mem_cons_of_mem _ hx))
    have e : i + 1 + t.length = i + (t.length + 1) := by omega
    rw [e] at this
    simp only [List.cons_append, deferredIdx, hc, List.length_cons]
    split <;> simp [this]

theorem bindFirst_none (test : DrmDisplay → Bool) (f : DrmDisplay → DrmDisplay) :
    ∀ ds : List DrmDisplay, (∀ x ∈ ds, test x = false) → bindFirst test f ds = ds := by
  intro ds
  induction ds with
  | nil => intro _; rfl
  | cons d rest ih =>
    intro h
    simp only [bindFirst, h d (List.mem_cons_self _ _), Bool.false_eq_true, if_false]
    rw [ih fun x hx => h x (List.mem_cons_of_mem _ hx)]

theorem steps1_snoc (K : Kernel) (pre : List Nat) (id : Nat) (connector : drmModeConnector)
    (hpre : ∀ x ∈ pre, (K.drmModeGetConnector x).isSome = true)
    (hq : K.drmModeGetConnector id = some connector) :
    steps1 K (pre ++ [id]) = steps1 K pre ++ (directStep K connector).toList := by
  simp only [steps1, scanned_append K [id] pre hpre, List.filterMap_append]
  simp only [scanned, hq, List.filterMap_cons, List.filterMap_nil]
  cases directStep K connector <;> rfl

theorem deferredIdx_direct (K : Kernel) (pre : List Nat) (id : Nat)
    (connector : drmModeConnector)
    (hpre : ∀ x ∈ pre, (K.drmModeGetConnector x).isSome = true)
    (hq : K.drmModeGetConnector id = some connector) (henc : connector.encoder_id ≠ 0) :
    deferredIdx K (pre ++ [id]) 0 = deferredIdx K pre 0 := by
  rw [deferredIdx_append K [id] pre 0 hpre]
  simp [deferredIdx, hq, henc]

theorem deferredIdx_split (K : Kernel) (pre : List Nat) (id : Nat) (post : List Nat)
    (connector : drmModeConnector)
    (hpre : ∀ x ∈ pre, (K.drmModeGetConnector x).isSome = true)
    (hq : K.drmModeGetConnector id = some connector) (hu : usable connector = true)
    (henc : connector.encoder_id = 0) :
    deferredIdx K (pre ++ id :: post) 0 =
      deferredIdx K pre 0 ++ pre.length :: deferredIdx K post (pre.length + 1) ∧
    (deferredIdx K (pre ++ id :: post) 0).filter (fun i => decide (i < pre.length)) =
      deferredIdx K pre 0 := by
  have h1 : deferredIdx K (pre ++ id :: post) 0 =
      deferredIdx K pre 0 ++ pre.length :: deferredIdx K post (pre.length + 1) := by
    rw [deferredIdx_append K (id :: post) pre 0 hpre]
    simp [deferredIdx, hq, hu, henc]
  refine ⟨h1, ?_⟩
  rw [h1, List.filter_append, List.filter_cons]
  have ha : (deferredIdx K pre 0).filter (fun i => decide (i < pre.length)) =
      deferredIdx K pre 0 := by
    apply List.filter_eq_self.mpr
    intro a ha
    have := (deferredIdx_lt K pre 0 a ha).2
    simpa using this
  have hb : (deferredIdx K post (pre.length + 1)).filter (fun i => decide (i < pre.length)) =
      [] := by
    apply List.filter_eq_nil_iff.mpr
    intro a ha
    have := (deferredIdx_lt K post (pre.length + 1) a ha).1
    simp only [decide_eq_true_eq]
    omega
  rw [ha, hb]
  simp

theorem connectEncoders_single (K : Kernel) (id : Nat) (connector : drmModeConnector)
    (encoder : drmModeEncoder) (i : Nat) (no_encoder : List Nat) (displays : List DrmDisplay)
    (j : Nat) (d : DrmDisplay)
    (hq : K.drmModeGetConnector id = some connector)
    (hconn : connector.connection = DRM_MODE_CONNECTED) (hne : connector.modes ≠ [])
    (henc : connector.encoder_id ≠ 0)
    (hqe : K.drmModeGetEncoder connector.encoder_id = some encoder)
    (hcrtc : encoder.crtc_id ≠ 0)
    (hj : displays[j]? = some d) (hd1 : d.IsConnected = false)
    (hd2 : d.CrtcId = encoder.crtc_id)
    (hok : K.connectOk d.GetDisplayPipe connector.connector_id = true)
    (hlow : ∀ (k : Nat) (x : DrmDisplay), k < j → displays[k]? = some x →
      x.IsConnected = true ∨ x.CrtcId ≠ encoder.crtc_id) :
    connectEncoders K [id] i no_encoder displays =
      .ok (displays.set j
        ((d.ConnectDisplay connector (preferredMode connector.modes)).SetDrmModeInfo
          connector.modes), no_encoder) := by
  have hdirect : directStep K connector = some ⟨connector, crtcMatches encoder⟩ := by
    simp [directStep, usable, hconn, hne, henc, hqe, hcrtc]
  have hsteps : steps1 K [id] = [⟨connector, crtcMatches encoder⟩] := by
    simp [steps1, scanned, hq, hdirect]
  have hdef : deferredIdx K [id] i = [] := by
    simp [deferredIdx, hq, henc]
  have hset : applyStep K ⟨connector, crtcMatches encoder⟩ displays =
      displays.set j (BindStep.bound ⟨connector, crtcMatches encoder⟩ d) := by
    apply bindFirst_set _ _ displays j d hj
    · simp [BindStep.test, hd1, crtcMatches, hd2, hok]
    · intro k x hk hx
      rcases hlow k x hk hx with h | h
      · simp [BindStep.test, h]
      · have : (encoder.crtc_id == x.CrtcId) = false := by
          simpa using fun e => h e.symm
        simp [BindStep.test, crtcMatches, this]
  rw [connectEncoders_eq, hsteps, hdef, runSteps_cons, runSteps_nil, hset, List.append_nil]
  rfl

theorem connectNoEncoder_single (K : Kernel) (connectors : List Nat) (idx id : Nat)
    (connector : drmModeConnector) (eid : Nat) (encoder : drmModeEncoder)
    (displays : List DrmDisplay) (d : DrmDisplay)
    (hid : connectors[idx]? = some id)
    (hq : K.drmModeGetConnector id = some connector) (hne : connector.modes ≠ [])
    (heid : eid ∈ connector.encoders) (hqe : K.drmModeGetEncoder eid = some encoder)
    (hd : d ∈ displays) (hdc : d.IsConnected = false) (hdrive : canDrive encoder d = true)
    (hok : K.connectOk d.GetDisplayPipe connector.connector_id = true) :
    ∃ (out : List DrmDisplay) (k : Nat) (x : DrmDisplay),
      connectNoEncoder K connectors [idx] displays = .ok out ∧
      displays[k]? = some x ∧ x.IsConnected = false ∧
      out[k]? = some ((x.ConnectDisplay connector (preferredMode connector.modes)).SetDrmModeInfo
        connector.modes) := by
  have hlen : connector.modes.length ≠ 0 := fun h0 => hne (List.length_eq_zero.mp h0)
  let f : Nat → Option BindStep := fun i =>
    (K.drmModeGetEncoder i).map fun e => (⟨connector, canDrive e⟩ : BindStep)
  have hrun : connectNoEncoder K connectors [idx] displays =
      .ok (runSteps K (connector.encoders.filterMap f) displays) := by
    simp only [connectNoEncoder, hid, hq, encoderLoop_eq K connector hlen]
  obtain ⟨e1, e2, hsplit⟩ := List.append_of_mem heid
  let sB : BindStep := ⟨connector, canDrive encoder⟩
  have hsteps : connector.encoders.filterMap f = e1.filterMap f ++ sB :: e2.filterMap f := by
    simp only [hsplit, List.filterMap_append, List.filterMap_cons, f, hqe, Option.map_some', sB]
  have hconn : ∀ s ∈ connector.encoders.filterMap f, s.connector = connector := by
    intro s hs
    simp only [List.mem_filterMap, f, Option.map_eq_some'] at hs
    obtain ⟨_, _, _, _, he⟩ := hs
    rw [← he]
  have he1 : ∀ s ∈ e1.filterMap f, s.connector = connector := fun s hs =>
    hconn s (by rw [hsteps]; exact List.mem_append_left _ hs)
  have hbound : ∀ s : BindStep, s.connector = connector → ∀ x : DrmDisplay,
      s.bound x = (x.ConnectDisplay connector (preferredMode connector.modes)).SetDrmModeInfo
        connector.modes := by
    intro s hs x
    simp only [BindStep.bound, hs]
  rw [hrun, hsteps, runSteps_append, runSteps_cons]
  obtain ⟨kd, hkd⟩ := List.mem_iff_getElem?.mp hd
  -- the entity at the index of `d` after the encoders in front
  obtain ⟨y, hy, hPy⟩ := runSteps_invariant K
    (fun y => y = d ∨ y = (d.ConnectDisplay connector (preferredMode connector.modes)).SetDrmModeInfo
      connector.modes) (e1.filterMap f)
    (fun s hs x hx hxc => by
      rcases hx with h | h
      · right; rw [h, hbound s (he1 s hs)]
      · rw [h] at hxc; cases hxc) displays kd d hkd (Or.inl rfl)
  rcases hPy with hyd | hyb
  · subst hyd
    have htest : sB.test K y = true := by
      simp [BindStep.test, hdc, hok, hdrive, sB]
    obtain ⟨k, x, hx, hxt, h3⟩ := bindFirst_exists (sB.test K) sB.bound _
      ⟨y, List.mem_iff_getElem?.mpr ⟨kd, hy⟩, htest⟩
    have hxc : x.IsConnected = false := by
      cases hc : x.IsConnected with
      | false => rfl
      | true => simp [BindStep.test, hc] at hxt
    -- the entity at index `k` before the encoders in front
    have hklt : k < displays.length := by
      have := (List.getElem?_eq_some_iff.mp hx).1
      rwa [runSteps_length] at this
    obtain ⟨x1, hx1, hPx1⟩ := runSteps_invariant K
      (fun z => z = displays[k] ∨ z.IsConnected = true) (e1.filterMap f)
      (fun s _ z _ _ => Or.inr (bound_IsConnected s z)) displays k displays[k]
      (List.getElem?_eq_getElem hklt) (Or.inl rfl)
    rw [hx] at hx1
    cases hx1
    have hx0 : x = displays[k] := by
      rcases hPx1 with h | h
      · exact h
      · rw [hxc] at h; cases h
    refine ⟨_, k, x, rfl, ?_, hxc, ?_⟩
    · rw [hx0]; exact List.getElem?_eq_getElem hklt
    · have := runSteps_connected K (e2.filterMap f) _ k (sB.bound x) h3 rfl
      rw [← hbound sB rfl x]
      exact this
  · refine ⟨_, kd, d, rfl, hkd, hdc, ?_⟩
    have hstay : (applyStep K sB (runSteps K (e1.filterMap f) displays))[kd]? = some y := by
      rcases applyStep_get K sB _ kd y hy with h | ⟨hc, _⟩
      · exact h
      · rw [hyb] at hc; cases hc
    have := runSteps_connected K (e2.filterMap f) _ kd y hstay (by rw [hyb]; rfl)
    rw [← hyb]
    exact this

/-! ## The properties -/

/-- C1, at the failing input: with two unconnected pipelines and a single connector (output 7)
that reports no encoder and lists two possible encoders, the first able to drive pipeline 0
and the second pipeline 1, one pass of `UpdateDisplayState` returns `true` and leaves both
entities Connected and bound to output 7: the loop over the possible encoders goes on after
a successful bind. -/
theorem UpdateDisplayState_binds_two_entities_to_one_output :
    (UpdateDisplayState {} twoEncoderKernel 0 twoPipes).toOption.map
      (fun r => (r.1, r.2.displays_.map fun d => (d.IsConnected, d.GetConnectorID)))
      = some (true, [(true, 7), (true, 7)]) := by
  decide

/-- C2, amended: when the query of connector `k` fails, the enumeration of connectors stops
there. `UpdateDisplayState` returns `true`, and its whole result (count, bindings, log) is
that of the pass over the snapshot cut off before `k`: the connectors before `k` are counted
and bound as without the failure, those after `k` are not looked at. -/
theorem failed_connector_query_ends_enumeration (cfg : Config) (K : Kernel) (fuel : Nat)
    (m : DrmDisplayManager)
    (res : drmModeRes) (pre : List Nat) (k : Nat) (post : List Nat)
    (hres : K.drmModeGetResources = some res)
    (hsplit : res.connectors = pre ++ k :: post)
    (hfail : K.drmModeGetConnector k = none)
    (hret : PassReturns cfg fuel m) :
    (∃ m', UpdateDisplayState cfg K fuel m = .ok (true, m')) ∧
    UpdateDisplayState cfg K fuel m =
      UpdateDisplayState cfg
        { K with drmModeGetResources := some { res with connectors := pre } } fuel m := by
  constructor
  · obtain ⟨m', h, _⟩ := UpdateDisplayState_spec cfg K fuel m res hres hret
    exact ⟨m', h⟩
  · simp only [UpdateDisplayState, hres, underLock_kernel,
      underLock_truncate cfg K res m pre k post hsplit hfail]

/-- C2, witness: the amended property at the snapshot with connectors 6 and 7 where the query
of connector 6 fails. -/
theorem failed_connector_query_ends_enumeration_witness :
    failingFirstKernel.drmModeGetConnector 6 = none ∧
    (∃ m', UpdateDisplayState {} failingFirstKernel 0 twoPipes = .ok (true, m')) ∧
    UpdateDisplayState {} failingFirstKernel 0 twoPipes =
      UpdateDisplayState {}
        { failingFirstKernel with
          drmModeGetResources := some { crtcs := [41, 42], connectors := [] } } 0 twoPipes :=
  ⟨rfl, failed_connector_query_ends_enumeration {} failingFirstKernel 0 twoPipes
    { crtcs := [41, 42], connectors := [6, 7] } [] 6 [7] rfl rfl rfl
    (by unfold PassReturns; decide)⟩

/-- C2, counterexample: the snapshot lists connectors 6 and 7, the query of connector 6 fails
and connector 7 is connected through an encoder on pipeline id 41. The pass returns `true`
with connected-output count 0 and no entity Connected, whereas the pass over the same
snapshot without connector 6 counts 1 and binds entity 0. -/
theorem failed_connector_query_hides_later_connectors :
    ((UpdateDisplayState {} failingFirstKernel 0 twoPipes).toOption.map fun r =>
        (r.1, r.2.connected_display_count_, r.2.displays_.map fun d => d.IsConnected),
     (UpdateDisplayState {} directKernel 0 twoPipes).toOption.map fun r =>
        (r.1, r.2.connected_display_count_, r.2.displays_.map fun d => d.IsConnected)) =
    (some (true, 0, [false, false]), some (true, 1, [true, false])) := by
  decide

/-- C3, amended: started with held-state `false`, `setDrmMaster` without the force flag
returns after `k` attempts with `1 ≤ k ≤ 10`, every attempt before the last one failed,
held-state is `true` exactly when the last attempt succeeded, and after a failed last attempt
`k = 10`. With the force flag the retry counter does not advance: the call returns at the
first success, after any number of attempts, with held-state `true`, and with an acquire that
always fails it does not return. -/
theorem setDrmMaster_retry_contract (drmSetMaster : Nat → Int) (m : DrmDisplayManager)
    (hm : m.drm_master_ = false) :
    (∀ fuel, 10 ≤ fuel → ∃ m' k,
        setDrmMaster false drmSetMaster fuel m = .ok m' ∧ 1 ≤ k ∧ k ≤ 10 ∧
        setMasterAttempts m'.log = setMasterAttempts m.log + k ∧
        (∀ j, j + 1 < k → drmSetMaster j ≠ 0) ∧
        (m'.drm_master_ = true ↔ drmSetMaster (k - 1) = 0) ∧
        (drmSetMaster (k - 1) ≠ 0 → k = 10)) ∧
    (∀ n, drmSetMaster n = 0 → (∀ j, j < n → drmSetMaster j ≠ 0) →
        ∀ fuel, n < fuel → ∃ m',
          setDrmMaster true drmSetMaster fuel m = .ok m' ∧
          setMasterAttempts m'.log = setMasterAttempts m.log + (n + 1) ∧
          m'.drm_master_ = true) ∧
    ((∀ n, drmSetMaster n ≠ 0) →
        ∀ fuel, setDrmMaster true drmSetMaster fuel m = .error .fuel) := by
  refine ⟨?_, ?_, ?_⟩
  · intro fuel hfuel
    obtain ⟨m', k, hk, h1, h2, h3, h4, h5, h6⟩ :=
      setDrmMasterLoop_bounded drmSetMaster fuel 0 (m.emit [.lock]) (by omega) (by omega)
    refine ⟨m'.emit [.unlock], k, ?_, h1, h2, ?_, fun j hj => h4 j (Nat.zero_le j) hj, h5, h6⟩
    · simp [setDrmMaster, DrmDisplayManager.emit, hm, bind, Except.bind, pure, Except.pure]
      simp [DrmDisplayManager.emit, hm] at hk
      rw [hk]
    · simp [DrmDisplayManager.emit, setMasterAttempts, List.count_append] at h3 ⊢
      omega
  · intro n hn hfail fuel hfuel
    obtain ⟨m', hk, h3, h4⟩ :=
      setDrmMasterLoop_forced drmSetMaster n hn fuel 0 0 (m.emit [.lock]) (by omega)
        (Nat.zero_le n) (fun j _ h => hfail j h) (by omega)
    refine ⟨m'.emit [.unlock], ?_, ?_, h4⟩
    · simp [setDrmMaster, DrmDisplayManager.emit, hm, bind, Except.bind, pure, Except.pure]
      simp [DrmDisplayManager.emit, hm] at hk
      rw [hk]
    · simp [DrmDisplayManager.emit, setMasterAttempts, List.count_append] at h3 ⊢
      omega
  · intro hnever fuel
    have h := setDrmMasterLoop_forced_never drmSetMaster hnever fuel 0 0 (m.emit [.lock]) (by omega)
    simp [DrmDisplayManager.emit, hm] at h
    simp [setDrmMaster, DrmDisplayManager.emit, hm, bind, Except.bind, h]

/-- C3, witness: an acquire that always fails, without the force flag, returns after exactly 10
attempts with held-state `false`. -/
theorem setDrmMaster_retry_contract_witness :
    ({} : DrmDisplayManager).drm_master_ = false ∧
    ∃ m' k, setDrmMaster false (fun _ => -1) 10 {} = .ok m' ∧ 1 ≤ k ∧ k ≤ 10 ∧
        setMasterAttempts m'.log = setMasterAttempts ({} : DrmDisplayManager).log + k ∧
        (∀ j, j + 1 < k → (fun _ : Nat => (-1 : Int)) j ≠ 0) ∧
        (m'.drm_master_ = true ↔ (fun _ : Nat => (-1 : Int)) (k - 1) = 0) ∧
        ((fun _ : Nat => (-1 : Int)) (k - 1) ≠ 0 → k = 10) :=
  ⟨rfl, (setDrmMaster_retry_contract (fun _ => -1) {} rfl).1 10 (Nat.le_refl 10)⟩

/-- C3, counterexample: with the force flag set and an acquire that fails ten times and then
succeeds, `setDrmMaster` makes eleven attempts and ends with held-state `true`. -/
theorem setDrmMaster_forced_makes_eleven_attempts :
    (setDrmMaster true (fun n => if n < 10 then -1 else 0) 11 {}).toOption.map
      (fun m => (setMasterAttempts m.log, m.drm_master_)) = some (11, true) := by
  decide

/-- C4, at the failing input: when the primary node cannot be opened (`fd_` is -1 after the
device selection), `Initialize` creates no Display Entity and makes no further call, but the
statement `return -ENODEV` of a function declared `bool` hands `true` to the caller. -/
theorem Initialize_without_primary_returns_true :
    (Initialize {} noPrimary {}).toOption.map
      (fun r => (r.1, decide (r.2.fd_ < 0), r.2.displays_, r.2.log)) = some (true, true, [], []) := by
  decide

/-- C5, amended: in a pass where the bind attempts succeed and the queries of the connectors
up to it succeed, take a connected connector with at least one mode and a non-zero encoder id
whose encoder reports the pipeline id `c`, and let `mid` be the entities when the first
sub-pass reaches it. The pass returns `true`. If `c ≠ 0` and `d`, at index `j`, is the first
entity of `mid` that is not yet connected and has pipeline id `c`, the connector binds
exactly that entity: the first sub-pass leaves the connector with `mid` changed at index `j`
alone, where `d` is Connected to the connector with the preferred mode index as active mode
and the full mode list; entity `j` ends the pass with this binding, and when the other
connectors of the snapshot have other output ids no other entity ends Connected to that
output. If `c = 0` or no entity of `mid` is unconnected with pipeline id `c`, the connector
binds no entity: the first sub-pass leaves it with `mid` unchanged. -/
theorem direct_encoder_binds_lowest_eligible (cfg : Config) (K : Kernel) (fuel : Nat)
    (m : DrmDisplayManager)
    (res : drmModeRes) (pre : List Nat) (id : Nat) (post : List Nat)
    (connector : drmModeConnector) (encoder : drmModeEncoder)
    (hres : K.drmModeGetResources = some res)
    (hret : PassReturns cfg fuel m)
    (hsplit : res.connectors = pre ++ id :: post)
    (hpre : ∀ x ∈ pre, (K.drmModeGetConnector x).isSome = true)
    (hbind : ∀ pipe output, K.connectOk pipe output = true)
    (hq : K.drmModeGetConnector id = some connector)
    (hconn : connector.connection = DRM_MODE_CONNECTED)
    (hmodes : connector.modes.length ≠ 0)
    (henc : connector.encoder_id ≠ 0)
    (hqe : K.drmModeGetEncoder connector.encoder_id = some encoder) :
    ∃ mid no_encoder m',
      connectEncoders K pre 0 [] (markDisplays cfg m.displays_) = .ok (mid, no_encoder) ∧
      UpdateDisplayState cfg K fuel m = .ok (true, m') ∧
      (∀ (j : Nat) (d : DrmDisplay), encoder.crtc_id ≠ 0 → mid[j]? = some d →
        d.IsConnected = false → d.CrtcId = encoder.crtc_id →
        (∀ (k : Nat) (x : DrmDisplay), k < j → mid[k]? = some x →
          x.IsConnected = true ∨ x.CrtcId ≠ encoder.crtc_id) →
        connectEncoders K (pre ++ [id]) 0 [] (markDisplays cfg m.displays_) =
          .ok (mid.set j
            ((d.ConnectDisplay connector (preferredMode connector.modes)).SetDrmModeInfo
              connector.modes), no_encoder) ∧
        (m'.displays_.map DrmDisplay.binding)[j]? =
          some ⟨d.GetDisplayPipe, d.CrtcId, true, connector.connector_id,
                preferredMode connector.modes, connector.modes⟩ ∧
        ((∀ x ∈ pre ++ post, ∀ c, K.drmModeGetConnector x = some c →
            c.connector_id ≠ connector.connector_id) →
          ∀ (k : Nat) (b : Binding), k ≠ j →
            (m'.displays_.map DrmDisplay.binding)[k]? = some b → b.connected = true →
            b.output ≠ connector.connector_id)) ∧
      ((encoder.crtc_id = 0 ∨ ∀ d ∈ mid, d.IsConnected = true ∨ d.CrtcId ≠ encoder.crtc_id) →
        connectEncoders K (pre ++ [id]) 0 [] (markDisplays cfg m.displays_) =
          .ok (mid, no_encoder)) := by
  obtain ⟨m', h1, hb, _, _, _⟩ := UpdateDisplayState_spec cfg K fuel m res hres hret
  have hne : connector.modes ≠ [] := fun h0 => hmodes (by rw [h0]; rfl)
  -- the first sub-pass up to the connector and past it
  have hsnoc : connectEncoders K (pre ++ [id]) 0 [] (markDisplays cfg m.displays_) =
      .ok (runSteps K (directStep K connector).toList
            (runSteps K (steps1 K pre) (markDisplays cfg m.displays_)),
          [] ++ deferredIdx K pre 0) := by
    rw [connectEncoders_eq, steps1_snoc K pre id connector hpre hq, runSteps_append,
      deferredIdx_direct K pre id connector hpre hq henc]
  refine ⟨runSteps K (steps1 K pre) (markDisplays cfg m.displays_), [] ++ deferredIdx K pre 0,
    m', connectEncoders_eq K pre 0 [] _, h1, ?_, ?_⟩
  · intro j d hcrtc hj hd1 hd2 hlow
    generalize hmid : runSteps K (steps1 K pre) (markDisplays cfg m.displays_) = mid
      at hj hlow hsnoc
    have hdirect : directStep K connector = some ⟨connector, crtcMatches encoder⟩ := by
      simp [directStep, usable, hconn, hne, henc, hqe, hcrtc]
    have hsteps : steps1 K res.connectors =
        steps1 K pre ++ ⟨connector, crtcMatches encoder⟩ :: steps1 K post := by
      simp only [steps1, hsplit, scanned_append K (id :: post) pre hpre, List.filterMap_append]
      simp [scanned, hq, List.filterMap_cons, hdirect]
    have hset : applyStep K ⟨connector, crtcMatches encoder⟩ mid =
        mid.set j (BindStep.bound ⟨connector, crtcMatches encoder⟩ d) := by
      apply bindFirst_set _ _ mid j d hj
      · simp [BindStep.test, hd1, crtcMatches, hd2, hbind]
      · intro k x hk hx
        rcases hlow k x hk hx with h | h
        · simp [BindStep.test, h]
        · have : (encoder.crtc_id == x.CrtcId) = false := by
            simpa using fun e => h e.symm
          simp [BindStep.test, crtcMatches, this]
    have hlt : j < mid.length := (List.getElem?_eq_some_iff.mp hj).1
    have hAS : afterSubpasses cfg K res m =
        runSteps K (steps1 K post ++ steps2 K res.connectors)
          (mid.set j (BindStep.bound ⟨connector, crtcMatches encoder⟩ d)) := by
      simp only [afterSubpasses, hsteps, List.append_assoc, List.cons_append, runSteps_append,
        runSteps_cons, hmid, hset]
    refine ⟨?_, ?_, ?_⟩
    · rw [hsnoc, hdirect]
      simp only [Option.toList, runSteps_cons, runSteps_nil, hset]
      rfl
    · rw [hb, hAS]
      have := runSteps_connected K (steps1 K post ++ steps2 K res.connectors)
        (mid.set j (BindStep.bound ⟨connector, crtcMatches encoder⟩ d)) j
        (BindStep.bound ⟨connector, crtcMatches encoder⟩ d)
        (by simp [List.getElem?_set, hlt]) rfl
      rw [finalize_get_connected _ j _ this rfl]
      rfl
    · intro hother
      have hafter : ∀ s ∈ steps1 K post ++ steps2 K res.connectors,
          s.connector.connector_id ≠ connector.connector_id := by
        intro s hs
        rcases List.mem_append.mp hs with h | h
        · obtain ⟨x, hx, hxq⟩ := steps1_connector K post s h
          exact hother x (List.mem_append_right _ hx) _ hxq
        · obtain ⟨x, hx, hxq, he0⟩ := steps2_connector K res.connectors s h
          rw [hsplit] at hx
          rcases List.mem_append.mp hx with hx | hx
          · exact hother x (List.mem_append_left _ hx) _ hxq
          · rcases List.mem_cons.mp hx with hx | hx
            · subst hx
              rw [hq] at hxq
              cases hxq
              exact absurd he0 henc
            · exact hother x (List.mem_append_right _ hx) _ hxq
      have hbefore : ∀ s ∈ steps1 K pre,
          s.connector.connector_id ≠ connector.connector_id := by
        intro s hs
        obtain ⟨x, hx, hxq⟩ := steps1_connector K pre s hs
        exact hother x (List.mem_append_left _ hx) _ hxq
      intro k b hk hkb hbc
      rw [hb] at hkb
      obtain ⟨x, hx, hxc, hbx⟩ := finalize_get _ k b hkb hbc
      subst hbx
      have hklen : k < (markDisplays cfg m.displays_).length := by
        have := (List.getElem?_eq_some_iff.mp hx).1
        rwa [hAS, runSteps_length, List.length_set, ← hmid, runSteps_length] at this
      let P : DrmDisplay → Prop :=
        fun y => y.IsConnected = true → y.connector_ ≠ connector.connector_id
      have hP0 : P (markDisplays cfg m.displays_)[k] := by
        intro hc
        rw [markDisplays_not_connected cfg _ _ (List.getElem_mem hklen)] at hc
        cases hc
      obtain ⟨y1, hy1, hPy1⟩ := runSteps_invariant K P (steps1 K pre)
        (fun s hs x _ _ _ => hbefore s hs) (markDisplays cfg m.displays_) k _
        (List.getElem?_eq_getElem hklen) hP0
      rw [hmid] at hy1
      have hy1' : (mid.set j (BindStep.bound ⟨connector, crtcMatches encoder⟩ d))[k]? =
          some y1 := by
        rw [List.getElem?_set]
        simp [Ne.symm hk, hy1]
      obtain ⟨y2, hy2, hPy2⟩ := runSteps_invariant K P
        (steps1 K post ++ steps2 K res.connectors)
        (fun s hs x _ _ _ => hafter s hs) _ k y1 hy1' hPy1
      rw [← hAS, hx] at hy2
      cases hy2
      exact hPy2 hxc
  · intro hnone
    rw [hsnoc]
    rcases hnone with h0 | hall
    · have hdirect : directStep K connector = none := by
        simp [directStep, usable, hconn, hne, henc, hqe, h0]
      rw [hdirect]
      rfl
    · by_cases hcrtc : encoder.crtc_id = 0
      · have hdirect : directStep K connector = none := by
          simp [directStep, usable, hconn, hne, henc, hqe, hcrtc]
        rw [hdirect]
        rfl
      · have hdirect : directStep K connector = some ⟨connector, crtcMatches encoder⟩ := by
          simp [directStep, usable, hconn, hne, henc, hqe, hcrtc]
        rw [hdirect]
        simp only [Option.toList, runSteps_cons, runSteps_nil, applyStep]
        rw [bindFirst_none]
        intro x hx
        rcases hall x hx with h | h
        · simp [BindStep.test, h]
        · have : (encoder.crtc_id == x.CrtcId) = false := by
            simpa using fun e => h e.symm
          simp [BindStep.test, crtcMatches, this]

/-- C5, witness: two pipelines, connector A connected with three modes of which the second is
flagged preferred, its encoder on the pipeline of entity 0. The connector binds entity 0
alone; entity 0 ends Connected to output 7 with active mode index 1, entity 1 Disconnected,
the connected-output count is 1 and the callback receives the list with entity 0 alone. -/
theorem direct_encoder_binds_lowest_eligible_witness :
    (∃ m', UpdateDisplayState {} directKernel 0 twoPipes = .ok (true, m') ∧
      connectEncoders directKernel ([] ++ [7]) 0 [] (markDisplays {} twoPipes.displays_) =
        .ok ((markDisplays {} twoPipes.displays_).set 0
          { pipe_ := 0, crtc_id_ := 41, connector_ := 7, connected_ := true,
            modes_ := connectorA.modes, config_ := 1 }, []) ∧
      (m'.displays_.map DrmDisplay.binding)[0]? =
        some ⟨0, 41, true, 7, 1, connectorA.modes⟩ ∧
      ∀ (k : Nat) (b : Binding), k ≠ 0 →
        (m'.displays_.map DrmDisplay.binding)[k]? = some b → b.connected = true →
        b.output ≠ 7) ∧
    (UpdateDisplayState {} directKernel 0 twoPipes).toOption.map
      (fun r => (r.2.displays_.map fun d => (d.IsConnected, d.GetConnectorID, d.config_),
        GetConnectedPhysicalDisplayCount r.2, r.2.log)) =
      some ([(true, 7, 1), (false, 0, 0)], 1,
        [.lock, .DisConnect 1, .Callback [0], .unlock,
         .lock, .NotifyClientOfConnectedState 0, .NotifyClientOfDisConnectedState 1, .unlock]) := by
  refine ⟨?_, by decide⟩
  obtain ⟨mid, no_encoder, m', hmid, hm', hbound, _⟩ :=
    direct_encoder_binds_lowest_eligible {} directKernel 0 twoPipes
      { crtcs := [41, 42], connectors := [7] } [] 7 [] connectorA encoderOnFirst
      rfl (by unfold PassReturns; decide) rfl (by simp) (fun _ _ => rfl) rfl rfl (by decide)
      (by decide) rfl
  have hmid' : (markDisplays {} twoPipes.displays_, ([] : List Nat)) = (mid, no_encoder) :=
    Except.ok.inj hmid
  cases hmid'
  obtain ⟨h1, h2, h3⟩ := hbound 0 { pipe_ := 0, crtc_id_ := 41, pending_disconnect_ := true }
    (by decide) rfl rfl rfl (fun k _ hk => absurd hk (Nat.not_lt_zero k))
  exact ⟨m', hm', h1, h2, h3 (by simp)⟩

/-- C5, counterexample: connector A (encoder 3) and connector 9 (encoder 5) are both
connected with a mode and a non-zero encoder id, every query and bind attempt succeeds, and
both encoders report pipeline id 41, that of entity 0. Connector A binds entity 0; when
connector 9 is reached no entity with pipeline id 41 is unconnected, and it binds no entity:
no entity ends Connected to output 9 although two outputs are counted connected. -/
theorem second_connector_on_same_pipeline_binds_nothing :
    (samePipelineKernel.drmModeGetConnector 9).map
      (fun c => (decide (c.connection = DRM_MODE_CONNECTED), c.modes.length, c.encoder_id,
        (samePipelineKernel.drmModeGetEncoder c.encoder_id).map fun e => e.crtc_id)) =
      some (true, 1, 5, some 41) ∧
    twoPipes.displays_.map (fun d => (d.IsConnected, d.CrtcId)) = [(false, 41), (false, 42)] ∧
    (UpdateDisplayState {} samePipelineKernel 0 twoPipes).toOption.map
      (fun r => (r.1, r.2.displays_.map (fun d => (d.IsConnected, d.GetConnectorID)),
        GetConnectedPhysicalDisplayCount r.2)) =
      some (true, [(true, 7), (false, 0)], 2) := by
  decide

/-- C6: in a pass where the bind attempts succeed and the queries of the connectors up to it
succeed, take a connected connector with at least one mode that reports encoder id 0, at
index `pre.length` of the snapshot. The first sub-pass defers it (its index is in
`no_encoder`), the second sub-pass reaches it after the deferred connectors in front of it,
with the entities `mid`, and the pass returns `true`. If one of its possible encoders can be
queried and its 32-bit mask of pipelines contains the pipeline index of an entity of `mid`
that is not connected, the pass ends with an entity Connected to that connector, with the
preferred mode index as active mode and the mode list of the connector. -/
theorem deferred_encoder_fallback_binds (cfg : Config) (K : Kernel) (fuel : Nat)
    (m : DrmDisplayManager)
    (res : drmModeRes) (pre : List Nat) (id : Nat) (post : List Nat)
    (connector : drmModeConnector) (eid : Nat) (encoder : drmModeEncoder)
    (hres : K.drmModeGetResources = some res)
    (hret : PassReturns cfg fuel m)
    (hbind : ∀ pipe output, K.connectOk pipe output = true)
    (hsplit : res.connectors = pre ++ id :: post)
    (hpre : ∀ x ∈ pre, (K.drmModeGetConnector x).isSome = true)
    (hq : K.drmModeGetConnector id = some connector)
    (hconn : connector.connection = DRM_MODE_CONNECTED)
    (hmodes : connector.modes.length ≠ 0)
    (henc : connector.encoder_id = 0)
    (heid : eid ∈ connector.encoders)
    (hqe : K.drmModeGetEncoder eid = some encoder)
    (h32 : encoder.possible_crtcs < 2 ^ 32) :
    ∃ mid1 no_encoder mid m',
      connectEncoders K res.connectors 0 [] (markDisplays cfg m.displays_) =
        .ok (mid1, no_encoder) ∧
      pre.length ∈ no_encoder ∧
      connectNoEncoder K res.connectors (no_encoder.filter fun i => i < pre.length) mid1 =
        .ok mid ∧
      UpdateDisplayState cfg K fuel m = .ok (true, m') ∧
      ((∃ d ∈ mid, d.IsConnected = false ∧
          encoder.possible_crtcs.testBit d.GetDisplayPipe = true) →
        ∃ b ∈ m'.displays_.map DrmDisplay.binding, b.connected = true ∧
          b.output = connector.connector_id ∧
          b.active_mode = preferredMode connector.modes ∧ b.modes = connector.modes) := by
  obtain ⟨m', hm', hb, _, _, _⟩ := UpdateDisplayState_spec cfg K fuel m res hres hret
  have hne : connector.modes ≠ [] := fun h0 => hmodes (by rw [h0]; rfl)
  have hu : usable connector = true := by simp [usable, hconn, hne]
  obtain ⟨hidxs, hfilter⟩ := deferredIdx_split K pre id post connector hpre hq hu henc
  rw [← hsplit] at hidxs hfilter
  have hvalid := deferredIdx_valid K res.connectors res.connectors [] rfl
  simp only [List.length_nil] at hvalid
  have hid : res.connectors[pre.length]? = some id := by
    rw [hsplit, List.getElem?_append_right (Nat.le_refl _)]; simp
  have h2 : connectNoEncoder K res.connectors (deferredIdx K pre 0)
      (runSteps K (steps1 K res.connectors) (markDisplays cfg m.displays_)) =
      .ok (runSteps K ((deferredIdx K pre 0).flatMap (stepsAt K res.connectors))
        (runSteps K (steps1 K res.connectors) (markDisplays cfg m.displays_))) :=
    connectNoEncoder_eq K res.connectors _ _
      (fun i hi => hvalid i (by rw [hidxs]; exact List.mem_append_left _ hi))
  refine ⟨runSteps K (steps1 K res.connectors) (markDisplays cfg m.displays_),
    [] ++ deferredIdx K res.connectors 0,
    runSteps K ((deferredIdx K pre 0).flatMap (stepsAt K res.connectors))
      (runSteps K (steps1 K res.connectors) (markDisplays cfg m.displays_)),
    m', connectEncoders_eq K res.connectors 0 [] _, ?_, ?_, hm', ?_⟩
  · rw [List.nil_append, hidxs]
    exact List.mem_append_right _ (List.mem_cons_self _ _)
  · rw [List.nil_append, hfilter]
    exact h2
  intro hex
  obtain ⟨d, hd, hdc, hbit⟩ := hex
  generalize hmidg : runSteps K ((deferredIdx K pre 0).flatMap (stepsAt K res.connectors))
      (runSteps K (steps1 K res.connectors) (markDisplays cfg m.displays_)) = mid at hd
  -- the steps of the connector, split at the encoder
  obtain ⟨e1, e2, hsplite⟩ := List.append_of_mem heid
  let sB : BindStep := ⟨connector, canDrive encoder⟩
  let f : Nat → Option BindStep := fun i =>
    (K.drmModeGetEncoder i).map fun e => (⟨connector, canDrive e⟩ : BindStep)
  have hsteps : steps2 K res.connectors =
      (deferredIdx K pre 0).flatMap (stepsAt K res.connectors) ++
        (e1.filterMap f ++ sB :: (e2.filterMap f ++
          (deferredIdx K post (pre.length + 1)).flatMap (stepsAt K res.connectors))) := by
    simp only [steps2, hidxs, List.flatMap_append, List.flatMap_cons, stepsAt, hid, hq,
      encoderSteps, hsplite, List.filterMap_append, List.filterMap_cons, hqe, Option.map_some',
      List.append_assoc, List.cons_append, f, sB]
  have hAS : afterSubpasses cfg K res m =
      runSteps K (e2.filterMap f ++
          (deferredIdx K post (pre.length + 1)).flatMap (stepsAt K res.connectors))
        (applyStep K sB (runSteps K (e1.filterMap f) mid)) := by
    simp only [afterSubpasses, hsteps, runSteps_append, runSteps_cons, hmidg]
  -- what holds of an entity bound to the connector
  let Q : DrmDisplay → Prop := fun y => y.IsConnected = true ∧
    y.connector_ = connector.connector_id ∧ y.config_ = preferredMode connector.modes ∧
    y.modes_ = connector.modes
  have hQ : ∀ s : BindStep, s.connector = connector → ∀ x, Q (s.bound x) := by
    intro s hs x
    refine ⟨rfl, ?_, ?_, ?_⟩ <;>
      simp [BindStep.bound, DrmDisplay.ConnectDisplay, DrmDisplay.SetDrmModeInfo, hs]
  have he1 : ∀ s ∈ e1.filterMap f, s.connector = connector := by
    intro s hs
    simp only [List.mem_filterMap, f, Option.map_eq_some'] at hs
    obtain ⟨_, _, _, _, he⟩ := hs
    rw [← he]
  obtain ⟨kd, hkd⟩ := List.mem_iff_getElem?.mp hd
  obtain ⟨y, hy, hPy⟩ := runSteps_invariant K (fun y => y = d ∨ Q y) (e1.filterMap f)
    (fun s hs x _ _ => Or.inr (hQ s (he1 s hs) x)) mid kd d hkd (Or.inl rfl)
  have hX2 : ∃ (k : Nat) (z : DrmDisplay),
      (applyStep K sB (runSteps K (e1.filterMap f) mid))[k]? = some z ∧ Q z := by
    rcases hPy with hyd | hyQ
    · subst hyd
      have htest : sB.test K y = true := by
        simp [BindStep.test, hdc, hbind, sB, canDrive_of_testBit encoder y h32 hbit]
      obtain ⟨k, x, _, _, h3⟩ := bindFirst_exists (sB.test K) sB.bound _
        ⟨y, List.mem_iff_getElem?.mpr ⟨kd, hy⟩, htest⟩
      exact ⟨k, sB.bound x, h3, hQ sB rfl x⟩
    · rcases applyStep_get K sB _ kd y hy with h | ⟨hc, _⟩
      · exact ⟨kd, y, h, hyQ⟩
      · rw [hyQ.1] at hc; cases hc
  obtain ⟨k, z, hz, hQz⟩ := hX2
  have hfin := runSteps_connected K
    (e2.filterMap f ++ (deferredIdx K post (pre.length + 1)).flatMap (stepsAt K res.connectors))
    _ k z hz hQz.1
  rw [← hAS] at hfin
  refine ⟨z.binding, ?_, hQz.1, hQz.2.1, hQz.2.2.1, hQz.2.2.2⟩
  rw [hb]
  exact List.mem_iff_getElem?.mpr ⟨k, finalize_get_connected _ k z hfin hQz.1⟩

/-- C6, witness: connector B reports encoder id 0 and lists two encoders of which only the
second can drive pipeline 1; entity 0 was bound to connector A by the first sub-pass and
entity 1 is unconnected; no mode of B is flagged preferred. Connector B is deferred (index 1)
and entity 1 ends Connected to output 8 with active mode index 0. -/
theorem deferred_encoder_fallback_binds_witness :
    (∃ m', UpdateDisplayState {} fallbackKernel 0 twoPipes = .ok (true, m') ∧
      ∃ b ∈ m'.displays_.map DrmDisplay.binding, b.connected = true ∧ b.output = 8 ∧
        b.active_mode = 0 ∧ b.modes = connectorB.modes) ∧
    connectEncoders fallbackKernel [7, 8] 0 [] (markDisplays {} twoPipes.displays_) =
      .ok (afterDirect, [1]) ∧
    (UpdateDisplayState {} fallbackKernel 0 twoPipes).toOption.map
      (fun r => r.2.displays_.map fun d => (d.IsConnected, d.GetConnectorID, d.config_)) =
      some [(true, 7, 1), (true, 8, 0)] := by
  refine ⟨?_, rfl, by decide⟩
  obtain ⟨mid1, no_encoder, mid, m', h1, _, h2, hm', hbound⟩ :=
    deferred_encoder_fallback_binds {} fallbackKernel 0 twoPipes
      { crtcs := [41, 42], connectors := [7, 8] } [7] 8 [] connectorB 4 encoderForSecond
      rfl (by unfold PassReturns; decide) (fun _ _ => rfl) rfl (by decide) rfl rfl
      (by decide) rfl (by decide) rfl (by decide)
  have h1' : (afterDirect, [1]) = (mid1, no_encoder) :=
    Except.ok.inj ((show connectEncoders fallbackKernel [7, 8] 0 []
      (markDisplays {} twoPipes.displays_) = .ok (afterDirect, [1]) from rfl).symm.trans h1)
  cases h1'
  have h2' : afterDirect = mid :=
    Except.ok.inj ((show connectNoEncoder fallbackKernel [7, 8]
      ([1].filter fun i => decide (i < [7].length)) afterDirect = .ok afterDirect
      from rfl).symm.trans h2)
  cases h2'
  exact ⟨m', hm', hbound ⟨{ pipe_ := 1, crtc_id_ := 42, pending_disconnect_ := true },
    by decide, rfl, by decide⟩⟩

/-- C7: for every manager state from which the pass returns and every snapshot, two passes of
`UpdateDisplayState` in succession against the same snapshot return the same value, and after
the second pass every entity has the binding it had after the first (Connected or not, output
id, active mode index, mode list) and the connected-output count is the same. -/
theorem UpdateDisplayState_idempotent (cfg : Config) (K : Kernel) (fuel : Nat)
    (m : DrmDisplayManager) (h : PassReturns cfg fuel m) :
    ∃ r m1 m2, UpdateDisplayState cfg K fuel m = .ok (r, m1) ∧
      UpdateDisplayState cfg K fuel m1 = .ok (r, m2) ∧
      m2.displays_.map DrmDisplay.binding = m1.displays_.map DrmDisplay.binding ∧
      GetConnectedPhysicalDisplayCount m2 = GetConnectedPhysicalDisplayCount m1 := by
  cases hres : K.drmModeGetResources with
  | none =>
    exact ⟨false, m, m, by simp [UpdateDisplayState, hres], by simp [UpdateDisplayState, hres],
      rfl, rfl⟩
  | some res =>
    obtain ⟨m1, h1, hb1, hc1, _, hp1⟩ := UpdateDisplayState_spec cfg K fuel m res hres h
    obtain ⟨m2, h2, hb2, hc2, _, _⟩ := UpdateDisplayState_spec cfg K fuel m1 res hres hp1
    refine ⟨true, m1, m2, h1, h2, ?_, ?_⟩
    · rw [hb2, hb1]
      apply finalize_sameBinding
      apply runSteps_sameBinding K _ (steps_structural K res.connectors)
      apply markDisplays_sameBinding
      rw [ids_of_binding _ _ hb1, finalize_ids]
      simp only [afterSubpasses, runSteps_ids, markDisplays_ids]
    · simp only [GetConnectedPhysicalDisplayCount, hc1, hc2]

/-- C7, witness: two passes from a state with entity 0 bound to output 7 against a snapshot in
which output 7 is gone and output 8 is connected. -/
theorem UpdateDisplayState_idempotent_witness :
    PassReturns {} 0 boundToSeven ∧
    ∃ r m1 m2, UpdateDisplayState {} replugKernel 0 boundToSeven = .ok (r, m1) ∧
      UpdateDisplayState {} replugKernel 0 m1 = .ok (r, m2) ∧
      m2.displays_.map DrmDisplay.binding = m1.displays_.map DrmDisplay.binding ∧
      GetConnectedPhysicalDisplayCount m2 = GetConnectedPhysicalDisplayCount m1 :=
  ⟨by unfold PassReturns; decide,
   UpdateDisplayState_idempotent {} replugKernel 0 boundToSeven
    (by unfold PassReturns; decide)⟩

/-- C8: when `drmModeGetResources` fails, `UpdateDisplayState` returns `false` and the manager
is unchanged: entities, connected-output count and log are what they were, so the lock was
not taken and no callback, notification or plane pruning was invoked. -/
theorem UpdateDisplayState_snapshot_failure (cfg : Config) (K : Kernel) (fuel : Nat)
    (m : DrmDisplayManager) (h : K.drmModeGetResources = none) :
    UpdateDisplayState cfg K fuel m = .ok (false, m) := by
  simp [UpdateDisplayState, h]

/-- C8, witness: a kernel without resource snapshot and a manager with a bound entity. -/
theorem UpdateDisplayState_snapshot_failure_witness :
    deadKernel.drmModeGetResources = none ∧
    UpdateDisplayState {} deadKernel 0 boundToSeven = .ok (false, boundToSeven) :=
  ⟨rfl, UpdateDisplayState_snapshot_failure {} deadKernel 0 boundToSeven rfl⟩

/-- C9: when the socket delivers `n` datagrams of 1 to `DRM_HOTPLUG_EVENT_SIZE - 1` bytes and
then a failed or empty read, `HotPlugEventHandler` returns, and for each datagram it has
called `UpdateDisplayState` exactly when that datagram, split at its terminators, has a
record `DEVTYPE=drm_minor` and a record `HOTPLUG=1` or `HDMI-Change`: the call for one
datagram does not depend on the other datagrams nor on what they left in the buffer. -/
theorem HotPlugEventHandler_triggers_iff_both_markers (cfg : Config) (SIZE : Nat)
    (read : Nat → Option (List Nat)) (K : Nat → Kernel)
    (sfuel ufuel fuel n : Nat) (m : DrmDisplayManager)
    (hreads : ∀ i, i < n →
      ∃ dg, read i = some dg ∧ 1 ≤ dg.length ∧ dg.length ≤ SIZE - 1)
    (hend : read n = none ∨ read n = some [])
    (hsfuel : SIZE ≤ sfuel) (hfuel : n < fuel) (hret : PassReturns cfg ufuel m) :
    ∃ m', HotPlugEventHandler cfg SIZE read K sfuel ufuel fuel m =
      .ok ((List.range n).map (fun i => hasBothMarkers ((read i).getD [])), m') := by
  obtain ⟨m', h⟩ := HotPlugEventHandlerLoop_spec cfg SIZE read K sfuel ufuel hsfuel n fuel 0
    (List.replicate SIZE 0) [] m (by simp)
    (fun i hi => by simpa using hreads i hi) (by simpa using hend) hfuel hret
  exact ⟨m', by simpa [HotPlugEventHandler] using h⟩

/-- C9, witness: one datagram with a header record, `DEVTYPE=drm_minor` and `HOTPLUG=1`
triggers one pass. -/
theorem HotPlugEventHandler_triggers_iff_both_markers_witness :
    hasBothMarkers hotplugDatagram = true ∧
    ∃ m', HotPlugEventHandler {} 64 oneDatagram (fun _ => deadKernel) 64 0 2 twoPipes =
      .ok ((List.range 1).map (fun i => hasBothMarkers ((oneDatagram i).getD [])), m') :=
  ⟨by decide,
   HotPlugEventHandler_triggers_iff_both_markers {} 64 oneDatagram (fun _ => deadKernel)
    64 0 2 1 twoPipes
    (fun i hi => ⟨hotplugDatagram, by
      have h0 : i = 0 := by omega
      subst h0
      rfl, by decide, by decide⟩)
    (Or.inl rfl) (by decide) (by decide) (by unfold PassReturns; decide)⟩

/-- C10, amended: in a pass over a fetched snapshot, every entity is unconnected once the
entities are marked, so an entity is Connected after the two sub-passes (state `mid`, what
`bindDisplays` returns) exactly when a sub-pass bound it. The pass returns `true`; the
`DisConnect` calls it makes are, in order, those of the entities that are not Connected in
`mid`, and each of these ends Disconnected with output 0, mode index 0 and no mode; an entity
that is Connected in `mid` keeps the binding the sub-pass gave it, to a connector the snapshot
reports connected. So an entity that was Connected before the pass and whose output is no
longer reported connected is afterwards Disconnected or bound to another output, one the
snapshot reports connected. -/
theorem disconnect_transition (cfg : Config) (K : Kernel) (fuel : Nat) (m : DrmDisplayManager)
    (res : drmModeRes) (hres : K.drmModeGetResources = some res)
    (hret : PassReturns cfg fuel m) :
    ∃ mid m', bindDisplays K res.connectors (markDisplays cfg m.displays_) = .ok mid ∧
      UpdateDisplayState cfg K fuel m = .ok (true, m') ∧
      (∀ d ∈ markDisplays cfg m.displays_, d.IsConnected = false) ∧
      mid.map DrmDisplay.ids = m.displays_.map DrmDisplay.ids ∧
      disconnects m'.log = disconnects m.log ++
        (mid.filter fun d => !d.IsConnected).map DrmDisplay.GetDisplayPipe ∧
      (∀ (k : Nat) (d : DrmDisplay), mid[k]? = some d → d.IsConnected = false →
        (m'.displays_.map DrmDisplay.binding)[k]? =
          some ⟨d.GetDisplayPipe, d.CrtcId, false, 0, 0, []⟩) ∧
      (∀ (k : Nat) (d : DrmDisplay), mid[k]? = some d → d.IsConnected = true →
        (m'.displays_.map DrmDisplay.binding)[k]? = some d.binding ∧
        ∃ id ∈ res.connectors, ∃ c, K.drmModeGetConnector id = some c ∧
          c.connection = DRM_MODE_CONNECTED ∧ c.connector_id = d.GetConnectorID) ∧
      (∀ (k : Nat) (d : DrmDisplay) (b : Binding), m.displays_[k]? = some d →
        d.IsConnected = true →
        (∀ id ∈ res.connectors, ∀ c, K.drmModeGetConnector id = some c →
          c.connector_id = d.GetConnectorID → c.connection ≠ DRM_MODE_CONNECTED) →
        (m'.displays_.map DrmDisplay.binding)[k]? = some b →
        b.connected = false ∨
          (b.output ≠ d.GetConnectorID ∧
            ∃ id ∈ res.connectors, ∃ c, K.drmModeGetConnector id = some c ∧
              c.connection = DRM_MODE_CONNECTED ∧ c.connector_id = b.output)) := by
  obtain ⟨m', h1, hb, _, hlog, _⟩ := UpdateDisplayState_spec cfg K fuel m res hres hret
  have hmid : bindDisplays K res.connectors (markDisplays cfg m.displays_) =
      .ok (afterSubpasses cfg K res m) := bindDisplays_eq K res.connectors _
  have hconn : ∀ (k : Nat) (d : DrmDisplay), (afterSubpasses cfg K res m)[k]? = some d →
      d.IsConnected = true →
      (m'.displays_.map DrmDisplay.binding)[k]? = some d.binding ∧
      ∃ id ∈ res.connectors, ∃ c, K.drmModeGetConnector id = some c ∧
        c.connection = DRM_MODE_CONNECTED ∧ c.connector_id = d.GetConnectorID := by
    intro k d hk hc
    refine ⟨?_, afterSubpasses_output cfg K res m d (List.mem_iff_getElem?.mpr ⟨k, hk⟩) hc⟩
    rw [hb]
    exact finalize_get_connected _ k d hk hc
  refine ⟨afterSubpasses cfg K res m, m', hmid, h1, markDisplays_not_connected cfg _, ?_, hlog,
    ?_, hconn, ?_⟩
  · rw [afterSubpasses, runSteps_ids, markDisplays_ids]
  · intro k d hk hc
    rw [hb]
    exact finalize_get_disconnected _ k d hk hc
  · intro k d b _ _ hgone hk
    cases hc : b.connected with
    | false => left; rfl
    | true =>
      right
      rw [hb] at hk
      obtain ⟨x, hx, hxc, hbx⟩ := finalize_get _ k b hk hc
      obtain ⟨_, id, hid, c, hq, hcn, hcid⟩ := hconn k x hx hxc
      subst hbx
      exact ⟨fun hout => hgone id hid c hq (hcid.trans hout) hcn, id, hid, c, hq, hcn, hcid⟩

/-- C10, witness: the pass of the two-pipeline manager over the snapshot with connector A:
entity 0 is bound by the first sub-pass and receives no `DisConnect`, entity 1 is bound by no
sub-pass, receives `DisConnect` and ends Disconnected. -/
theorem disconnect_transition_witness :
    directKernel.drmModeGetResources = some { crtcs := [41, 42], connectors := [7] } ∧
    PassReturns {} 0 twoPipes ∧
    (∃ mid m', bindDisplays directKernel [7] (markDisplays {} twoPipes.displays_) = .ok mid ∧
      UpdateDisplayState {} directKernel 0 twoPipes = .ok (true, m') ∧
      disconnects m'.log = disconnects twoPipes.log ++
        (mid.filter fun d => !d.IsConnected).map DrmDisplay.GetDisplayPipe) ∧
    (bindDisplays directKernel [7] (markDisplays {} twoPipes.displays_)).toOption.map
      (fun mid => mid.map fun d => (d.IsConnected, d.GetConnectorID)) =
      some [(true, 7), (false, 0)] ∧
    (UpdateDisplayState {} directKernel 0 twoPipes).toOption.map
      (fun r => (r.2.displays_.map (fun d => (d.IsConnected, d.GetConnectorID)),
        disconnects r.2.log)) = some ([(true, 7), (false, 0)], [1]) :=
  ⟨rfl, by unfold PassReturns; decide,
   (disconnect_transition {} directKernel 0 twoPipes
      { crtcs := [41, 42], connectors := [7] } rfl (by unfold PassReturns; decide)).imp
     (fun _ h => h.imp fun _ h' => ⟨h'.1, h'.2.1, h'.2.2.2.2.1⟩),
   by decide, by decide⟩

/-- C10, counterexample: entity 0 is Connected to output 7 before the pass; the snapshot
reports output 7 not connected and output 8 connected through an encoder on the pipeline of
entity 0. After the pass entity 0 is Connected (to output 8) and only entity 1 received
`DisConnect`. -/
theorem rebound_entity_is_not_disconnected :
    (boundToSeven.displays_.map fun d => (d.IsConnected, d.GetConnectorID)) =
      [(true, 7), (false, 0)] ∧
    (replugKernel.drmModeGetConnector 7).map
      (fun c => decide (c.connection = DRM_MODE_CONNECTED)) = some false ∧
    (UpdateDisplayState {} replugKernel 0 boundToSeven).toOption.map
      (fun r => (r.1, r.2.displays_.map (fun d => (d.IsConnected, d.GetConnectorID)),
        disconnects r.2.log)) =
      some (true, [(true, 8), (false, 0)], [1]) := by
  decide

/-- C11, amended: in a pass over a fetched snapshot whose tail returns, `UpdateDisplayState`
returns `true` and its events are, in order: the lock is taken; the `DisConnect` calls and the
hot-plug change callback, which is the last event before the release when a callback is
registered; the release; the rest, which holds no change callback. No client-facing call of
the pass (change callback, per-entity connected or disconnected notification) is made while
the lock is free: the change callback is made before the release, the per-entity
notifications under the second acquisition made by `NotifyClientsOfDisplayChangeStatus`. The
lock is free when the pass returns. -/
theorem UpdateDisplayState_lock_discipline (cfg : Config) (K : Kernel) (fuel : Nat)
    (m : DrmDisplayManager)
    (res : drmModeRes) (hres : K.drmModeGetResources = some res)
    (hret : PassReturns cfg fuel m) :
    ∃ m' locked after, UpdateDisplayState cfg K fuel m = .ok (true, m') ∧
      m'.log = m.log ++ Event.lock :: (locked ++ Event.unlock :: after) ∧
      (∀ e ∈ locked, (∃ pipe, e = Event.DisConnect pipe) ∨ ∃ l, e = Event.Callback l) ∧
      (m.callback_ = true → ∃ l, locked.getLast? = some (Event.Callback l)) ∧
      (∀ e ∈ after, ∀ l, e ≠ Event.Callback l) ∧
      callsOutsideLock false (Event.lock :: (locked ++ Event.unlock :: after)) = [] ∧
      heldAfter false (Event.lock :: (locked ++ Event.unlock :: after)) = false := by
  obtain ⟨m1, locked, h1, hlog1, hkind, hcb⟩ := underLock_log cfg K res m
  obtain ⟨m1', h1', hd, _, _, hn⟩ := underLock_eq cfg K res m
  rw [h1] at h1'
  cases h1'
  have hlen1 : m1.displays_.length = m.displays_.length := by
    rw [hd, finalize_length, afterSubpasses_length]
  have hp1 : PassReturns cfg fuel m1 := by
    refine ⟨fun hwa hnot => ?_, fun hr => ?_⟩
    · have := hret.1 hwa (by rw [← hn]; exact hnot)
      intro h0
      apply this
      apply List.eq_nil_of_length_eq_zero
      rw [← hlen1, h0]; rfl
    · rw [hlen1]; exact hret.2 hr
  obtain ⟨m2, notes, released, h2, hlog2, hnotes, hrel⟩ := afterUnlock_log cfg fuel m1 hp1
  obtain ⟨t1, t2, t3⟩ := after_release_trace notes released hnotes hrel
  have hlocked : ∀ e ∈ locked, e ≠ Event.lock ∧ e ≠ Event.unlock := by
    intro e he
    rcases hkind e he with ⟨_, rfl⟩ | ⟨_, rfl⟩ <;> simp
  obtain ⟨r1, r2⟩ := locked_region locked (notes ++ released) hlocked false
  refine ⟨m2, locked, notes ++ released, ?_, ?_, hkind, hcb, t3, ?_, ?_⟩
  · simp [UpdateDisplayState, hres, h1, h2]
  · rw [hlog2, hlog1]; simp
  · rw [r1]; exact t1
  · rw [r2]; exact t2

/-- C11, witness: the pass of the two-pipeline manager over the snapshot with connector A. -/
theorem UpdateDisplayState_lock_discipline_witness :
    directKernel.drmModeGetResources = some { crtcs := [41, 42], connectors := [7] } ∧
    PassReturns {} 0 twoPipes ∧
    ∃ m' locked after, UpdateDisplayState {} directKernel 0 twoPipes = .ok (true, m') ∧
      m'.log = twoPipes.log ++ Event.lock :: (locked ++ Event.unlock :: after) ∧
      (∀ e ∈ locked, (∃ pipe, e = Event.DisConnect pipe) ∨ ∃ l, e = Event.Callback l) ∧
      (twoPipes.callback_ = true → ∃ l, locked.getLast? = some (Event.Callback l)) ∧
      (∀ e ∈ after, ∀ l, e ≠ Event.Callback l) ∧
      callsOutsideLock false (Event.lock :: (locked ++ Event.unlock :: after)) = [] ∧
      heldAfter false (Event.lock :: (locked ++ Event.unlock :: after)) = false :=
  ⟨rfl, by unfold PassReturns; decide,
   UpdateDisplayState_lock_discipline {} directKernel 0 twoPipes _ rfl
    (by unfold PassReturns; decide)⟩

/-- C11, counterexample: in the pass of the two-pipeline manager with a registered callback
over the snapshot with connector A, the change callback and both per-entity notifications are
made while the lock is held. -/
theorem UpdateDisplayState_notifies_under_lock :
    (UpdateDisplayState {} directKernel 0 twoPipes).toOption.map
      (fun r => (r.1, callsUnderLock false r.2.log)) =
      some (true, [Event.Callback [0], Event.NotifyClientOfConnectedState 0,
        Event.NotifyClientOfDisConnectedState 1]) := by
  decide

/-- C12: for a manager with fewer than 256 entities (the range of the `uint8_t` counter of the
loop) and enough fuel, `RemoveUnreservedPlanes` returns a state `m1`, and a second call right
after it returns `m1` again: the log is the same, so no `ReleaseUnreservedPlanes` call is
made, and the entities with their pruned flags and every other member are what the first call
left. -/
theorem RemoveUnreservedPlanes_idempotent (cfg : Config) (fuel : Nat) (m : DrmDisplayManager)
    (hlen : m.displays_.length < 256) (hfuel : m.displays_.length < fuel) :
    ∃ m1, RemoveUnreservedPlanes cfg fuel m = .ok m1 ∧
      RemoveUnreservedPlanes cfg fuel m1 = .ok m1 := by
  refine ⟨_, RemoveUnreservedPlanes_eq cfg fuel m hlen hfuel, ?_⟩
  rw [RemoveUnreservedPlanes_eq cfg fuel _ (by simpa using hlen) (by simpa using hfuel)]
  simp [releaseEvents_pruned, pruneDisplay_idem]

/-- C12, witness: two calls on a manager with one connected and one disconnected entity, with
planes reserved for display 0. -/
theorem RemoveUnreservedPlanes_idempotent_witness :
    boundToSeven.displays_.length < 256 ∧ boundToSeven.displays_.length < 3 ∧
    ∃ m1, RemoveUnreservedPlanes reservedConfig 3 boundToSeven = .ok m1 ∧
      RemoveUnreservedPlanes reservedConfig 3 m1 = .ok m1 :=
  ⟨by decide, by decide,
   RemoveUnreservedPlanes_idempotent reservedConfig 3 boundToSeven (by decide) (by decide)⟩

/-- C13: if master rights are not held, `DropDrmMaster` takes and releases the lock and does
nothing else: no release attempt, no other change of the state. If they are held, for every
sequence of return codes of `drmDropMaster` it returns after `k` attempts with
`1 ≤ k ≤ 10`, every attempt before the last failed, the held-state ends `false` exactly when
the last attempt succeeded, and a failed last attempt is the tenth. -/
theorem DropDrmMaster_contract (drmDropMaster : Nat → Int) (m : DrmDisplayManager) :
    (m.drm_master_ = false → ∀ fuel,
      DropDrmMaster drmDropMaster fuel m = .ok { m with log := m.log ++ [.lock, .unlock] }) ∧
    (m.drm_master_ = true → ∀ fuel, 10 ≤ fuel → ∃ m' k,
      DropDrmMaster drmDropMaster fuel m = .ok m' ∧ 1 ≤ k ∧ k ≤ 10 ∧
      dropMasterAttempts m'.log = dropMasterAttempts m.log + k ∧
      (∀ j, j + 1 < k → drmDropMaster j ≠ 0) ∧
      (m'.drm_master_ = false ↔ drmDropMaster (k - 1) = 0) ∧
      (drmDropMaster (k - 1) ≠ 0 → k = 10)) := by
  constructor
  · intro hm fuel
    simp [DropDrmMaster, DrmDisplayManager.emit, hm]
  · intro hm fuel hfuel
    obtain ⟨m', k, hk, h1, h2, h3, h4, h5, h6⟩ :=
      DropDrmMasterLoop_bounded drmDropMaster fuel 0 (m.emit [.lock]) (by omega) (by omega) hm
    refine ⟨m'.emit [.unlock], k, ?_, h1, h2, ?_, fun j hj => h4 j (Nat.zero_le j) hj, h5, h6⟩
    · simp [DropDrmMaster, DrmDisplayManager.emit, hm, bind, Except.bind, pure, Except.pure]
      simp [DrmDisplayManager.emit, hm] at hk
      rw [hk]
    · simp [DrmDisplayManager.emit, dropMasterAttempts, List.count_append] at h3 ⊢
      omega

/-- C13, witness: a call without master rights, and a call with master rights whose release
fails twice and then succeeds. -/
theorem DropDrmMaster_contract_witness :
    DropDrmMaster failsTwice 0 {} = .ok { log := [.lock, .unlock] } ∧
    ∃ m' k, DropDrmMaster failsTwice 10 heldMaster = .ok m' ∧ 1 ≤ k ∧ k ≤ 10 ∧
      dropMasterAttempts m'.log = dropMasterAttempts heldMaster.log + k ∧
      (∀ j, j + 1 < k → failsTwice j ≠ 0) ∧
      (m'.drm_master_ = false ↔ failsTwice (k - 1) = 0) ∧
      (failsTwice (k - 1) ≠ 0 → k = 10) :=
  ⟨(DropDrmMaster_contract failsTwice {}).1 rfl 0,
   (DropDrmMaster_contract failsTwice heldMaster).2 rfl 10 (Nat.le_refl 10)⟩

/-- C14: when master rights are held, `IsDrmMasterByDefault` returns `true`, makes no
`drmGetMagic` or `drmAuthMagic` call and changes nothing but the log, to which it adds the
taking and the release of the lock. Otherwise it calls `drmGetMagic` exactly once, calls
`drmAuthMagic` once if the token was obtained and not at all if it was not, ends with
held-state `true` exactly when both calls succeeded, changes no other member, and returns the
resulting held-state. After a call that ended with held-state `true`, a further call makes no
kernel call and returns `true`, whatever the kernel would answer. -/
theorem IsDrmMasterByDefault_single_shot (drmGetMagic drmAuthMagic : Int) (m : DrmDisplayManager) :
    (m.drm_master_ = true →
      IsDrmMasterByDefault drmGetMagic drmAuthMagic m =
        (true, { m with log := m.log ++ [.lock, .unlock] })) ∧
    (m.drm_master_ = false →
      ∃ m', IsDrmMasterByDefault drmGetMagic drmAuthMagic m = (m'.drm_master_, m') ∧
        getMagicCalls m'.log = getMagicCalls m.log + 1 ∧
        authMagicCalls m'.log = authMagicCalls m.log + (if drmGetMagic = 0 then 1 else 0) ∧
        (m'.drm_master_ = true ↔ drmGetMagic = 0 ∧ drmAuthMagic = 0) ∧
        { m' with log := m.log, drm_master_ := m.drm_master_ } = m ∧
        (m'.drm_master_ = true → ∀ g a,
          IsDrmMasterByDefault g a m' = (true, { m' with log := m'.log ++ [.lock, .unlock] }))) := by
  have hheld : ∀ (x : DrmDisplayManager) (g a : Int), x.drm_master_ = true →
      IsDrmMasterByDefault g a x = (true, { x with log := x.log ++ [.lock, .unlock] }) := by
    intro x g a hx
    simp [IsDrmMasterByDefault, DrmDisplayManager.emit, hx]
  refine ⟨hheld m _ _, ?_⟩
  intro hm
  by_cases hg : drmGetMagic = 0
  · by_cases ha : drmAuthMagic = 0
    · refine ⟨{ m with drm_master_ := true,
                       log := m.log ++ [.lock, .drmGetMagic, .drmAuthMagic, .unlock] },
        ?_, ?_, ?_, ?_, ?_, ?_⟩
      · simp [IsDrmMasterByDefault, DrmDisplayManager.emit, hm, hg, ha]
      · simp [getMagicCalls, List.count_append]
      · simp [authMagicCalls, List.count_append, hg]
      · simp [hg, ha]
      · rfl
      · intro h g a; exact hheld _ g a h
    · refine ⟨{ m with log := m.log ++ [.lock, .drmGetMagic, .drmAuthMagic, .unlock] },
        ?_, ?_, ?_, ?_, ?_, ?_⟩
      · simp [IsDrmMasterByDefault, DrmDisplayManager.emit, hm, hg, ha]
      · simp [getMagicCalls, List.count_append]
      · simp [authMagicCalls, List.count_append, hg]
      · simp [hg, ha, hm]
      · simp
      · intro h g a; exact hheld _ g a h
  · refine ⟨{ m with log := m.log ++ [.lock, .drmGetMagic, .unlock] }, ?_, ?_, ?_, ?_, ?_, ?_⟩
    · simp [IsDrmMasterByDefault, DrmDisplayManager.emit, hm, hg]
    · simp [getMagicCalls, List.count_append]
    · simp [authMagicCalls, List.count_append, hg]
    · simp [hg, hm]
    · simp
    · intro h g a; exact hheld _ g a h

/-- C14, witness: a call with master rights held, and a call without them in which both
kernel calls succeed. -/
theorem IsDrmMasterByDefault_single_shot_witness :
    IsDrmMasterByDefault 0 0 heldMaster =
      (true, { heldMaster with log := heldMaster.log ++ [.lock, .unlock] }) ∧
    ∃ m', IsDrmMasterByDefault 0 0 {} = (m'.drm_master_, m') ∧
      getMagicCalls m'.log = getMagicCalls ({} : DrmDisplayManager).log + 1 ∧
      authMagicCalls m'.log =
        authMagicCalls ({} : DrmDisplayManager).log + (if (0 : Int) = 0 then 1 else 0) ∧
      (m'.drm_master_ = true ↔ (0 : Int) = 0 ∧ (0 : Int) = 0) ∧
      { m' with log := ({} : DrmDisplayManager).log,
                drm_master_ := ({} : DrmDisplayManager).drm_master_ } = {} ∧
      (m'.drm_master_ = true → ∀ g a,
        IsDrmMasterByDefault g a m' = (true, { m' with log := m'.log ++ [.lock, .unlock] })) :=
  ⟨(IsDrmMasterByDefault_single_shot 0 0 heldMaster).1 rfl,
   (IsDrmMasterByDefault_single_shot 0 0 {}).2 rfl⟩

/-- C15: when the registry holds a display under `display_index`, `CreateVirtualDisplay` leaves
the manager, and so the whole registry, unchanged and returns the handle of the display
registered under the index, not that of the display it constructed. When the registry holds
no entry under `display_index`, it returns the handle of the new display, adds the one entry
for it and changes nothing else: the new display is found under `display_index` and every
other index finds what it found before. -/
theorem CreateVirtualDisplay_overwrites_nothing (handle display_index : Nat)
    (m : DrmDisplayManager) :
    (∀ v, findVirtual display_index m.virtual_displays_ = some v →
      CreateVirtualDisplay handle display_index m = .ok (v.handle, m)) ∧
    (findVirtual display_index m.virtual_displays_ = none →
      ∃ m', CreateVirtualDisplay handle display_index m = .ok (handle, m') ∧
        m' = { m with virtual_displays_ := m.virtual_displays_ ++
          [(display_index, { handle := handle, fd := m.fd_, display_index := display_index })] } ∧
        findVirtual display_index m'.virtual_displays_ =
          some { handle := handle, fd := m.fd_, display_index := display_index } ∧
        ∀ key, key ≠ display_index →
          findVirtual key m'.virtual_displays_ = findVirtual key m.virtual_displays_) := by
  constructor
  · intro v hv
    simp [CreateVirtualDisplay, emplaceVirtual, hv]
  · intro hnone
    refine ⟨_, ?_, rfl, ?_, ?_⟩
    · simp [CreateVirtualDisplay, emplaceVirtual, hnone, findVirtual_append, findVirtual]
    · simp [findVirtual_append, hnone, findVirtual]
    · intro key hkey
      have hne : ¬ display_index = key := fun h => hkey h.symm
      cases hk : findVirtual key m.virtual_displays_ <;>
        simp [findVirtual_append, hk, findVirtual, hne]

/-- C15, witness: a registry with a display under index 2; a creation on index 2 and a
creation on index 3. -/
theorem CreateVirtualDisplay_overwrites_nothing_witness :
    findVirtual 2 oneVirtual.virtual_displays_ =
      some { handle := 100, fd := 5, display_index := 2 } ∧
    findVirtual 3 oneVirtual.virtual_displays_ = none ∧
    CreateVirtualDisplay 200 2 oneVirtual = .ok (100, oneVirtual) ∧
    ∃ m', CreateVirtualDisplay 200 3 oneVirtual = .ok (200, m') ∧
      m' = { oneVirtual with virtual_displays_ := oneVirtual.virtual_displays_ ++
        [(3, { handle := 200, fd := oneVirtual.fd_, display_index := 3 })] } ∧
      findVirtual 3 m'.virtual_displays_ =
        some { handle := 200, fd := oneVirtual.fd_, display_index := 3 } ∧
      ∀ key, key ≠ 3 →
        findVirtual key m'.virtual_displays_ = findVirtual key oneVirtual.virtual_displays_ :=
  ⟨rfl, rfl,
   (CreateVirtualDisplay_overwrites_nothing 200 2 oneVirtual).1
    { handle := 100, fd := 5, display_index := 2 } rfl,
   (CreateVirtualDisplay_overwrites_nothing 200 3 oneVirtual).2 rfl⟩

/-- C16: a pass over a fetched snapshot returns `true` for every kernel, so no lookup
`mode.at(preferred_mode)` of a bind attempt is out of range; and every entity bound by one of
the two sub-passes (the entities Connected when the pass ends) is bound to a connector of the
snapshot with a non-empty mode list, holds the mode list of that connector, and has as active
mode the index handed to the bind attempt, which is `preferredMode` of that list: an index
smaller than the length of the list, the index of the flagged mode when exactly one mode is
flagged preferred, and 0 when no mode is flagged. Both sub-passes do make the bind attempt
with this index. First sub-pass: for a connected connector with a mode, a non-zero encoder id
and an encoder on pipeline id `c ≠ 0`, the first unconnected entity with pipeline id `c`,
when its bind attempt succeeds, is left Connected with `preferredMode` of the connector as
active mode. Second sub-pass: for a deferred connector with a mode and a possible encoder
that can drive an unconnected entity whose bind attempt succeeds, an entity that was
unconnected is left Connected to it with `preferredMode` of the connector as active mode. -/
theorem preferred_mode_selection (cfg : Config) (K : Kernel) (fuel : Nat)
    (m : DrmDisplayManager) (res : drmModeRes) (hres : K.drmModeGetResources = some res)
    (hret : PassReturns cfg fuel m) :
    (∃ m', UpdateDisplayState cfg K fuel m = .ok (true, m') ∧
      ∀ b ∈ m'.displays_.map DrmDisplay.binding, b.connected = true →
        ∃ id ∈ res.connectors, ∃ connector, K.drmModeGetConnector id = some connector ∧
          connector.modes ≠ [] ∧ b.output = connector.connector_id ∧
          b.modes = connector.modes ∧ b.active_mode = preferredMode connector.modes ∧
          b.active_mode < connector.modes.length ∧
          (∀ (k : Nat) (md : drmModeModeInfo), connector.modes[k]? = some md →
            md.type &&& DRM_MODE_TYPE_PREFERRED ≠ 0 →
            (∀ (j : Nat) (x : drmModeModeInfo), j ≠ k → connector.modes[j]? = some x →
              x.type &&& DRM_MODE_TYPE_PREFERRED = 0) →
            b.active_mode = k) ∧
          ((∀ md ∈ connector.modes, md.type &&& DRM_MODE_TYPE_PREFERRED = 0) →
            b.active_mode = 0)) ∧
    (∀ (id : Nat) (connector : drmModeConnector) (encoder : drmModeEncoder) (i : Nat)
        (no_encoder : List Nat) (displays : List DrmDisplay) (j : Nat) (d : DrmDisplay),
      K.drmModeGetConnector id = some connector →
      connector.connection = DRM_MODE_CONNECTED → connector.modes ≠ [] →
      connector.encoder_id ≠ 0 → K.drmModeGetEncoder connector.encoder_id = some encoder →
      encoder.crtc_id ≠ 0 →
      displays[j]? = some d → d.IsConnected = false → d.CrtcId = encoder.crtc_id →
      K.connectOk d.GetDisplayPipe connector.connector_id = true →
      (∀ (k : Nat) (x : DrmDisplay), k < j → displays[k]? = some x →
        x.IsConnected = true ∨ x.CrtcId ≠ encoder.crtc_id) →
      connectEncoders K [id] i no_encoder displays =
        .ok (displays.set j
          ((d.ConnectDisplay connector (preferredMode connector.modes)).SetDrmModeInfo
            connector.modes), no_encoder)) ∧
    (∀ (connectors : List Nat) (idx id : Nat) (connector : drmModeConnector) (eid : Nat)
        (encoder : drmModeEncoder) (displays : List DrmDisplay) (d : DrmDisplay),
      connectors[idx]? = some id → K.drmModeGetConnector id = some connector →
      connector.modes ≠ [] → eid ∈ connector.encoders →
      K.drmModeGetEncoder eid = some encoder →
      d ∈ displays → d.IsConnected = false → canDrive encoder d = true →
      K.connectOk d.GetDisplayPipe connector.connector_id = true →
      ∃ (out : List DrmDisplay) (k : Nat) (x : DrmDisplay),
        connectNoEncoder K connectors [idx] displays = .ok out ∧
        displays[k]? = some x ∧ x.IsConnected = false ∧
        out[k]? = some
          ((x.ConnectDisplay connector (preferredMode connector.modes)).SetDrmModeInfo
            connector.modes)) := by
  refine ⟨?_, ?_, ?_⟩
  · obtain ⟨m', h1, hb, _, _, _⟩ := UpdateDisplayState_spec cfg K fuel m res hres hret
    refine ⟨m', h1, ?_⟩
    intro b hmem hc
    rw [hb] at hmem
    obtain ⟨y, hy, hcase | hcase⟩ := finalize_binding_mem _ b hmem
    · obtain ⟨hyc, hby⟩ := hcase
      subst hby
      obtain ⟨id, hid, c, hq, _, hne, hcid, hmodes, hcfg⟩ :=
        afterSubpasses_bound cfg K res m y hy hyc
      have hlen : c.modes.length ≠ 0 := fun h0 => hne (List.length_eq_zero.mp h0)
      have hact : y.binding.active_mode = preferredMode c.modes := hcfg
      refine ⟨id, hid, c, hq, hne, hcid.symm, hmodes, hact, ?_, ?_, ?_⟩
      · rw [hact]; exact preferredMode_lt c.modes hlen
      · intro k md hk hmd hothers
        rw [hact]; exact (preferredMode_rules c.modes).1 k md hk hmd hothers
      · intro hnone
        rw [hact]; exact (preferredMode_rules c.modes).2 hnone
    · obtain ⟨_, hby⟩ := hcase
      subst hby
      cases hc
  · intro id connector encoder i no_encoder displays j d hq hconn hne henc hqe hcrtc hj hd1
      hd2 hok hlow
    exact connectEncoders_single K id connector encoder i no_encoder displays j d hq hconn hne
      henc hqe hcrtc hj hd1 hd2 hok hlow
  · intro connectors idx id connector eid encoder displays d hid hq hne heid hqe hd hdc hdrive
      hok
    exact connectNoEncoder_single K connectors idx id connector eid encoder displays d hid hq
      hne heid hqe hd hdc hdrive hok

/-- C16, witness: the pass of the two-pipeline manager over the snapshot with connector A
(bound by the first sub-pass, its second mode alone flagged) and connector B (bound by the
second sub-pass, no mode flagged): entity 0 ends with active mode 1, entity 1 with active
mode 0. With a deferred connector whose second mode alone is flagged, the second sub-pass
binds with active mode 1. -/
theorem preferred_mode_selection_witness :
    fallbackKernel.drmModeGetResources = some { crtcs := [41, 42], connectors := [7, 8] } ∧
    PassReturns {} 0 twoPipes ∧
    (∃ m', UpdateDisplayState {} fallbackKernel 0 twoPipes = .ok (true, m') ∧
      ∀ b ∈ m'.displays_.map DrmDisplay.binding, b.connected = true →
        ∃ id ∈ [7, 8], ∃ connector, fallbackKernel.drmModeGetConnector id = some connector ∧
          connector.modes ≠ [] ∧ b.output = connector.connector_id ∧
          b.modes = connector.modes ∧ b.active_mode = preferredMode connector.modes ∧
          b.active_mode < connector.modes.length ∧
          (∀ (k : Nat) (md : drmModeModeInfo), connector.modes[k]? = some md →
            md.type &&& DRM_MODE_TYPE_PREFERRED ≠ 0 →
            (∀ (j : Nat) (x : drmModeModeInfo), j ≠ k → connector.modes[j]? = some x →
              x.type &&& DRM_MODE_TYPE_PREFERRED = 0) →
            b.active_mode = k) ∧
          ((∀ md ∈ connector.modes, md.type &&& DRM_MODE_TYPE_PREFERRED = 0) →
            b.active_mode = 0)) ∧
    connectEncoders fallbackKernel [7] 0 [] (markDisplays {} twoPipes.displays_) =
      .ok ((markDisplays {} twoPipes.displays_).set 0
        { pipe_ := 0, crtc_id_ := 41, connector_ := 7, connected_ := true,
          modes_ := connectorA.modes, config_ := 1 }, []) ∧
    (∃ (out : List DrmDisplay) (k : Nat) (x : DrmDisplay),
      connectNoEncoder fallbackKernel [7, 8] [1] afterDirect = .ok out ∧
      afterDirect[k]? = some x ∧ x.IsConnected = false ∧
      out[k]? = some
        ((x.ConnectDisplay connectorB (preferredMode connectorB.modes)).SetDrmModeInfo
          connectorB.modes)) ∧
    (UpdateDisplayState {} fallbackKernel 0 twoPipes).toOption.map
      (fun r => r.2.displays_.map fun d => (d.IsConnected, d.GetConnectorID, d.config_)) =
      some [(true, 7, 1), (true, 8, 0)] ∧
    (UpdateDisplayState {} deferredPreferredKernel 0 twoPipes).toOption.map
      (fun r => r.2.displays_.map fun d => (d.IsConnected, d.GetConnectorID, d.config_)) =
      some [(true, 8, 1), (false, 0, 0)] :=
  ⟨rfl, by unfold PassReturns; decide,
   (preferred_mode_selection {} fallbackKernel 0 twoPipes
    { crtcs := [41, 42], connectors := [7, 8] } rfl (by unfold PassReturns; decide)).1,
   (preferred_mode_selection {} fallbackKernel 0 twoPipes
    { crtcs := [41, 42], connectors := [7, 8] } rfl (by unfold PassReturns; decide)).2.1
    7 connectorA encoderOnFirst 0 [] (markDisplays {} twoPipes.displays_) 0
    { pipe_ := 0, crtc_id_ := 41, pending_disconnect_ := true }
    rfl rfl (by decide) (by decide) rfl (by decide) rfl rfl rfl rfl
    (fun k _ hk => absurd hk (Nat.not_lt_zero k)),
   (preferred_mode_selection {} fallbackKernel 0 twoPipes
    { crtcs := [41, 42], connectors := [7, 8] } rfl (by unfold PassReturns; decide)).2.2
    [7, 8] 1 8 connectorB 4 encoderForSecond afterDirect
    { pipe_ := 1, crtc_id_ := 42, pending_disconnect_ := true }
    rfl rfl (by decide) (by decide) rfl (by decide) rfl (by decide) rfl,
   by decide, by decide⟩

/-- C17: in a pass over a fetched snapshot in which every connector query succeeds (and whose
tail returns), `UpdateDisplayState` returns `true` and `GetConnectedPhysicalDisplayCount`
then returns the number of connectors of the snapshot whose connection flag is
`DRM_MODE_CONNECTED`, whatever the count was before, whatever modes and encoders the
connectors have and whichever entities were bound. -/
theorem connected_output_count (cfg : Config) (K : Kernel) (fuel : Nat) (m : DrmDisplayManager)
    (res : drmModeRes) (hres : K.drmModeGetResources = some res)
    (hret : PassReturns cfg fuel m)
    (hquery : ∀ id ∈ res.connectors, (K.drmModeGetConnector id).isSome = true)
    (hcount : res.connectors.length < 2 ^ 32) :
    ∃ m', UpdateDisplayState cfg K fuel m = .ok (true, m') ∧
      GetConnectedPhysicalDisplayCount m' =
        res.connectors.countP fun id =>
          (K.drmModeGetConnector id).any fun c => c.connection == DRM_MODE_CONNECTED := by
  obtain ⟨m', h1, _, hc, _, _⟩ := UpdateDisplayState_spec cfg K fuel m res hres hret
  refine ⟨m', h1, ?_⟩
  rw [GetConnectedPhysicalDisplayCount, hc,
    countConnected_all K res.connectors 0 hquery (by omega)]
  omega

/-- C17, witness: the snapshot with connector A and connector B, both connected, and a
manager whose count was 0. -/
theorem connected_output_count_witness :
    fallbackKernel.drmModeGetResources = some { crtcs := [41, 42], connectors := [7, 8] } ∧
    PassReturns {} 0 twoPipes ∧
    (∀ id ∈ [7, 8], (fallbackKernel.drmModeGetConnector id).isSome = true) ∧
    ∃ m', UpdateDisplayState {} fallbackKernel 0 twoPipes = .ok (true, m') ∧
      GetConnectedPhysicalDisplayCount m' =
        [7, 8].countP fun id =>
          (fallbackKernel.drmModeGetConnector id).any fun c =>
            c.connection == DRM_MODE_CONNECTED :=
  ⟨rfl, by unfold PassReturns; decide, by decide,
   connected_output_count {} fallbackKernel 0 twoPipes
    { crtcs := [41, 42], connectors := [7, 8] }
    rfl (by unfold PassReturns; decide) (by decide) (by decide)⟩

/-- C18, at the failing input: the snapshot has one pipeline, the primary node cannot be
opened, and `Initialize` returns `true` with an empty entity collection. -/
theorem Initialize_true_without_entities :
    noPrimary.drmModeGetResources.map (fun res => res.crtcs.length) = some 1 ∧
    ({} : DrmDisplayManager).displays_ = [] ∧
    (Initialize {} noPrimary {}).toOption.map (fun r => (r.1, r.2.displays_.length)) =
      some (true, 0) := by
  decide

/-- C19: for a manager with fewer than 256 entities (the range of the `uint8_t` counter of the
loop) and enough fuel, `RemoveUnreservedPlanes` returns; the `ReleaseUnreservedPlanes` calls
it makes are, in the order of the entities, those for the entities that are connected, not
yet pruned and whose reserved-plane set is non-empty with fewer than 4 elements, each with
that set; an entity that is connected and not yet pruned is marked pruned and every other
entity is left as it is; nothing else changes, and every connected entity is marked pruned
in the state returned. -/
theorem RemoveUnreservedPlanes_selection (cfg : Config) (fuel : Nat) (m : DrmDisplayManager)
    (hlen : m.displays_.length < 256) (hfuel : m.displays_.length < fuel) :
    ∃ m', RemoveUnreservedPlanes cfg fuel m = .ok m' ∧
      m' = { m with
        displays_ := m.displays_.map fun d =>
          if d.IsConnected && !d.IsPlanesUpdated then d.SetPlanesUpdated true else d,
        log := m.log ++ (m.displays_.enum.filter fun e =>
            e.2.IsConnected && !e.2.IsPlanesUpdated &&
              !(cfg.GetDisplayReservedPlanes e.1).isEmpty &&
              decide ((cfg.GetDisplayReservedPlanes e.1).length < 4)).map fun e =>
            Event.ReleaseUnreservedPlanes e.2.GetDisplayPipe
              (cfg.GetDisplayReservedPlanes e.1) } ∧
      ∀ d ∈ m'.displays_, d.IsConnected = true → d.IsPlanesUpdated = true := by
  refine ⟨_, RemoveUnreservedPlanes_eq cfg fuel m hlen hfuel, ?_, ?_⟩
  · have h1 : m.displays_.map pruneDisplay = m.displays_.map fun d =>
        if d.IsConnected && !d.IsPlanesUpdated then d.SetPlanesUpdated true else d :=
      List.map_congr_left fun d _ => pruneDisplay_eq d
    rw [h1, releaseEvents_enum]
    rfl
  · intro d hd hc
    simp only [List.mem_map] at hd
    obtain ⟨x, _, hx⟩ := hd
    have := pruneDisplay_skips x
    rw [hx] at this
    simpa [skipsPruning, hc] using this

/-- C19, witness: a manager with one connected and one disconnected entity, with planes
reserved for display 0. -/
theorem RemoveUnreservedPlanes_selection_witness :
    boundToSeven.displays_.length < 256 ∧ boundToSeven.displays_.length < 3 ∧
    ∃ m', RemoveUnreservedPlanes reservedConfig 3 boundToSeven = .ok m' ∧
      m' = { boundToSeven with
        displays_ := boundToSeven.displays_.map fun d =>
          if d.IsConnected && !d.IsPlanesUpdated then d.SetPlanesUpdated true else d,
        log := boundToSeven.log ++ (boundToSeven.displays_.enum.filter fun e =>
            e.2.IsConnected && !e.2.IsPlanesUpdated &&
              !(reservedConfig.GetDisplayReservedPlanes e.1).isEmpty &&
              decide ((reservedConfig.GetDisplayReservedPlanes e.1).length < 4)).map fun e =>
            Event.ReleaseUnreservedPlanes e.2.GetDisplayPipe
              (reservedConfig.GetDisplayReservedPlanes e.1) } ∧
      ∀ d ∈ m'.displays_, d.IsConnected = true → d.IsPlanesUpdated = true :=
  ⟨by decide, by decide,
   RemoveUnreservedPlanes_selection reservedConfig 3 boundToSeven (by decide) (by decide)⟩

/-- C20: a failed or empty read makes the handler loop return at once, with no pass triggered
and the manager unchanged. For a datagram of `ret` bytes with
`1 ≤ ret ≤ DRM_HOTPLUG_EVENT_SIZE - 1` and any previous content of the buffer: `ret` is
smaller than the size of the buffer, so the terminator written at index `ret` is inside it;
at every offset `i < ret` the record compared ends at an offset `≤ ret`, is the same when the
bytes behind index `ret` are cut off, and the next offset `i + strlen + 1` is larger than
`i`; and the scan returns with fuel `ret + 1`, with the result it has on the buffer cut off
behind index `ret`. -/
theorem HotPlugEventHandler_scan_safety (cfg : Config) (SIZE : Nat) (read : Nat → Option
    (List Nat)) (K : Nat → Kernel)
    (sfuel ufuel : Nat) :
    (∀ (fuel n : Nat) (buffer : List Nat) (calls : List Bool) (m : DrmDisplayManager),
      (read n = none ∨ read n = some []) →
      HotPlugEventHandlerLoop cfg SIZE read K sfuel ufuel (fuel + 1) n buffer calls m =
        .ok (calls, m)) ∧
    (∀ buffer datagram : List Nat, buffer.length = SIZE → 1 ≤ datagram.length →
      datagram.length ≤ SIZE - 1 →
      (receive SIZE buffer datagram).1 = datagram.length ∧
      (receive SIZE buffer datagram).2.length = SIZE ∧
      (receive SIZE buffer datagram).1 < (receive SIZE buffer datagram).2.length ∧
      (receive SIZE buffer datagram).2[(receive SIZE buffer datagram).1]? = some 0 ∧
      (∀ i, i < (receive SIZE buffer datagram).1 →
        ∃ event, cstring (receive SIZE buffer datagram).2 i = some event ∧
          i + event.length ≤ (receive SIZE buffer datagram).1 ∧
          i < i + event.length + 1 ∧
          cstring ((receive SIZE buffer datagram).2.take
            ((receive SIZE buffer datagram).1 + 1)) i = some event) ∧
      (∀ fuel, (receive SIZE buffer datagram).1 < fuel →
        ∃ flags, scanLoop (receive SIZE buffer datagram).2 (receive SIZE buffer datagram).1
            fuel 0 false false = .ok flags ∧
          scanLoop ((receive SIZE buffer datagram).2.take
            ((receive SIZE buffer datagram).1 + 1)) (receive SIZE buffer datagram).1
            fuel 0 false false = .ok flags)) := by
  constructor
  · intro fuel n buffer calls m hread
    rcases hread with h | h
    · simp [HotPlugEventHandlerLoop, h]
    · simp [HotPlugEventHandlerLoop, h, receive]
  · intro buffer datagram hbuf h1 h2
    rw [receive_eq SIZE buffer datagram hbuf h2 h1]
    have htake : (datagram ++ 0 :: buffer.drop (datagram.length + 1)).take
        (datagram.length + 1) = datagram ++ [0] := by
      rw [List.take_append_eq_append_take]
      simp
    simp only [htake]
    refine ⟨trivial, ?_, ?_, ?_, ?_, ?_⟩
    · simp; omega
    · simp
    · rw [List.getElem?_append_right (Nat.le_refl _)]; simp
    · intro i hi
      obtain ⟨event, e1, e2, e3⟩ := cstring_received datagram
        (buffer.drop (datagram.length + 1)) i hi
      exact ⟨event, e1, e2, by omega, e3⟩
    · intro fuel hfuel
      obtain ⟨flags, hflags, _⟩ := scanLoop_spec (buffer.drop (datagram.length + 1)) fuel
        datagram [] false false hfuel
      have ht := scanLoop_tail (buffer.drop (datagram.length + 1)) [] fuel datagram []
        false false
      simp only [List.nil_append, List.length_nil, Nat.zero_add] at hflags ht
      exact ⟨flags, hflags, by rw [← ht]; exact hflags⟩

/-- C20, witness: a failed read, and a datagram of three bytes without terminator received
in a buffer of 64 bytes. -/
theorem HotPlugEventHandler_scan_safety_witness :
    HotPlugEventHandlerLoop {} 64 oneDatagram (fun _ => deadKernel) 4 0 1 1
      (List.replicate 64 0) [] twoPipes = .ok ([], twoPipes) ∧
    (List.replicate 64 0).length = 64 ∧ 1 ≤ malformedDatagram.length ∧
    malformedDatagram.length ≤ 64 - 1 ∧
    (receive 64 (List.replicate 64 0) malformedDatagram).1 <
      (receive 64 (List.replicate 64 0) malformedDatagram).2.length ∧
    ∃ flags, scanLoop (receive 64 (List.replicate 64 0) malformedDatagram).2
        (receive 64 (List.replicate 64 0) malformedDatagram).1 4 0 false false = .ok flags ∧
      scanLoop ((receive 64 (List.replicate 64 0) malformedDatagram).2.take
        ((receive 64 (List.replicate 64 0) malformedDatagram).1 + 1))
        (receive 64 (List.replicate 64 0) malformedDatagram).1 4 0 false false = .ok flags :=
  ⟨(HotPlugEventHandler_scan_safety {} 64 oneDatagram (fun _ => deadKernel) 4 0).1 0 1
      (List.replicate 64 0) [] twoPipes (Or.inl rfl),
   by decide, by decide, by decide,
   ((HotPlugEventHandler_scan_safety {} 64 oneDatagram (fun _ => deadKernel) 4 0).2
      (List.replicate 64 0) malformedDatagram (by decide) (by decide) (by decide)).2.2.1,
   ((HotPlugEventHandler_scan_safety {} 64 oneDatagram (fun _ => deadKernel) 4 0).2
      (List.replicate 64 0) malformedDatagram (by decide) (by decide) (by decide)).2.2.2.2.2
      4 (by decide)⟩

end hwcomposer
